import Mathlib

/-!
Verification of the blocky-writer PDF form-inspection and form-filling core
(`src/rust/pdftool_core/src/lib.rs`).

The Rust source is shallowly embedded: PDF objects become the inductive
`PdfObj`, the lopdf `Document` becomes the record `Doc` (an association table of
objects plus a trailer), byte strings become `List Nat`, decoded Rust `String`s
become `Text := List Char`, and fallible operations return `Option` or
`Except CoreErrorPayload`.  Every definition follows the corresponding Rust
function line by line; theorems at the end of the file settle the specification
claims against these definitions.
-/

namespace BlockyWriter

/-- Decoded Rust strings are lists of characters. -/
abbrev Text := List Char

/-- Raw PDF byte strings (`Vec<u8>` in the source). -/
abbrev Bytes := List Nat

/-- lopdf `ObjectId`: a pair of object number and generation number. -/
abbrev ObjectId := Nat × Nat

/-- The characters with the Unicode `White_Space` property, which is what
Rust's `char::is_whitespace` (used by `str::trim`) tests. -/
def rustIsWhitespace (c : Char) : Bool :=
  c.toNat ∈ ([0x9, 0xA, 0xB, 0xC, 0xD, 0x20, 0x85, 0xA0, 0x1680,
    0x2000, 0x2001, 0x2002, 0x2003, 0x2004, 0x2005, 0x2006, 0x2007,
    0x2008, 0x2009, 0x200A, 0x2028, 0x2029, 0x202F, 0x205F, 0x3000] : List Nat)

/-- The NUL character, `char::from(0)` in the source. -/
def nulChar : Char := Char.ofNat 0

/-- Strip every leading and trailing character satisfying `p`; this is the
semantics of Rust's `str::trim_matches` (and of `str::trim` with the
whitespace predicate).  Characters in the interior are left alone. -/
def trimBy (p : Char → Bool) (s : Text) : Text :=
  List.rdropWhile p (s.dropWhile p)

/-- Rust `str::trim`. -/
def rustTrim (s : Text) : Text := trimBy rustIsWhitespace s

/-- Rust `str::trim_matches(char::from(0))`. -/
def trimNulEnds (s : Text) : Text := trimBy (fun c => c = nulChar) s

/-- Rust `char::to_ascii_lowercase`. -/
def toAsciiLower (c : Char) : Char :=
  if 'A' ≤ c ∧ c ≤ 'Z' then Char.ofNat (c.toNat + 32) else c

/-- Rust `str::to_ascii_lowercase` on a decoded string. -/
def textAsciiLower (s : Text) : Text := s.map toAsciiLower

/-- Rust `u8::to_ascii_lowercase`. -/
def byteAsciiLower (b : Nat) : Nat :=
  if 65 ≤ b ∧ b ≤ 90 then b + 32 else b

/-- Rust `<[u8]>::eq_ignore_ascii_case`. -/
def bytesEqIgnoreAsciiCase (a b : Bytes) : Bool :=
  a.map byteAsciiLower = b.map byteAsciiLower

/-- The Unicode replacement character U+FFFD substituted by lossy decoding. -/
def replacementChar : Char := Char.ofNat 0xFFFD

/-- Whether a byte is a UTF-8 continuation byte (`10xxxxxx`). -/
def isUtf8Cont (b : Nat) : Bool := 0x80 ≤ b ∧ b ≤ 0xBF

/-- Admissible second byte of a three-byte UTF-8 sequence headed by `b1`
(the narrowed ranges exclude overlong forms and surrogates). -/
def utf8Cont3Ok (b1 b2 : Nat) : Bool :=
  if b1 = 0xE0 then 0xA0 ≤ b2 ∧ b2 ≤ 0xBF
  else if b1 = 0xED then 0x80 ≤ b2 ∧ b2 ≤ 0x9F
  else isUtf8Cont b2

/-- Admissible second byte of a four-byte UTF-8 sequence headed by `b1`
(the narrowed ranges exclude overlong forms and values above U+10FFFF). -/
def utf8Cont4Ok (b1 b2 : Nat) : Bool :=
  if b1 = 0xF0 then 0x90 ≤ b2 ∧ b2 ≤ 0xBF
  else if b1 = 0xF4 then 0x80 ≤ b2 ∧ b2 ≤ 0x8F
  else isUtf8Cont b2

/-- Rust `String::from_utf8_lossy`: decode UTF-8, substituting U+FFFD for
ill-formed sequences.  The engine relies on this decoding never failing. -/
def utf8DecodeLossy : Bytes → Text
  | [] => []
  | b1 :: rest =>
    if b1 ≤ 0x7F then Char.ofNat b1 :: utf8DecodeLossy rest
    else if 0xC2 ≤ b1 ∧ b1 ≤ 0xDF then
      match h2 : rest with
      | [] => [replacementChar]
      | b2 :: rest2 =>
        if isUtf8Cont b2 then
          Char.ofNat ((b1 - 0xC0) * 0x40 + (b2 - 0x80)) :: utf8DecodeLossy rest2
        else replacementChar :: utf8DecodeLossy rest
    else if 0xE0 ≤ b1 ∧ b1 ≤ 0xEF then
      match h2 : rest with
      | [] => [replacementChar]
      | b2 :: rest2 =>
        if utf8Cont3Ok b1 b2 then
          match h3 : rest2 with
          | [] => [replacementChar]
          | b3 :: rest3 =>
            if isUtf8Cont b3 then
              Char.ofNat ((b1 - 0xE0) * 0x1000 + (b2 - 0x80) * 0x40 + (b3 - 0x80)) ::
                utf8DecodeLossy rest3
            else replacementChar :: utf8DecodeLossy rest2
        else replacementChar :: utf8DecodeLossy rest
    else if 0xF0 ≤ b1 ∧ b1 ≤ 0xF4 then
      match h2 : rest with
      | [] => [replacementChar]
      | b2 :: rest2 =>
        if utf8Cont4Ok b1 b2 then
          match h3 : rest2 with
          | [] => [replacementChar]
          | b3 :: rest3 =>
            if isUtf8Cont b3 then
              match h4 : rest3 with
              | [] => [replacementChar]
              | b4 :: rest4 =>
                if isUtf8Cont b4 then
                  Char.ofNat ((b1 - 0xF0) * 0x40000 + (b2 - 0x80) * 0x1000 +
                    (b3 - 0x80) * 0x40 + (b4 - 0x80)) :: utf8DecodeLossy rest4
                else replacementChar :: utf8DecodeLossy rest3
            else replacementChar :: utf8DecodeLossy rest2
        else replacementChar :: utf8DecodeLossy rest
    else replacementChar :: utf8DecodeLossy rest
termination_by bs => bs.length
decreasing_by all_goals simp_all <;> omega

/-- UTF-8 encoding of one character (Rust `str::as_bytes` on its scalar
values). -/
def utf8EncodeChar (c : Char) : Bytes :=
  let n := c.toNat
  if n ≤ 0x7F then [n]
  else if n ≤ 0x7FF then [0xC0 + n / 0x40, 0x80 + n % 0x40]
  else if n ≤ 0xFFFF then
    [0xE0 + n / 0x1000, 0x80 + n / 0x40 % 0x40, 0x80 + n % 0x40]
  else
    [0xF0 + n / 0x40000, 0x80 + n / 0x1000 % 0x40, 0x80 + n / 0x40 % 0x40,
      0x80 + n % 0x40]

/-- Rust `str::as_bytes`: the UTF-8 encoding of a decoded string. -/
def utf8Encode (s : Text) : Bytes := (s.map utf8EncodeChar).flatten

/-- lopdf `StringFormat`, the encoding tag carried by String objects. -/
inductive StrFormat where
  | literal
  | hexadecimal

/-- lopdf `Object`: the tagged variant of PDF values.  Streams carry data the
engine never inspects, so the `stream` variant is left bare. -/
inductive PdfObj where
  | null
  | boolean (b : Bool)
  | integer (i : Int)
  | real (r : Rat)
  | name (bytes : Bytes)
  | str (bytes : Bytes) (fmt : StrFormat)
  | array (items : List PdfObj)
  | dict (entries : List (Bytes × PdfObj))
  | stream
  | reference (id : ObjectId)

/-- lopdf `Dictionary`: an insertion-ordered association list. -/
abbrev Dict := List (Bytes × PdfObj)

/-- lopdf `Object::string_literal`. -/
def stringLiteral (s : Text) : PdfObj := .str (utf8Encode s) .literal

/-- `object_to_number` (src line 55): Integer and Real coerce, everything else
is absent.  The `f32` values of the source are modelled exactly as rationals. -/
def object_to_number : PdfObj → Option Rat
  | .integer i => some (i : Rat)
  | .real r => some r
  | _ => none

/-- `rect_from_object` (src line 63): decode a 4-element array of numerics into
`(x, y, width, height)`. -/
def rect_from_object (obj : PdfObj) : Option (Rat × Rat × Rat × Rat) :=
  match obj with
  | .array values =>
    match values with
    | [v0, v1, v2, v3] =>
      match object_to_number v0, object_to_number v1,
            object_to_number v2, object_to_number v3 with
      | some llx, some lly, some urx, some ury =>
        some (min llx urx, min lly ury, |urx - llx|, |ury - lly|)
      | _, _, _, _ => none
    | _ => none
  | _ => none

/-- `object_to_text` (src line 84): the bytes of a String or Name object,
lossily decoded, with NULs trimmed from both ends and then whitespace trimmed
from both ends; the empty result is absent. -/
def object_to_text (obj : PdfObj) : Option Text :=
  match obj with
  | .str bytes _ => object_to_text_raw bytes
  | .name bytes => object_to_text_raw bytes
  | _ => none
where
  /-- The decode-trim pipeline shared by both variants. -/
  object_to_text_raw (raw : Bytes) : Option Text :=
    let text := rustTrim (trimNulEnds (utf8DecodeLossy raw))
    if text = [] then none else some text

/-- `object_to_name` (src line 110): Name bytes lossily decoded and
whitespace-trimmed; empty is absent. -/
def object_to_name (obj : PdfObj) : Option Text :=
  match obj with
  | .name nm =>
    let value := rustTrim (utf8DecodeLossy nm)
    if value = [] then none else some value
  | _ => none

/-- `object_as_reference` (src line 138). -/
def object_as_reference : PdfObj → Option ObjectId
  | .reference id => some id
  | _ => none

/-- The ASCII bytes of a constant key, for the byte-exact comparisons of the
source (`b"Kids"`, `b"Off"`, and so on). -/
def bytesOfAscii (s : String) : Bytes := s.data.map Char.toNat

def bT : Bytes := bytesOfAscii "T"
def bFT : Bytes := bytesOfAscii "FT"
def bParent : Bytes := bytesOfAscii "Parent"
def bKids : Bytes := bytesOfAscii "Kids"
def bSubtype : Bytes := bytesOfAscii "Subtype"
def bWidget : Bytes := bytesOfAscii "Widget"
def bAP : Bytes := bytesOfAscii "AP"
def bN : Bytes := bytesOfAscii "N"
def bOff : Bytes := bytesOfAscii "Off"
def bYes : Bytes := bytesOfAscii "Yes"
def bV : Bytes := bytesOfAscii "V"
def bDV : Bytes := bytesOfAscii "DV"
def bAS : Bytes := bytesOfAscii "AS"
def bRect : Bytes := bytesOfAscii "Rect"
def bFields : Bytes := bytesOfAscii "Fields"
def bAcroForm : Bytes := bytesOfAscii "AcroForm"
def bRoot : Bytes := bytesOfAscii "Root"
def bNeedAppearances : Bytes := bytesOfAscii "NeedAppearances"

/-- lopdf `Document`, reduced to what the engine touches: the object table
(`BTreeMap<ObjectId, Object>`, keys unique), the trailer dictionary, and the
running maximum object number used by `add_object`. -/
structure Doc where
  objects : List (ObjectId × PdfObj)
  trailer : Dict
  maxId : Nat

/-- The set of ids present in the object table (used as the termination
measure of the graph walks). -/
def docIds (d : Doc) : Finset ObjectId := (d.objects.map Prod.fst).toFinset

/-- lopdf `Document::get_object`, as a partial lookup. -/
def docLookup (d : Doc) (id : ObjectId) : Option PdfObj :=
  (d.objects.find? (fun p => p.1 = id)).map Prod.snd

/-- lopdf `Dictionary::get`: the first entry with the given key. -/
def dictGet (e : Dict) (k : Bytes) : Option PdfObj :=
  (e.find? (fun p => p.1 = k)).map Prod.snd

/-- lopdf `Dictionary::set` (`LinkedHashMap::insert`): replace the value of an
existing key in place, otherwise append the new entry at the end. -/
def dictSet (e : Dict) (k : Bytes) (v : PdfObj) : Dict :=
  if e.any (fun p => p.1 = k) then
    e.map (fun p => if p.1 = k then (k, v) else p)
  else e ++ [(k, v)]

/-- Replace the object stored at `id` (the effect of `get_object_mut`). -/
def docSetObj (d : Doc) (id : ObjectId) (o : PdfObj) : Doc :=
  { d with objects := d.objects.map (fun p => if p.1 = id then (id, o) else p) }

/-- lopdf `Document::add_object`: bump `max_id` and insert under the fresh id. -/
def addObject (d : Doc) (o : PdfObj) : Doc × ObjectId :=
  let nid : ObjectId := (d.maxId + 1, 0)
  ({ objects := d.objects ++ [(nid, o)], trailer := d.trailer, maxId := d.maxId + 1 }, nid)

/-- `Object::as_dict` (lopdf): only the Dictionary variant succeeds. -/
def asDict : PdfObj → Option Dict
  | .dict e => some e
  | _ => none

/-- `resolve_object` (src line 48): dereference a Reference through the object
table (absent when dangling), clone anything else. -/
def resolve_object (d : Doc) (obj : PdfObj) : Option PdfObj :=
  match obj with
  | .reference id => docLookup d id
  | _ => some obj

/-- `dict_text` (src line 102): fetch `key`, resolve indirection, extract text;
when resolution fails, fall back to the unresolved value. -/
def dict_text (d : Doc) (dict : Dict) (key : Bytes) : Option Text :=
  match dictGet dict key with
  | none => none
  | some obj =>
    match resolve_object d obj with
    | some resolved => object_to_text resolved
    | none => object_to_text obj

/-- `CoreErrorPayload` (src line 19): the structured error envelope. -/
structure CoreErrorPayload where
  code : String
  message : Text
  context : Option Text
  deriving DecidableEq

/-- `CoreResult` (src line 25). -/
abbrev CoreResult (α : Type) := Except CoreErrorPayload α

/-- `core_error` (src line 27). -/
def core_error (code : String) (message : Text) : CoreErrorPayload :=
  ⟨code, message, none⟩

/-- `core_error_with_context` (src line 31). -/
def core_error_with_context (code : String) (message : Text) (context : Option Text) :
    CoreErrorPayload :=
  ⟨code, message, context⟩

/-- The message of a lopdf lookup failure (`err.to_string()`); its exact text
is irrelevant to every claim. -/
def msgObjectNotFound : Text := "object not found".data

/-- The message of a lopdf type mismatch (`err.to_string()`). -/
def msgTypeMismatch : Text := "type mismatch".data

/-- `get_dict` (src line 145): fetch the object and require a dictionary,
wrapping both failures in the given code and context. -/
def getDict (d : Doc) (id : ObjectId) (code : String) (context : Text) :
    CoreResult Dict :=
  match docLookup d id with
  | none => .error (core_error_with_context code msgObjectNotFound (some context))
  | some o =>
    match asDict o with
    | some e => .ok e
    | none => .error (core_error_with_context code msgTypeMismatch (some context))

/-- The combination `get_dict_mut(...)?.set(key, value)` used by every mutation
in the source (src lines 154-166 with the call sites' single `set`). -/
def docSetDictKey (d : Doc) (id : ObjectId) (k : Bytes) (v : PdfObj)
    (code : String) (context : Text) : CoreResult Doc :=
  match docLookup d id with
  | none => .error (core_error_with_context code msgObjectNotFound (some context))
  | some o =>
    match asDict o with
    | some e => .ok (docSetObj d id (.dict (dictSet e k v)))
    | none => .error (core_error_with_context code msgTypeMismatch (some context))

/-- `is_widget_dict` (src line 168). -/
def is_widget_dict (e : Dict) : Bool :=
  match dictGet e bSubtype with
  | some (.name nm) => nm = bWidget
  | _ => false

/-- `is_widget_object` (src line 175). -/
def is_widget_object (d : Doc) (id : ObjectId) : Bool :=
  match docLookup d id with
  | some (.dict e) => is_widget_dict e
  | _ => false

/-- `root_catalog_id` (src line 179). -/
def root_catalog_id (d : Doc) : CoreResult ObjectId :=
  match dictGet d.trailer bRoot with
  | none =>
    .error (core_error_with_context "BW_PDF_ROOT_MISSING" msgObjectNotFound
      (some "trailer.Root".data))
  | some root =>
    match object_as_reference root with
    | some id => .ok id
    | none =>
      .error (core_error_with_context "BW_PDF_ROOT_INVALID"
        "trailer.Root is not an object reference".data (some "trailer.Root".data))

/-- `ensure_acroform_object` (src line 193): keep a Reference's id; clone an
inline dictionary into a fresh object and repoint the catalog at it. -/
def ensure_acroform_object (d : Doc) (catalogId : ObjectId) :
    CoreResult (Doc × ObjectId) := do
  let catalog ← getDict d catalogId "BW_FORM_CATALOG_INVALID" "catalog dictionary".data
  match dictGet catalog bAcroForm with
  | none =>
    .error (core_error_with_context "BW_FORM_MISSING_ACROFORM" msgObjectNotFound
      (some "catalog.AcroForm".data))
  | some (.reference id) => .ok (d, id)
  | some (.dict e) =>
    let p := addObject d (.dict e)
    let d2 ← docSetDictKey p.1 catalogId bAcroForm (.reference p.2)
      "BW_FORM_CATALOG_INVALID" "catalog dictionary".data
    .ok (d2, p.2)
  | some _ =>
    .error (core_error_with_context "BW_FORM_ACROFORM_INVALID"
      "catalog.AcroForm must be a dictionary or reference".data
      (some "catalog.AcroForm".data))

theorem docLookup_mem_ids {d : Doc} {id : ObjectId} {o : PdfObj}
    (h : docLookup d id = some o) : id ∈ docIds d := by
  unfold docLookup at h
  unfold docIds
  rcases hf : d.objects.find? (fun p => p.1 = id) with _ | p
  · rw [hf] at h; simp at h
  · have hm := List.find?_some hf
    have hmem := List.mem_of_find?_eq_some hf
    simp only [decide_eq_true_eq] at hm
    subst hm
    simp only [List.mem_toFinset, List.mem_map]
    exact ⟨p, hmem, rfl⟩

theorem card_sdiff_insert_lt {d : Doc} {seen : Finset ObjectId} {id : ObjectId}
    (hid : id ∈ docIds d) (hmem : id ∉ seen) :
    (docIds d \ insert id seen).card < (docIds d \ seen).card := by
  apply Finset.card_lt_card
  rw [Finset.ssubset_iff_of_subset
    (Finset.sdiff_subset_sdiff (Finset.Subset.refl _) (Finset.subset_insert id seen))]
  exact ⟨id, by simp [hid, hmem], by simp⟩

theorem card_sdiff_le_of_subset {u s t : Finset ObjectId} (h : s ⊆ t) :
    (u \ t).card ≤ (u \ s).card :=
  Finset.card_le_card (Finset.sdiff_subset_sdiff (Finset.Subset.refl _) h)

theorem dictGet_sizeOf {e : Dict} {k : Bytes} {v : PdfObj}
    (h : dictGet e k = some v) : sizeOf v < sizeOf e := by
  unfold dictGet at h
  rcases hf : e.find? (fun p => p.1 = k) with _ | p
  · rw [hf] at h; simp at h
  · rw [hf] at h
    simp only [Option.map_some', Option.some.injEq] at h
    have hmem := List.mem_of_find?_eq_some hf
    have hs := List.sizeOf_lt_of_mem hmem
    rcases p with ⟨a, b⟩
    simp only [Prod.mk.sizeOf_spec] at hs
    cases h
    show sizeOf b < sizeOf e
    omega

mutual
/-- `collect_field_ids` (src line 232), on a single source object.  The result
carries the fact that the visited set only grows, which also drives the
termination argument: every recursion through the object table inserts a fresh
id into `seen` first, so revisits (including reference cycles) return at once. -/
def collect_field_ids (d : Doc) :
    (source : PdfObj) → (out : List ObjectId) → (seen : Finset ObjectId) →
    { r : List ObjectId × Finset ObjectId // seen ⊆ r.2 }
  | .reference id, out, seen =>
    if hmem : id ∈ seen then ⟨(out, seen), Finset.Subset.refl _⟩
    else
      match hl : docLookup d id with
      | some (.dict entries) =>
        match hk : dictGet entries bKids with
        | some kids =>
          let r := collect_field_ids d kids (out ++ [id]) (insert id seen)
          ⟨r.val, Finset.Subset.trans (Finset.subset_insert id seen) r.property⟩
        | none => ⟨(out ++ [id], insert id seen), Finset.subset_insert id seen⟩
      | _ => ⟨(out ++ [id], insert id seen), Finset.subset_insert id seen⟩
  | .array items, out, seen => collect_field_ids_list d items out seen
  | .dict entries, out, seen =>
    match hk : dictGet entries bKids with
    | some kids => collect_field_ids d kids out seen
    | none => ⟨(out, seen), Finset.Subset.refl _⟩
  | _, out, seen => ⟨(out, seen), Finset.Subset.refl _⟩
termination_by src out seen => ((docIds d \ seen).card, sizeOf src)
decreasing_by
  · exact Prod.Lex.left _ _ (card_sdiff_insert_lt (docLookup_mem_ids hl) hmem)
  · exact Prod.Lex.right _ (by simp)
  · exact Prod.Lex.right _ (by have := dictGet_sizeOf hk; simp; omega)

/-- The `Object::Array` arm of `collect_field_ids`: fold over the elements,
threading the output list and the visited set. -/
def collect_field_ids_list (d : Doc) :
    (items : List PdfObj) → (out : List ObjectId) → (seen : Finset ObjectId) →
    { r : List ObjectId × Finset ObjectId // seen ⊆ r.2 }
  | [], out, seen => ⟨(out, seen), Finset.Subset.refl _⟩
  | x :: xs, out, seen =>
    let r := collect_field_ids d x out seen
    let r2 := collect_field_ids_list d xs r.val.1 r.val.2
    ⟨r2.val, Finset.Subset.trans r.property r2.property⟩
termination_by items out seen => ((docIds d \ seen).card, sizeOf items)
decreasing_by
  · exact Prod.Lex.right _ (by simp only [List.cons.sizeOf_spec]; omega)
  · rcases Nat.lt_or_ge ((docIds d \ r.val.2).card) ((docIds d \ seen).card) with hlt | hge
    · exact Prod.Lex.left _ _ hlt
    · have hle := card_sdiff_le_of_subset (u := docIds d) r.property
      rw [le_antisymm hle hge]
      exact Prod.Lex.right _ (by simp)
end

mutual
/-- `collect_widget_ids_for_field` (src line 310): like `collect_field_ids`
but only referenced Widget dictionaries contribute ids; inline dictionaries
have no stable identity and contribute nothing. -/
def collect_widget_ids_for_field (d : Doc) :
    (source : PdfObj) → (out : List ObjectId) → (seen : Finset ObjectId) →
    { r : List ObjectId × Finset ObjectId // seen ⊆ r.2 }
  | .reference id, out, seen =>
    if hmem : id ∈ seen then ⟨(out, seen), Finset.Subset.refl _⟩
    else
      let out2 := if is_widget_object d id then out ++ [id] else out
      match hl : docLookup d id with
      | some (.dict entries) =>
        match hk : dictGet entries bKids with
        | some kids =>
          let r := collect_widget_ids_for_field d kids out2 (insert id seen)
          ⟨r.val, Finset.Subset.trans (Finset.subset_insert id seen) r.property⟩
        | none => ⟨(out2, insert id seen), Finset.subset_insert id seen⟩
      | _ => ⟨(out2, insert id seen), Finset.subset_insert id seen⟩
  | .array items, out, seen => collect_widget_ids_for_field_list d items out seen
  | .dict entries, out, seen =>
    match hk : dictGet entries bKids with
    | some kids => collect_widget_ids_for_field d kids out seen
    | none => ⟨(out, seen), Finset.Subset.refl _⟩
  | _, out, seen => ⟨(out, seen), Finset.Subset.refl _⟩
termination_by src out seen => ((docIds d \ seen).card, sizeOf src)
decreasing_by
  · exact Prod.Lex.left _ _ (card_sdiff_insert_lt (docLookup_mem_ids hl) hmem)
  · exact Prod.Lex.right _ (by simp)
  · exact Prod.Lex.right _ (by have := dictGet_sizeOf hk; simp; omega)

/-- The `Object::Array` arm of `collect_widget_ids_for_field`. -/
def collect_widget_ids_for_field_list (d : Doc) :
    (items : List PdfObj) → (out : List ObjectId) → (seen : Finset ObjectId) →
    { r : List ObjectId × Finset ObjectId // seen ⊆ r.2 }
  | [], out, seen => ⟨(out, seen), Finset.Subset.refl _⟩
  | x :: xs, out, seen =>
    let r := collect_widget_ids_for_field d x out seen
    let r2 := collect_widget_ids_for_field_list d xs r.val.1 r.val.2
    ⟨r2.val, Finset.Subset.trans r.property r2.property⟩
termination_by items out seen => ((docIds d \ seen).card, sizeOf items)
decreasing_by
  · exact Prod.Lex.right _ (by simp only [List.cons.sizeOf_spec]; omega)
  · rcases Nat.lt_or_ge ((docIds d \ r.val.2).card) ((docIds d \ seen).card) with hlt | hge
    · exact Prod.Lex.left _ _ hlt
    · have hle := card_sdiff_le_of_subset (u := docIds d) r.property
      rw [le_antisymm hle hge]
      exact Prod.Lex.right _ (by simp)
end

/-- `field_parent_id` (src line 259). -/
def field_parent_id (d : Doc) (field_id : ObjectId) : Option ObjectId :=
  match (docLookup d field_id).bind asDict with
  | none => none
  | some dict => (dictGet dict bParent).bind object_as_reference

/-- `field_partial_name` (src line 267). -/
def field_partial_name (d : Doc) (field_id : ObjectId) : Option Text :=
  match (docLookup d field_id).bind asDict with
  | none => none
  | some dict => dict_text d dict bT

/-- `field_full_name` (src line 272): the ancestor walk composing dotted
names, cut off at depth 48. -/
def field_full_name (d : Doc) (field_id : ObjectId) (depth : Nat) : Option Text :=
  if _h : depth > 48 then none
  else
    match field_parent_id d field_id, field_partial_name d field_id with
    | some parent_id, some nm =>
      match field_full_name d parent_id (depth + 1) with
      | some parent_name => some (parent_name ++ '.' :: nm)
      | none => some nm
    | some parent_id, none => field_full_name d parent_id (depth + 1)
    | none, some nm => some nm
    | none, none => none
termination_by 49 - depth
decreasing_by all_goals omega

/-- `field_type` (src line 288): the first ancestor with a usable `FT` name
wins; cut off at depth 48. -/
def field_type (d : Doc) (field_id : ObjectId) (depth : Nat) : Option Text :=
  if _h : depth > 48 then none
  else
    match (docLookup d field_id).bind asDict with
    | none => none
    | some dict =>
      let own : Option Text :=
        match dictGet dict bFT with
        | none => none
        | some ftObj =>
          match (match resolve_object d ftObj with
                 | some resolved => object_to_name resolved
                 | none => none) with
          | some nm => some nm
          | none => object_to_name ftObj
      match own with
      | some nm => some nm
      | none =>
        match field_parent_id d field_id with
        | some parent_id => field_type d parent_id (depth + 1)
        | none => none
termination_by 49 - depth
decreasing_by all_goals omega

/-- `FieldDescriptor` (src line 342). -/
structure FieldDescriptor where
  id : ObjectId
  partial_name : Option Text
  full_name : Option Text
  field_type : Option Text
  widget_ids : List ObjectId

/-- `describe_field` (src line 351). -/
def describe_field (d : Doc) (field_id : ObjectId) : FieldDescriptor :=
  let pn := field_partial_name d field_id
  let fn := field_full_name d field_id 0
  let ft := field_type d field_id 0
  let start : List ObjectId × Finset ObjectId :=
    if is_widget_object d field_id then ([field_id], {field_id}) else ([], ∅)
  let widget_ids :=
    match docLookup d field_id with
    | some (.dict e) =>
      match dictGet e bKids with
      | some kids => (collect_widget_ids_for_field d kids start.1 start.2).val.1
      | none => start.1
    | _ => start.1
  ⟨field_id, pn, fn, ft, widget_ids⟩

/-- The string-keyed input map (`HashMap<String, String>`), with unique keys. -/
abbrev FieldMap := List (Text × Text)

/-- `HashMap::get` on the input map. -/
def mapGet (m : FieldMap) (k : Text) : Option Text :=
  (m.find? (fun p => p.1 = k)).map Prod.snd

/-- `field_input_value` (src line 377): the full name is consulted first and
the partial name only on a miss. -/
def field_input_value (descriptor : FieldDescriptor) (fields : FieldMap) :
    Option Text :=
  match descriptor.full_name with
  | some fn =>
    match mapGet fields fn with
    | some v => some v
    | none =>
      match descriptor.partial_name with
      | some pn => mapGet fields pn
      | none => none
  | none =>
    match descriptor.partial_name with
    | some pn => mapGet fields pn
    | none => none

/-- The first key of a normal-appearance dictionary that is not `"Off"`
(the iteration inside `widget_on_state`). -/
def firstNonOffKey : Dict → Option Bytes
  | [] => none
  | (k, _) :: rest => if k ≠ bOff then some k else firstNonOffKey rest

/-- `widget_on_state` (src line 391): follow `AP → N` and return the first
non-`"Off"` key of the normal appearance dictionary. -/
def widget_on_state (d : Doc) (widget_id : ObjectId) : Option Bytes := do
  let widget ← (docLookup d widget_id).bind asDict
  let ap ← dictGet widget bAP
  let apResolved ← resolve_object d ap
  let apDict ← asDict apResolved
  let normal ← dictGet apDict bN
  let normalResolved ← resolve_object d normal
  let normalDict ← asDict normalResolved
  firstNonOffKey normalDict

/-- The context text `format!("widget {:?}", widget_id)`. -/
def widgetContext (id : ObjectId) : Text :=
  "widget (".data ++ (Nat.repr id.1).data ++ ", ".data ++ (Nat.repr id.2).data ++ ")".data

/-- The context text `format!("field {:?}", id)`. -/
def fieldContext (id : ObjectId) : Text :=
  "field (".data ++ (Nat.repr id.1).data ++ ", ".data ++ (Nat.repr id.2).data ++ ")".data

/-- `set_widget_as` (src line 407). -/
def set_widget_as (d : Doc) (widget_id : ObjectId) (value : Bytes) : CoreResult Doc :=
  docSetDictKey d widget_id bAS (.name value) "BW_FILL_WIDGET_UPDATE_FAILED"
    (widgetContext widget_id)

/-- `set_field_text_value` (src line 418): one `get_dict_mut`, then `V` and
`DV` both set to the literal string. -/
def set_field_text_value (d : Doc) (descriptor : FieldDescriptor) (value : Text) :
    CoreResult Doc :=
  match docLookup d descriptor.id with
  | none =>
    .error (core_error_with_context "BW_FILL_FIELD_UPDATE_FAILED" msgObjectNotFound
      (some (fieldContext descriptor.id)))
  | some o =>
    match asDict o with
    | some e =>
      .ok (docSetObj d descriptor.id
        (.dict (dictSet (dictSet e bV (stringLiteral value)) bDV (stringLiteral value))))
    | none =>
      .error (core_error_with_context "BW_FILL_FIELD_UPDATE_FAILED" msgTypeMismatch
        (some (fieldContext descriptor.id)))

/-- `is_truthy` (src line 430). -/
def is_truthy (value : Text) : Bool :=
  ["true".data, "yes".data, "on".data, "1".data, "checked".data, "x".data].contains value

/-- `is_falsey` (src line 434). -/
def is_falsey (value : Text) : Bool :=
  [[], "false".data, "no".data, "off".data, "0".data, "unchecked".data].contains value

/-- The radio-selection loop of `set_button_value` (src lines 457-463): the
matched widget's `AS` becomes the selected state, every other widget's `AS`
becomes `"Off"`. -/
def setButtonWidgetsRadio (d : Doc) (ids : List ObjectId) (selId : ObjectId)
    (selState : Bytes) : CoreResult Doc :=
  match ids with
  | [] => .ok d
  | wid :: rest => do
    let d2 ← set_widget_as d wid (if wid = selId then selState else bOff)
    setButtonWidgetsRadio d2 rest selId selState

/-- The truthy multi-widget loop of `set_button_value` (src lines 474-482):
the chosen widget takes its own on-state (default `"Yes"`) and updates the
running field value; the rest are set to `"Off"`. -/
def setButtonWidgetsTruthyMulti (d : Doc) (ids : List ObjectId) (chosen : ObjectId)
    (fv : Bytes) : CoreResult (Doc × Bytes) :=
  match ids with
  | [] => .ok (d, fv)
  | wid :: rest =>
    if wid = chosen then do
      let state := (widget_on_state d wid).getD bYes
      let d2 ← set_widget_as d wid state
      setButtonWidgetsTruthyMulti d2 rest chosen state
    else do
      let d2 ← set_widget_as d wid bOff
      setButtonWidgetsTruthyMulti d2 rest chosen fv

/-- The truthy single-widget loop of `set_button_value` (src lines 489-492):
each widget's `AS` is its own on-state, defaulting to the field value. -/
def setButtonWidgetsTruthySingle (d : Doc) (ids : List ObjectId) (fv : Bytes) :
    CoreResult Doc :=
  match ids with
  | [] => .ok d
  | wid :: rest => do
    let wv := (widget_on_state d wid).getD fv
    let d2 ← set_widget_as d wid wv
    setButtonWidgetsTruthySingle d2 rest fv

/-- The falsey loop of `set_button_value` (src lines 495-497): every widget's
`AS` becomes `"Off"`. -/
def setButtonWidgetsOff (d : Doc) (ids : List ObjectId) : CoreResult Doc :=
  match ids with
  | [] => .ok d
  | wid :: rest => do
    let d2 ← set_widget_as d wid bOff
    setButtonWidgetsOff d2 rest

/-- The message `format!("button value '{}' does not match available widget
states", raw_value)`. -/
def buttonValueInvalidMsg (raw_value : Text) : Text :=
  "button value '".data ++ raw_value ++ "' does not match available widget states".data

/-- The `widget_states` collection of `set_button_value` (src lines 441-445):
each widget of the descriptor paired with its on-state, widgets without an
appearance omitted. -/
def widget_states (d : Doc) (descriptor : FieldDescriptor) : List (ObjectId × Bytes) :=
  descriptor.widget_ids.filterMap
    (fun id => (widget_on_state d id).map (fun st => (id, st)))

/-- The branch dispatch of `set_button_value` (src lines 439-498): the radio
selection, the truthy checked cases, and the falsey unchecked case, each
returning the mutated document together with the final `field_value` that the
tail of the function writes into `V`. -/
def set_button_value_step (d : Doc) (descriptor : FieldDescriptor)
    (raw_value : Text) : CoreResult (Doc × Bytes) :=
  let normalized := textAsciiLower (rustTrim raw_value)
  if descriptor.widget_ids.length > 1 ∧ ¬ is_truthy normalized ∧
      ¬ is_falsey normalized then
    let requested := utf8Encode normalized
    match (widget_states d descriptor).find?
        (fun p => bytesEqIgnoreAsciiCase p.2 requested) with
    | some sel =>
      (setButtonWidgetsRadio d descriptor.widget_ids sel.1 sel.2).map
        (fun d2 => (d2, sel.2))
    | none =>
      .error (core_error_with_context "BW_FILL_BUTTON_VALUE_INVALID"
        (buttonValueInvalidMsg raw_value)
        (descriptor.full_name.or descriptor.partial_name))
  else if is_truthy normalized then
    if descriptor.widget_ids.length > 1 then
      match descriptor.widget_ids with
      | chosen :: _ => setButtonWidgetsTruthyMulti d descriptor.widget_ids chosen bOff
      | [] => .ok (d, bOff)
    else
      let fv := (descriptor.widget_ids.head?.bind (widget_on_state d)).getD bYes
      (setButtonWidgetsTruthySingle d descriptor.widget_ids fv).map
        (fun d2 => (d2, fv))
  else
    (setButtonWidgetsOff d descriptor.widget_ids).map (fun d2 => (d2, bOff))

/-- `set_button_value` (src line 438): run the branch dispatch, then write the
resulting `field_value` into the field's `V` as a Name object (src line 506). -/
def set_button_value (d : Doc) (descriptor : FieldDescriptor) (raw_value : Text) :
    CoreResult Doc := do
  let r ← set_button_value_step d descriptor raw_value
  docSetDictKey r.1 descriptor.id bV (.name r.2) "BW_FILL_FIELD_UPDATE_FAILED"
    (fieldContext descriptor.id)

/-- The message `format!("unsupported PDF form field type '{}'", other)`. -/
def unsupportedTypeMsg (other : Text) : Text :=
  "unsupported PDF form field type '".data ++ other ++ "'".data

/-- `apply_field_value` (src line 510): dispatch on the effective field type,
defaulting to `"Tx"`. -/
def apply_field_value (d : Doc) (descriptor : FieldDescriptor) (value : Text) :
    CoreResult Doc :=
  let ftype := descriptor.field_type.getD "Tx".data
  if ftype = "Tx".data ∨ ftype = "Ch".data then
    set_field_text_value d descriptor value
  else if ftype = "Btn".data then
    set_button_value d descriptor value
  else
    .error (core_error_with_context "BW_FILL_UNSUPPORTED_FIELD_TYPE"
      (unsupportedTypeMsg ftype) (descriptor.full_name.or descriptor.partial_name))

/-- The descriptor-application loop of `fill_blocks_impl` (src lines 651-658):
skip unmatched descriptors, apply matched values fail-fast, count updates. -/
def fill_apply_descriptors (d : Doc) (descs : List FieldDescriptor)
    (fields : FieldMap) (updated : Nat) : CoreResult (Doc × Nat) :=
  match descs with
  | [] => .ok (d, updated)
  | desc :: rest =>
    match field_input_value desc fields with
    | none => fill_apply_descriptors d rest fields updated
    | some value => do
      let d2 ← apply_field_value d desc value
      fill_apply_descriptors d2 rest fields (updated + 1)

/-- Modelled from the spec: the byte-level load and save of `fill_blocks_impl`
(lopdf `Document::load_mem` / `save_to`, src lines 607 and 667-669) are not
repository code; per §4.8 a round-trip parse of the saved bytes succeeds by
construction, so the document-level pipeline below starts from the parsed
`Doc` and returns the `Doc` that would be serialized.  Everything between
load and save follows src lines 610-665. -/
def fill_blocks_doc (d0 : Doc) (field_values : FieldMap) : CoreResult Doc := do
  let catalogId ← root_catalog_id d0
  let p ← ensure_acroform_object d0 catalogId
  let d2 ← docSetDictKey p.1 p.2 bNeedAppearances (.boolean true)
    "BW_FORM_ACROFORM_INVALID" "AcroForm dictionary".data
  let acroform ← getDict d2 p.2 "BW_FORM_ACROFORM_INVALID" "AcroForm dictionary".data
  let fieldRoots ← match dictGet acroform bFields with
    | some fr => pure fr
    | none =>
      .error (core_error_with_context "BW_FORM_FIELDS_MISSING" msgObjectNotFound
        (some "AcroForm.Fields".data))
  let fieldIds := (collect_field_ids d2 fieldRoots [] ∅).val.1
  if fieldIds = [] then
    .error (core_error "BW_FORM_FIELDS_EMPTY"
      "AcroForm.Fields does not contain fillable fields".data)
  else do
    let descriptors := fieldIds.map (describe_field d2)
    let r ← fill_apply_descriptors d2 descriptors field_values 0
    if r.2 = 0 ∧ field_values ≠ [] then
      .error (core_error "BW_FILL_NO_MATCHING_FIELDS"
        "none of the provided input keys matched PDF form field names".data)
    else .ok r.1

/-- `Block` (src line 9), with the `f32` geometry modelled as rationals. -/
structure Block where
  label : Text
  x : Rat
  y : Rat
  width : Rat
  height : Rat

/-- `widget_label` (src line 122): the widget's own `T`, else the resolved
parent's `T`, else the fallback. -/
def widget_label (d : Doc) (widget : Dict) (fallback : Text) : Text :=
  match dict_text d widget bT with
  | some label => label
  | none =>
    match dictGet widget bParent with
    | some parentObj =>
      match resolve_object d parentObj with
      | some (.dict parentDict) =>
        match dict_text d parentDict bT with
        | some label => label
        | none => fallback
      | _ => fallback
    | none => fallback

/-- The per-annotation loop of `detect_blocks_impl` (src lines 566-596):
`annot_index` is the zero-based `enumerate` counter over the whole `Annots`
array; entries that fail to resolve, are not Widget dictionaries, or lack a
decodable `Rect` are skipped but still advance the counter. -/
def detect_page_annots (d : Doc) (page_number : Nat) :
    List PdfObj → Nat → List Block
  | [], _ => []
  | annotRef :: rest, annot_index =>
    let tail := detect_page_annots d page_number rest (annot_index + 1)
    match resolve_object d annotRef with
    | none => tail
    | some obj =>
      match obj with
      | .dict widget =>
        if is_widget_dict widget then
          match (dictGet widget bRect).bind rect_from_object with
          | some rect =>
            let fallback := "field_".data ++ (Nat.repr page_number).data ++
              "_".data ++ (Nat.repr (annot_index + 1)).data
            { label := widget_label d widget fallback,
              x := rect.1, y := rect.2.1, width := rect.2.2.1,
              height := rect.2.2.2 } :: tail
          | none => tail
        else tail
      | _ => tail

/-- One page's block list (the loop body starting at src line 566 with the
`enumerate` counter at zero). -/
def detect_page (d : Doc) (page_number : Nat) (annots : List PdfObj) : List Block :=
  detect_page_annots d page_number annots 0

/-- The head of a `dropWhile` residue never satisfies the dropped predicate. -/
theorem head?_dropWhile_false {p : Char → Bool} {l : Text} {c : Char}
    (h : (l.dropWhile p).head? = some c) : p c = false := by
  induction l with
  | nil => simp at h
  | cons a t ih =>
    by_cases hp : p a
    · rw [List.dropWhile_cons_of_pos hp] at h; exact ih h
    · rw [List.dropWhile_cons_of_neg hp] at h
      simp only [List.head?_cons, Option.some.injEq] at h
      subst h
      exact Bool.eq_false_iff.mpr hp

/-- The first character of a `trimBy` result never satisfies the trimming
predicate. -/
theorem head?_trimBy_false {p : Char → Bool} {s : Text} {c : Char}
    (h : (trimBy p s).head? = some c) : p c = false := by
  unfold trimBy at h
  obtain ⟨u, hu⟩ := List.rdropWhile_prefix p (s.dropWhile p)
  rcases he : List.rdropWhile p (s.dropWhile p) with _ | ⟨x, xs⟩
  · rw [he] at h; simp at h
  · rw [he] at h hu
    simp only [List.head?_cons, Option.some.injEq] at h
    subst h
    apply head?_dropWhile_false (l := s)
    rw [← hu]
    simp

/-- The last character of a `trimBy` result never satisfies the trimming
predicate. -/
theorem getLast?_trimBy_false {p : Char → Bool} {s : Text} {c : Char}
    (h : (trimBy p s).getLast? = some c) : p c = false := by
  unfold trimBy at h
  have hne : List.rdropWhile p (s.dropWhile p) ≠ [] := by
    intro hn; rw [hn] at h; simp at h
  have hlast := List.rdropWhile_last_not p (s.dropWhile p) hne
  rw [List.getLast?_eq_getLast _ hne] at h
  simp only [Option.some.injEq] at h
  subst h
  exact Bool.eq_false_iff.mpr hlast

/-- C5 (confirmed): on an array of exactly four number-coercible elements,
`rect_from_object` yields `x = min llx urx`, `y = min lly ury`,
`w = |urx - llx| ≥ 0` and `h = |ury - lly| ≥ 0`; on every other object it
yields absent. -/
theorem C5_rect_from_object_canonicalizes :
    (∀ (v0 v1 v2 v3 : PdfObj) (llx lly urx ury : Rat),
      object_to_number v0 = some llx → object_to_number v1 = some lly →
      object_to_number v2 = some urx → object_to_number v3 = some ury →
      rect_from_object (.array [v0, v1, v2, v3]) =
        some (min llx urx, min lly ury, |urx - llx|, |ury - lly|) ∧
      0 ≤ |urx - llx| ∧ 0 ≤ |ury - lly|) ∧
    (∀ obj : PdfObj,
      (¬ ∃ v0 v1 v2 v3 : PdfObj, obj = .array [v0, v1, v2, v3] ∧
        (object_to_number v0).isSome ∧ (object_to_number v1).isSome ∧
        (object_to_number v2).isSome ∧ (object_to_number v3).isSome) →
      rect_from_object obj = none) := by
  constructor
  · intro v0 v1 v2 v3 llx lly urx ury h0 h1 h2 h3
    refine ⟨?_, abs_nonneg _, abs_nonneg _⟩
    simp [rect_from_object, h0, h1, h2, h3]
  · intro obj hno
    cases obj with
    | array values =>
      rcases values with _ | ⟨v0, _ | ⟨v1, _ | ⟨v2, _ | ⟨v3, _ | ⟨v4, rest⟩⟩⟩⟩⟩ <;>
        try rfl
      rcases h0 : object_to_number v0 with _ | llx
      · simp [rect_from_object, h0]
      rcases h1 : object_to_number v1 with _ | lly
      · simp [rect_from_object, h0, h1]
      rcases h2 : object_to_number v2 with _ | urx
      · simp [rect_from_object, h0, h1, h2]
      rcases h3 : object_to_number v3 with _ | ury
      · simp [rect_from_object, h0, h1, h2, h3]
      exact absurd ⟨v0, v1, v2, v3, rfl, by simp [h0], by simp [h1], by simp [h2],
        by simp [h3]⟩ hno
    | _ => rfl

/-- Witness for C5 at a concrete rectangle and a concrete non-rectangle. -/
theorem C5_witness :
    (rect_from_object (.array [.integer 3, .integer 1, .integer 0, .integer 5]) =
      some (min (3 : Rat) 0, min (1 : Rat) 5, |(0 : Rat) - 3|, |(5 : Rat) - 1|) ∧
      0 ≤ |(0 : Rat) - 3| ∧ 0 ≤ |(5 : Rat) - 1|) ∧
    rect_from_object .null = none :=
  ⟨C5_rect_from_object_canonicalizes.1 _ _ _ _ 3 1 0 5 rfl rfl rfl rfl,
   C5_rect_from_object_canonicalizes.2 .null (by rintro ⟨_, _, _, _, ⟨⟩, _⟩)⟩

/-- C2 counterexample: a NUL between non-whitespace characters survives
`object_to_text` — only leading and trailing NULs are stripped, so the claim
that the result contains no NUL is false. -/
theorem C2_counterexample_embedded_nul :
    ∃ t, object_to_text (.name [97, 0, 98]) = some t ∧ nulChar ∈ t := by
  refine ⟨[Char.ofNat 97, nulChar, Char.ofNat 98], ?_, by simp⟩
  simp [object_to_text, object_to_text.object_to_text_raw, utf8DecodeLossy,
    trimNulEnds, rustTrim, trimBy, rustIsWhitespace, nulChar,
    List.dropWhile, List.rdropWhile]

/-- C2 (amended): for Name and String objects, `object_to_text` lossily
decodes the bytes, strips NULs from both ends and then whitespace from both
ends (interior NULs are preserved), and returns absent exactly when the
stripped text is empty; a present result is nonempty and has no leading or
trailing whitespace. -/
theorem C2_object_to_text_canonicalization :
    ∀ (bytes : Bytes) (fmt : StrFormat),
      object_to_text (.str bytes fmt) = object_to_text (.name bytes) ∧
      (object_to_text (.name bytes) = none ↔
        rustTrim (trimNulEnds (utf8DecodeLossy bytes)) = []) ∧
      (∀ t, object_to_text (.name bytes) = some t →
        t = rustTrim (trimNulEnds (utf8DecodeLossy bytes)) ∧ t ≠ [] ∧
        (∀ c, t.head? = some c → rustIsWhitespace c = false) ∧
        (∀ c, t.getLast? = some c → rustIsWhitespace c = false)) := by
  intro bytes fmt
  refine ⟨rfl, ?_, ?_⟩
  · simp only [object_to_text, object_to_text.object_to_text_raw]
    split <;> simp_all
  · intro t ht
    simp only [object_to_text, object_to_text.object_to_text_raw] at ht
    split at ht
    · simp at ht
    · simp only [Option.some.injEq] at ht
      subst ht
      refine ⟨rfl, by assumption, ?_, ?_⟩
      · intro c hc; exact head?_trimBy_false hc
      · intro c hc; exact getLast?_trimBy_false hc

/-- Witness for C2 at concrete bytes `" a "`. -/
theorem C2_witness :
    object_to_text (.name [32, 97, 32]) = some [Char.ofNat 97] ∧
    ([Char.ofNat 97] = rustTrim (trimNulEnds (utf8DecodeLossy [32, 97, 32])) ∧
      [Char.ofNat 97] ≠ [] ∧
      (∀ c, [Char.ofNat 97].head? = some c → rustIsWhitespace c = false) ∧
      (∀ c, [Char.ofNat 97].getLast? = some c → rustIsWhitespace c = false)) :=
  ⟨by simp [object_to_text, object_to_text.object_to_text_raw, utf8DecodeLossy,
      trimNulEnds, rustTrim, trimBy, rustIsWhitespace, nulChar,
      List.dropWhile, List.rdropWhile],
   (C2_object_to_text_canonicalization [32, 97, 32] .literal).2.2 [Char.ofNat 97]
     (by simp [object_to_text, object_to_text.object_to_text_raw, utf8DecodeLossy,
       trimNulEnds, rustTrim, trimBy, rustIsWhitespace, nulChar,
       List.dropWhile, List.rdropWhile])⟩

/-- An artificial parent chain of sixty fields: field `(i, 0)` has parent
`(i + 1, 0)` for `i < 60`, the sixtieth field has no parent, and when `withT`
is set the first field carries the partial name `T = "x"`. -/
def chainEntries (withT : Bool) : List (ObjectId × PdfObj) :=
  (List.range 60).map (fun i =>
    ((i + 1, 0),
      PdfObj.dict
        ((if withT ∧ i = 0 then [(bT, PdfObj.str [120] .literal)] else []) ++
         (if i < 59 then [(bParent, PdfObj.reference (i + 2, 0))] else []))))

/-- The sixty-field chain whose head carries a `T` partial name. -/
def chainDocWithT : Doc := ⟨chainEntries true, [], 60⟩

/-- The sixty-field chain with no `T` partial name anywhere. -/
def chainDocNoT : Doc := ⟨chainEntries false, [], 60⟩

/-- Whether an object is free of a `T` dictionary entry (non-dictionaries
carry none). -/
def hasNoTKey : PdfObj → Bool
  | .dict e => !(e.any (fun p => p.1 = bT))
  | _ => true

/-- C1 counterexample: on the sixty-field parent chain whose head carries the
partial name `"x"`, the depth-capped walk returns `some "x"` — the `None =>
Some(name)` fallback of `field_full_name` truncates instead of absenting, so a
long chain does not yield an absent name when a field within the depth bound
carries a `T`. -/
theorem C1_counterexample_named_chain :
    field_full_name chainDocWithT (1, 0) 0 = some [Char.ofNat 120] := by
  simp [field_full_name, field_parent_id, field_partial_name, chainDocWithT,
    chainEntries, docLookup, asDict, dict_text, dictGet, resolve_object,
    object_to_text, object_to_text.object_to_text_raw, utf8DecodeLossy,
    trimNulEnds, rustTrim, trimBy, rustIsWhitespace, nulChar, bT, bParent,
    bytesOfAscii, object_as_reference, List.dropWhile, List.rdropWhile,
    List.range_succ, List.find?]

/-- When no object of the document carries a `T` entry, `field_partial_name`
is absent everywhere. -/
theorem field_partial_name_none_of_noT {d : Doc}
    (h : ∀ p ∈ d.objects, hasNoTKey p.2 = true) (id : ObjectId) :
    field_partial_name d id = none := by
  unfold field_partial_name
  rcases ho : docLookup d id with _ | o
  · rfl
  · have hmemval : ∃ id', (id', o) ∈ d.objects := by
      unfold docLookup at ho
      rcases hf : d.objects.find? (fun p => p.1 = id) with _ | pr
      · rw [hf] at ho; simp at ho
      · rw [hf] at ho
        simp only [Option.map_some', Option.some.injEq] at ho
        exact ⟨pr.1, by rw [← ho]; exact List.mem_of_find?_eq_some hf⟩
    obtain ⟨id', hmem⟩ := hmemval
    have hkey := h (id', o) hmem
    cases o <;> try rfl
    case dict e =>
      have hany : e.any (fun p => p.1 = bT) = false := by
        simpa [hasNoTKey] using hkey
      have hfnone : List.find? (fun p => p.1 = bT) e = none :=
        List.find?_eq_none.mpr (by
          intro x hx
          have hx2 := List.any_eq_false.mp hany x hx
          simpa using hx2)
      have hnone : dictGet e bT = none := by
        unfold dictGet
        rw [hfnone]
        rfl
      show dict_text d e bT = none
      unfold dict_text
      rw [hnone]

/-- C1 (amended): for every field of a document none of whose objects carries
a `T` entry — in particular the artificial sixty-field parent chain with no
partial names — the full-name walk returns absent at every depth; the
counterexample shows the cap alone does not force absence when a `T` is
present within the first forty-nine levels. -/
theorem C1_full_name_absent_on_nameless_chain (d : Doc)
    (h : ∀ p ∈ d.objects, hasNoTKey p.2 = true) :
    ∀ (id : ObjectId) (depth : Nat), field_full_name d id depth = none := by
  have main : ∀ (fuel : Nat) (id : ObjectId) (depth : Nat), 49 - depth ≤ fuel →
      field_full_name d id depth = none := by
    intro fuel
    induction fuel with
    | zero =>
      intro id depth hle
      rw [field_full_name]
      simp only [gt_iff_lt]
      rw [dif_pos (by omega)]
    | succ n ih =>
      intro id depth hle
      rw [field_full_name]
      by_cases hd : depth > 48
      · rw [dif_pos hd]
      · rw [dif_neg hd]
        rw [field_partial_name_none_of_noT h id]
        rcases field_parent_id d id with _ | pid
        · rfl
        · exact ih pid (depth + 1) (by omega)
  intro id depth
  exact main 49 id depth (by omega)

/-- Witness for the amended C1 on the concrete sixty-field chain. -/
theorem C1_witness :
    (∀ p ∈ chainDocNoT.objects, hasNoTKey p.2 = true) ∧
    field_full_name chainDocNoT (1, 0) 0 = none :=
  ⟨by decide, C1_full_name_absent_on_nameless_chain chainDocNoT (by decide) (1, 0) 0⟩


theorem nodup_append_singleton {out : List ObjectId} {id : ObjectId}
    (h : out.Nodup) (hn : id ∉ out) : (out ++ [id]).Nodup :=
  List.nodup_append.mpr ⟨h, List.nodup_singleton id,
    fun a ha hb => by simp only [List.mem_singleton] at hb; subst hb; exact hn ha⟩

theorem collect_ref_mem {d : Doc} {id : ObjectId} {out : List ObjectId}
    {seen : Finset ObjectId} (hmem : id ∈ seen) :
    (collect_field_ids d (.reference id) out seen).val = (out, seen) := by
  rw [collect_field_ids, dif_pos hmem]

theorem collect_ref_kids {d : Doc} {id : ObjectId} {out : List ObjectId}
    {seen : Finset ObjectId} {entries : Dict} {kids : PdfObj} (hmem : id ∉ seen)
    (hl : docLookup d id = some (.dict entries))
    (hk : dictGet entries bKids = some kids) :
    (collect_field_ids d (.reference id) out seen).val =
      (collect_field_ids d kids (out ++ [id]) (insert id seen)).val := by
  rw [collect_field_ids, dif_neg hmem]
  split
  next e2 heq =>
    rw [hl] at heq
    injection heq with h
    injection h with h2
    subst h2
    split
    next k2 heq2 =>
      rw [hk] at heq2
      injection heq2 with h3
      subst h3
      rfl
    next heq2 => rw [hk] at heq2; cases heq2
  next heq => exact absurd hl (heq entries)

theorem collect_ref_nokids {d : Doc} {id : ObjectId} {out : List ObjectId}
    {seen : Finset ObjectId} {entries : Dict} (hmem : id ∉ seen)
    (hl : docLookup d id = some (.dict entries))
    (hk : dictGet entries bKids = none) :
    (collect_field_ids d (.reference id) out seen).val =
      (out ++ [id], insert id seen) := by
  rw [collect_field_ids, dif_neg hmem]
  split
  next e2 heq =>
    rw [hl] at heq
    injection heq with h
    injection h with h2
    subst h2
    split
    next k2 heq2 => rw [hk] at heq2; cases heq2
    next heq2 => rfl
  next heq => exact absurd hl (heq entries)

theorem collect_ref_nodict {d : Doc} {id : ObjectId} {out : List ObjectId}
    {seen : Finset ObjectId} (hmem : id ∉ seen)
    (hnd : ∀ entries : Dict, docLookup d id ≠ some (.dict entries)) :
    (collect_field_ids d (.reference id) out seen).val =
      (out ++ [id], insert id seen) := by
  rw [collect_field_ids, dif_neg hmem]
  split
  next e2 heq => exact absurd heq (hnd e2)
  next heq => rfl

theorem collect_array_eq {d : Doc} {items : List PdfObj} {out : List ObjectId}
    {seen : Finset ObjectId} :
    collect_field_ids d (.array items) out seen =
      collect_field_ids_list d items out seen := by
  rw [collect_field_ids]

theorem collect_dict_kids {d : Doc} {entries : Dict} {kids : PdfObj}
    {out : List ObjectId} {seen : Finset ObjectId}
    (hk : dictGet entries bKids = some kids) :
    (collect_field_ids d (.dict entries) out seen).val =
      (collect_field_ids d kids out seen).val := by
  rw [collect_field_ids]
  split
  next k2 heq2 =>
    rw [hk] at heq2
    injection heq2 with h3
    subst h3
    rfl
  next heq2 => rw [hk] at heq2; cases heq2

theorem collect_dict_nokids {d : Doc} {entries : Dict}
    {out : List ObjectId} {seen : Finset ObjectId}
    (hk : dictGet entries bKids = none) :
    (collect_field_ids d (.dict entries) out seen).val = (out, seen) := by
  rw [collect_field_ids]
  split
  next k2 heq2 => rw [hk] at heq2; cases heq2
  next heq2 => rfl

theorem collect_list_nil {d : Doc} {out : List ObjectId} {seen : Finset ObjectId} :
    (collect_field_ids_list d [] out seen).val = (out, seen) := by
  rw [collect_field_ids_list]

theorem collect_list_cons {d : Doc} {x : PdfObj} {xs : List PdfObj}
    {out : List ObjectId} {seen : Finset ObjectId} :
    (collect_field_ids_list d (x :: xs) out seen).val =
      (collect_field_ids_list d xs (collect_field_ids d x out seen).val.1
        (collect_field_ids d x out seen).val.2).val := by
  rw [collect_field_ids_list]

theorem collect_field_ids_invariant (d : Doc) :
    ∀ (src : PdfObj) (out : List ObjectId) (seen : Finset ObjectId),
      (∃ ext, (collect_field_ids d src out seen).val.1 = out ++ ext) ∧
      (out.Nodup → (∀ a ∈ out, a ∈ seen) →
        ((collect_field_ids d src out seen).val.1.Nodup ∧
          ∀ a ∈ (collect_field_ids d src out seen).val.1,
            a ∈ (collect_field_ids d src out seen).val.2)) := by
  refine collect_field_ids.induct d
    (fun src out seen =>
      (∃ ext, (collect_field_ids d src out seen).val.1 = out ++ ext) ∧
      (out.Nodup → (∀ a ∈ out, a ∈ seen) →
        ((collect_field_ids d src out seen).val.1.Nodup ∧
          ∀ a ∈ (collect_field_ids d src out seen).val.1,
            a ∈ (collect_field_ids d src out seen).val.2)))
    (fun items out seen =>
      (∃ ext, (collect_field_ids_list d items out seen).val.1 = out ++ ext) ∧
      (out.Nodup → (∀ a ∈ out, a ∈ seen) →
        ((collect_field_ids_list d items out seen).val.1.Nodup ∧
          ∀ a ∈ (collect_field_ids_list d items out seen).val.1,
            a ∈ (collect_field_ids_list d items out seen).val.2)))
    ?_ ?_ ?_ ?_ ?_ ?_ ?_ ?_ ?_ ?_
  case _ =>
    intro id out seen hmem
    rw [show (collect_field_ids d (.reference id) out seen).val = (out, seen) from
      collect_ref_mem hmem]
    exact ⟨⟨[], by simp⟩, fun h1 h2 => ⟨h1, h2⟩⟩
  case _ =>
    intro id out seen hmem entries hl kids hk ih
    rw [collect_ref_kids hmem hl hk]
    constructor
    · obtain ⟨ext, hext⟩ := ih.1
      exact ⟨id :: ext, by rw [hext]; simp⟩
    · intro h1 h2
      have hid_out : id ∉ out := fun hin => hmem (h2 id hin)
      refine ih.2 (nodup_append_singleton h1 hid_out) ?_
      intro a ha
      rcases List.mem_append.mp ha with h | h
      · exact Finset.mem_insert_of_mem (h2 a h)
      · simp only [List.mem_singleton] at h
        subst h
        exact Finset.mem_insert_self _ _
  case _ =>
    intro id out seen hmem entries hl hk
    rw [collect_ref_nokids hmem hl hk]
    refine ⟨⟨[id], rfl⟩, fun h1 h2 =>
      ⟨nodup_append_singleton h1 (fun hin => hmem (h2 id hin)), ?_⟩⟩
    intro a ha
    rcases List.mem_append.mp ha with h | h
    · exact Finset.mem_insert_of_mem (h2 a h)
    · simp only [List.mem_singleton] at h
      subst h
      exact Finset.mem_insert_self _ _
  case _ =>
    intro id out seen hmem hnd
    rw [collect_ref_nodict hmem (fun entries hc => hnd entries hc)]
    refine ⟨⟨[id], rfl⟩, fun h1 h2 =>
      ⟨nodup_append_singleton h1 (fun hin => hmem (h2 id hin)), ?_⟩⟩
    intro a ha
    rcases List.mem_append.mp ha with h | h
    · exact Finset.mem_insert_of_mem (h2 a h)
    · simp only [List.mem_singleton] at h
      subst h
      exact Finset.mem_insert_self _ _
  case _ =>
    intro items out seen ih
    rw [show collect_field_ids d (.array items) out seen =
      collect_field_ids_list d items out seen from collect_array_eq]
    exact ih
  case _ =>
    intro entries out seen kids hk ih
    rw [collect_dict_kids hk]
    exact ih
  case _ =>
    intro entries out seen hk
    rw [collect_dict_nokids hk]
    exact ⟨⟨[], by simp⟩, fun h1 h2 => ⟨h1, h2⟩⟩
  case _ =>
    intro src out seen h1 h2 h3
    cases src with
    | reference id => exact absurd rfl (h1 id)
    | array items => exact absurd rfl (h2 items)
    | dict entries => exact absurd rfl (h3 entries)
    | null =>
      rw [show (collect_field_ids d .null out seen).val = (out, seen) from by
        rw [collect_field_ids] <;> rintro _ ⟨⟩]
      exact ⟨⟨[], by simp⟩, fun h1 h2 => ⟨h1, h2⟩⟩
    | boolean b =>
      rw [show (collect_field_ids d (.boolean b) out seen).val = (out, seen) from by
        rw [collect_field_ids] <;> rintro _ ⟨⟩]
      exact ⟨⟨[], by simp⟩, fun h1 h2 => ⟨h1, h2⟩⟩
    | integer i =>
      rw [show (collect_field_ids d (.integer i) out seen).val = (out, seen) from by
        rw [collect_field_ids] <;> rintro _ ⟨⟩]
      exact ⟨⟨[], by simp⟩, fun h1 h2 => ⟨h1, h2⟩⟩
    | real r =>
      rw [show (collect_field_ids d (.real r) out seen).val = (out, seen) from by
        rw [collect_field_ids] <;> rintro _ ⟨⟩]
      exact ⟨⟨[], by simp⟩, fun h1 h2 => ⟨h1, h2⟩⟩
    | name bs =>
      rw [show (collect_field_ids d (.name bs) out seen).val = (out, seen) from by
        rw [collect_field_ids] <;> rintro _ ⟨⟩]
      exact ⟨⟨[], by simp⟩, fun h1 h2 => ⟨h1, h2⟩⟩
    | str bs fmt =>
      rw [show (collect_field_ids d (.str bs fmt) out seen).val = (out, seen) from by
        rw [collect_field_ids] <;> rintro _ ⟨⟩]
      exact ⟨⟨[], by simp⟩, fun h1 h2 => ⟨h1, h2⟩⟩
    | stream =>
      rw [show (collect_field_ids d .stream out seen).val = (out, seen) from by
        rw [collect_field_ids] <;> rintro _ ⟨⟩]
      exact ⟨⟨[], by simp⟩, fun h1 h2 => ⟨h1, h2⟩⟩
  case _ =>
    intro out seen
    rw [collect_list_nil]
    exact ⟨⟨[], by simp⟩, fun h1 h2 => ⟨h1, h2⟩⟩
  case _ =>
    intro x xs out seen r ih1 ihr ih2
    rw [collect_list_cons]
    constructor
    · obtain ⟨e1, h1x⟩ := ih1.1
      obtain ⟨e2, h2x⟩ := ih2.1
      exact ⟨e1 ++ e2, by rw [h2x, h1x]; simp⟩
    · intro hn hsub
      have p1 := ih1.2 hn hsub
      exact ih2.2 p1.1 p1.2


/-- A two-object document whose `Kids` references form a cycle. -/
def cycleDoc : Doc :=
  ⟨[((1, 0), .dict [(bKids, .array [.reference (2, 0)])]),
    ((2, 0), .dict [(bKids, .array [.reference (1, 0)])])], [], 2⟩

/-- C6 (confirmed): `collect_field_ids` terminates on every object graph —
the definition is total, by well-founded recursion on the set of ids not yet
visited, so reference cycles merely return early — and, starting from an empty
output and visited set, its output never repeats an ObjectId; moreover an
unvisited reference is emitted immediately after the existing prefix and
before the ids found under its `Kids`, which is the pre-order of first
encounter. -/
theorem C6_collect_field_ids_no_duplicates :
    (∀ (d : Doc) (src : PdfObj), (collect_field_ids d src [] ∅).val.1.Nodup) ∧
    (∀ (d : Doc) (id : ObjectId) (out : List ObjectId) (seen : Finset ObjectId),
      id ∉ seen →
      ∃ rest, (collect_field_ids d (.reference id) out seen).val.1 =
        out ++ id :: rest) := by
  constructor
  · intro d src
    exact ((collect_field_ids_invariant d src [] ∅).2 List.nodup_nil (by simp)).1
  · intro d id out seen hmem
    by_cases hdict : ∃ entries, docLookup d id = some (.dict entries)
    · obtain ⟨entries, hl⟩ := hdict
      rcases hk : dictGet entries bKids with _ | kids
      · have e := @collect_ref_nokids d id out seen entries hmem hl hk
        exact ⟨[], by rw [e]⟩
      · have e := @collect_ref_kids d id out seen entries kids hmem hl hk
        obtain ⟨ext, hext⟩ :=
          (collect_field_ids_invariant d kids (out ++ [id]) (insert id seen)).1
        exact ⟨ext, by rw [e, hext]; simp⟩
    · have hnd : ∀ entries, docLookup d id ≠ some (.dict entries) :=
        fun e2 hc => hdict ⟨e2, hc⟩
      have e := @collect_ref_nodict d id out seen hmem hnd
      exact ⟨[], by rw [e]⟩

/-- Witness for C6 on the concrete cyclic two-object document. -/
theorem C6_witness :
    ((1, 0) : ObjectId) ∉ (∅ : Finset ObjectId) ∧
    (collect_field_ids cycleDoc (.reference (1, 0)) [] ∅).val.1.Nodup ∧
    ∃ rest, (collect_field_ids cycleDoc (.reference (1, 0)) [] ∅).val.1 =
      [] ++ (1, 0) :: rest :=
  ⟨by simp,
   C6_collect_field_ids_no_duplicates.1 cycleDoc _,
   C6_collect_field_ids_no_duplicates.2 cycleDoc (1, 0) [] ∅ (by simp)⟩


/-- The value stored under key `k` of the dictionary object at `id`, the
observer used to state the mutation claims. -/
def dictValAt (d : Doc) (id : ObjectId) (k : Bytes) : Option PdfObj :=
  match docLookup d id with
  | some (.dict e) => dictGet e k
  | _ => none

/-- Whether the object at `id` is a dictionary (the precondition of every
`get_dict_mut`-backed write). -/
def isDictAt (d : Doc) (id : ObjectId) : Prop :=
  ∃ e, docLookup d id = some (.dict e)

theorem docLookup_docSetObj_self (d : Doc) (id : ObjectId) (o : PdfObj) :
    docLookup (docSetObj d id o) id = (docLookup d id).map (fun _ => o) := by
  rcases d with ⟨objs, tr, m⟩
  simp only [docSetObj, docLookup]
  induction objs with
  | nil => rfl
  | cons p l ih =>
    by_cases hp : p.1 = id
    · simp [List.find?_cons, hp]
    · simp only [List.map_cons, if_neg hp, List.find?_cons]
      rw [decide_eq_false hp]
      exact ih

theorem docLookup_docSetObj_ne (d : Doc) {id id' : ObjectId} (o : PdfObj)
    (h : id' ≠ id) :
    docLookup (docSetObj d id o) id' = docLookup d id' := by
  rcases d with ⟨objs, tr, m⟩
  simp only [docSetObj, docLookup]
  induction objs with
  | nil => rfl
  | cons p l ih =>
    by_cases hp : p.1 = id
    · have hp' : ¬ ((id, o).1 = id') := fun hc => h (by simpa using hc.symm)
      have hp2 : ¬ (p.1 = id') := by
        rw [hp]; exact fun hc => h hc.symm
      simp only [List.map_cons, if_pos hp, List.find?_cons]
      rw [decide_eq_false hp', decide_eq_false hp2]
      exact ih
    · simp only [List.map_cons, if_neg hp, List.find?_cons]
      by_cases hq : p.1 = id'
      · rw [decide_eq_true hq]
      · rw [decide_eq_false hq]
        exact ih

/-- `dictSet` with an existing key changes the value of exactly that key: the
in-place replacement rewrites the entry list pointwise while keeping keys. -/
theorem find?_key_map_keep (e : Dict) (k k' : Bytes) (v : PdfObj) :
    (e.map (fun p => if p.1 = k then (k, v) else p)).find?
        (fun p => p.1 = k') =
      (e.find? (fun p => p.1 = k')).map
        (fun p => if p.1 = k then (k, v) else p) := by
  induction e with
  | nil => rfl
  | cons p l ih =>
    simp only [List.map_cons, List.find?_cons]
    by_cases hp : p.1 = k
    · rw [if_pos hp]
      by_cases hq : p.1 = k'
      · have hkk : ((k, v).1 = k') := by simpa using (hp.symm.trans hq)
        rw [decide_eq_true hq, decide_eq_true hkk]
        simp [if_pos hp]
      · have hkk : ¬ ((k, v).1 = k') := by
          simpa using fun hc => hq (hp.trans hc)
        rw [decide_eq_false hq, decide_eq_false hkk]
        exact ih
    · rw [if_neg hp]
      by_cases hq : p.1 = k'
      · rw [decide_eq_true hq]
        simp [if_neg hp]
      · rw [decide_eq_false hq]
        exact ih

theorem dictGet_dictSet_self (e : Dict) (k : Bytes) (v : PdfObj) :
    dictGet (dictSet e k v) k = some v := by
  unfold dictSet dictGet
  by_cases hany : e.any (fun p => p.1 = k)
  · rw [if_pos hany, find?_key_map_keep]
    obtain ⟨x, hx, hpx⟩ := List.any_eq_true.mp hany
    rcases hf : e.find? (fun p => p.1 = k) with _ | q
    · exact absurd (List.find?_eq_none.mp hf x hx) (by simpa using hpx)
    · have hq := List.find?_some hf
      simp only [decide_eq_true_eq] at hq
      rw [hf]
      simp only [Option.map_some']
      rw [if_pos hq]
  · rw [if_neg hany, List.find?_append]
    have hnone : e.find? (fun p => p.1 = k) = none := by
      rw [List.find?_eq_none]
      intro x hx hc
      exact hany (List.any_eq_true.mpr ⟨x, hx, hc⟩)
    simp [hnone, List.find?_cons]

theorem dictGet_dictSet_ne (e : Dict) {k k' : Bytes} (v : PdfObj) (h : k' ≠ k) :
    dictGet (dictSet e k v) k' = dictGet e k' := by
  unfold dictSet dictGet
  by_cases hany : e.any (fun p => p.1 = k)
  · rw [if_pos hany, find?_key_map_keep]
    rcases hf : e.find? (fun p => p.1 = k') with _ | q
    · rw [hf]; rfl
    · have hq := List.find?_some hf
      simp only [decide_eq_true_eq] at hq
      have hqk : ¬ (q.1 = k) := fun hc => h (hq ▸ hc ▸ rfl)
      rw [hf]
      simp only [Option.map_some']
      rw [if_neg hqk]
  · rw [if_neg hany, List.find?_append]
    have hsingle : ([(k, v)] : Dict).find? (fun p => p.1 = k') = none := by
      rw [List.find?_cons,
        decide_eq_false (show ¬ (((k, v) : Bytes × PdfObj).1 = k') from
          fun hc => h (by simpa using hc.symm))]
      rfl
    rw [hsingle, Option.or_none]

/-- Inversion and success of the single-key write. -/
theorem docSetDictKey_ok {d : Doc} {id : ObjectId} {e : Dict}
    (hl : docLookup d id = some (.dict e)) (k : Bytes) (v : PdfObj)
    (c : String) (ctx : Text) :
    docSetDictKey d id k v c ctx = .ok (docSetObj d id (.dict (dictSet e k v))) := by
  unfold docSetDictKey
  rw [hl]
  rfl

theorem docSetDictKey_ok_inv {d d' : Doc} {id : ObjectId} {k : Bytes}
    {v : PdfObj} {c : String} {ctx : Text}
    (h : docSetDictKey d id k v c ctx = .ok d') :
    ∃ e, docLookup d id = some (.dict e) ∧
      d' = docSetObj d id (.dict (dictSet e k v)) := by
  unfold docSetDictKey at h
  rcases hl : docLookup d id with _ | o
  · rw [hl] at h; cases h
  · rw [hl] at h
    cases o <;> simp only [asDict] at h <;> try cases h
    next e =>
      exact ⟨e, rfl, rfl⟩

theorem except_ok_bind {ε α β : Type} (a : α) (f : α → Except ε β) :
    (Except.ok a >>= f : Except ε β) = f a := rfl

theorem except_pure_bind {ε α β : Type} (a : α) (f : α → Except ε β) :
    ((pure a : Except ε α) >>= f) = f a := rfl

theorem except_bind_ok {ε α β : Type} {m : Except ε α} {f : α → Except ε β}
    {b : β} : (m >>= f) = .ok b ↔ ∃ a, m = .ok a ∧ f a = .ok b := by
  cases m with
  | error e =>
    constructor
    · intro h; cases h
    · rintro ⟨a, ha, _⟩; cases ha
  | ok a =>
    constructor
    · intro h; exact ⟨a, rfl, h⟩
    · rintro ⟨a2, ha, hf⟩
      injection ha with ha2
      subst ha2
      exact hf

/-- Writes preserve which objects are dictionaries. -/
theorem isDictAt_docSetObj {d : Doc} {id id' : ObjectId} {e : Dict}
    (h : isDictAt d id') : isDictAt (docSetObj d id (.dict e)) id' := by
  by_cases heq : id' = id
  · subst heq
    obtain ⟨e0, he0⟩ := h
    exact ⟨e, by rw [docLookup_docSetObj_self, he0]; rfl⟩
  · obtain ⟨e0, he0⟩ := h
    exact ⟨e0, by rw [docLookup_docSetObj_ne d _ heq]; exact he0⟩

/-- The trailer is untouched by object writes. -/
theorem trailer_docSetObj (d : Doc) (id : ObjectId) (o : PdfObj) :
    (docSetObj d id o).trailer = d.trailer := rfl


theorem dictValAt_write_self {d : Doc} {id : ObjectId} {e : Dict}
    (hl : docLookup d id = some (.dict e)) (k : Bytes) (v : PdfObj) :
    dictValAt (docSetObj d id (.dict (dictSet e k v))) id k = some v := by
  unfold dictValAt
  rw [docLookup_docSetObj_self, hl]
  simp only [Option.map_some']
  exact dictGet_dictSet_self e k v

theorem dictValAt_write_self_ne_key {d : Doc} {id : ObjectId} {e : Dict}
    (hl : docLookup d id = some (.dict e)) (k : Bytes) (v : PdfObj) {k' : Bytes}
    (h : k' ≠ k) :
    dictValAt (docSetObj d id (.dict (dictSet e k v))) id k' = dictValAt d id k' := by
  unfold dictValAt
  rw [docLookup_docSetObj_self, hl]
  simp only [Option.map_some']
  exact dictGet_dictSet_ne e v h

theorem dictValAt_write_ne_id {d : Doc} {id id' : ObjectId} (h : id' ≠ id)
    (o : PdfObj) (k' : Bytes) :
    dictValAt (docSetObj d id o) id' k' = dictValAt d id' k' := by
  unfold dictValAt
  rw [docLookup_docSetObj_ne d o h]

theorem dictValAt_congr {d d' : Doc} {i : ObjectId}
    (h : docLookup d' i = docLookup d i) (k : Bytes) :
    dictValAt d' i k = dictValAt d i k := by
  unfold dictValAt
  rw [h]

theorem set_widget_as_ok {d : Doc} {wid : ObjectId} {e : Dict}
    (hl : docLookup d wid = some (.dict e)) (v : Bytes) :
    set_widget_as d wid v = .ok (docSetObj d wid (.dict (dictSet e bAS (.name v)))) := by
  unfold set_widget_as
  exact docSetDictKey_ok hl bAS (.name v) _ _

/-- The radio loop succeeds on dictionary widgets and leaves: the selected
widget's `AS` at the selected state, every other listed widget's `AS` at
`"Off"`, every unlisted object untouched, and every non-`AS` key untouched. -/
theorem setButtonWidgetsRadio_ok :
    ∀ (ids : List ObjectId) (d : Doc) (selId : ObjectId) (selState : Bytes),
      (∀ wid ∈ ids, isDictAt d wid) →
      ∃ d', setButtonWidgetsRadio d ids selId selState = .ok d' ∧
        (∀ i, i ∉ ids → docLookup d' i = docLookup d i) ∧
        (∀ i, isDictAt d i → isDictAt d' i) ∧
        (∀ i k, k ≠ bAS → dictValAt d' i k = dictValAt d i k) ∧
        (ids.Nodup → ∀ wid ∈ ids, dictValAt d' wid bAS =
          some (.name (if wid = selId then selState else bOff))) := by
  intro ids
  induction ids with
  | nil =>
    intro d selId selState _
    exact ⟨d, rfl, fun i _ => rfl, fun i h => h, fun i k _ => rfl, by simp⟩
  | cons wid rest ih =>
    intro d selId selState hdicts
    obtain ⟨e, he⟩ := hdicts wid (List.mem_cons_self wid rest)
    set val := if wid = selId then selState else bOff with hval
    have hw := set_widget_as_ok he val
    set d2 := docSetObj d wid (.dict (dictSet e bAS (.name val))) with hd2
    have hdicts2 : ∀ w ∈ rest, isDictAt d2 w := fun w hwm =>
      isDictAt_docSetObj (hdicts w (List.mem_cons_of_mem wid hwm))
    obtain ⟨d', hloop, hframe, hdict', hkey, hvals⟩ := ih d2 selId selState hdicts2
    refine ⟨d', ?_, ?_, ?_, ?_, ?_⟩
    · show setButtonWidgetsRadio d (wid :: rest) selId selState = .ok d'
      unfold setButtonWidgetsRadio
      rw [hw]
      simpa using hloop
    · intro i hi
      have hiw : i ≠ wid := fun hc => hi (hc ▸ List.mem_cons_self wid rest)
      have hir : i ∉ rest := fun hc => hi (List.mem_cons_of_mem wid hc)
      rw [hframe i hir, hd2, docLookup_docSetObj_ne d _ hiw]
    · intro i hdi
      exact hdict' i (isDictAt_docSetObj hdi)
    · intro i k hk
      rw [hkey i k hk]
      by_cases hiw : i = wid
      · subst hiw
        rw [hd2, dictValAt_write_self_ne_key he bAS (.name val) hk]
      · rw [hd2, dictValAt_write_ne_id hiw]
    · intro hnodup w hw2
      have hwr : wid ∉ rest := (List.nodup_cons.mp hnodup).1
      have hnr : rest.Nodup := (List.nodup_cons.mp hnodup).2
      rcases List.mem_cons.mp hw2 with h | h
      · subst h
        rw [dictValAt_congr (hframe w hwr), hd2, dictValAt_write_self he bAS (.name val)]
      · exact hvals hnr w h


theorem char_eq_of_toNat {c d : Char} (h : c.toNat = d.toNat) : c = d :=
  Char.ext (UInt32.toNat.inj h)

theorem char_le_toNat {c d : Char} : c ≤ d ↔ c.toNat ≤ d.toNat := by
  rw [Char.le_def, UInt32.le_def, BitVec.le_def]
  rfl

theorem char_toNat_ofNat {n : Nat} (hv : n.isValidChar) : (Char.ofNat n).toNat = n := by
  unfold Char.ofNat
  rw [dif_pos hv]
  unfold Char.ofNatAux Char.toNat
  simp [UInt32.ofNat']
  rfl

/-- `to_ascii_lowercase` never produces an uppercase ASCII letter. -/
theorem toAsciiLower_not_upper (c : Char) :
    ¬ (65 ≤ (toAsciiLower c).toNat ∧ (toAsciiLower c).toNat ≤ 90) := by
  have hA : ('A' : Char).toNat = 65 := rfl
  have hZ : ('Z' : Char).toNat = 90 := rfl
  unfold toAsciiLower
  split_ifs with h
  · obtain ⟨h1, h2⟩ := h
    rw [char_le_toNat, hA] at h1
    rw [char_le_toNat, hZ] at h2
    rw [char_toNat_ofNat (Or.inl (by omega))]
    omega
  · rintro ⟨h1', h2'⟩
    exact h ⟨char_le_toNat.mpr (by omega), char_le_toNat.mpr (by omega)⟩

theorem utf8EncodeChar_head_large {c : Char} (h : ¬ c.toNat ≤ 0x7F) :
    ∃ b t, utf8EncodeChar c = b :: t ∧ 128 ≤ b := by
  unfold utf8EncodeChar
  dsimp only
  rw [if_neg h]
  by_cases h2 : c.toNat ≤ 0x7FF
  · rw [if_pos h2]
    exact ⟨_, _, rfl, by omega⟩
  · rw [if_neg h2]
    by_cases h3 : c.toNat ≤ 0xFFFF
    · rw [if_pos h3]
      exact ⟨_, _, rfl, by omega⟩
    · rw [if_neg h3]
      exact ⟨_, _, rfl, by omega⟩

theorem byteAsciiLower_of_ge_128 {b : Nat} (h : 128 ≤ b) : byteAsciiLower b = b := by
  unfold byteAsciiLower
  rw [if_neg (by omega)]

/-- A byte string whose ASCII-lowered form is entirely below 128 matches the
encoding of a text only when the text is character-for-character ASCII with
the same lowered bytes. -/
theorem enc_eqic_ascii : ∀ (t : Text) (s : Bytes),
    (∀ b ∈ s, byteAsciiLower b < 128) →
    s.map byteAsciiLower = (utf8Encode t).map byteAsciiLower →
    t.map (fun c => byteAsciiLower c.toNat) = s.map byteAsciiLower := by
  intro t
  induction t with
  | nil =>
    intro s _ h
    simp only [utf8Encode, List.map_nil, List.flatten_nil] at h
    rw [h]
    rfl
  | cons c t ih =>
    intro s hs h
    by_cases hc : c.toNat ≤ 0x7F
    · have henc : utf8EncodeChar c = [c.toNat] := by
        unfold utf8EncodeChar
        simp only
        rw [if_pos hc]
      have hcons : utf8Encode (c :: t) = c.toNat :: utf8Encode t := by
        simp [utf8Encode, henc]
      rw [hcons] at h
      cases s with
      | nil => simp at h
      | cons b s2 =>
        simp only [List.map_cons, List.cons.injEq] at h
        obtain ⟨hb, hrest⟩ := h
        simp only [List.map_cons, List.cons.injEq]
        exact ⟨hb.symm, ih s2 (fun b2 hb2 => hs b2 (List.mem_cons_of_mem b hb2)) hrest⟩
    · obtain ⟨b0, t0, henc, hb0⟩ := utf8EncodeChar_head_large hc
      have hcons : utf8Encode (c :: t) = b0 :: (t0 ++ utf8Encode t) := by
        simp [utf8Encode, henc]
      rw [hcons] at h
      cases s with
      | nil => simp at h
      | cons b s2 =>
        simp only [List.map_cons, List.cons.injEq] at h
        have hlt := hs b (List.mem_cons_self b s2)
        rw [h.1, byteAsciiLower_of_ge_128 hb0] at hlt
        omega

/-- If the normalized input matches `"Off"` ASCII case-insensitively, it was
falsey — so in the radio branch a matched on-state is never `"Off"`. -/
theorem eqic_bOff_is_falsey {v : Text}
    (h : bytesEqIgnoreAsciiCase bOff (utf8Encode (textAsciiLower v)) = true) :
    is_falsey (textAsciiLower v) = true := by
  have heq : bOff.map byteAsciiLower =
      (utf8Encode (textAsciiLower v)).map byteAsciiLower := by
    simpa [bytesEqIgnoreAsciiCase] using h
  have hmain := enc_eqic_ascii (textAsciiLower v) bOff (by decide) heq
  have hbytes : bOff.map byteAsciiLower = [111, 102, 102] := by decide
  rw [hbytes] at hmain
  have hnup : ∀ c ∈ textAsciiLower v, byteAsciiLower c.toNat = c.toNat := by
    intro c hc
    obtain ⟨c0, _, hc0⟩ := List.mem_map.mp hc
    unfold byteAsciiLower
    rw [if_neg]
    rw [← hc0]
    exact toAsciiLower_not_upper c0
  rcases hv : textAsciiLower v with _ | ⟨c1, t1⟩
  · rw [hv] at hmain; simp at hmain
  rcases t1 with _ | ⟨c2, t2⟩
  · rw [hv] at hmain; simp at hmain
  rcases t2 with _ | ⟨c3, t3⟩
  · rw [hv] at hmain; simp at hmain
  rcases t3 with _ | ⟨c4, t4⟩
  · rw [hv] at hmain
    simp only [List.map_cons, List.map_nil, List.cons.injEq, and_true] at hmain
    obtain ⟨h1, h2, h3⟩ := hmain
    rw [hv] at hnup
    rw [hnup c1 (by simp)] at h1
    rw [hnup c2 (by simp)] at h2
    rw [hnup c3 (by simp)] at h3
    have e1 : c1 = 'o' := char_eq_of_toNat (by rw [h1]; rfl)
    have e2 : c2 = 'f' := char_eq_of_toNat (by rw [h2]; rfl)
    have e3 : c3 = 'f' := char_eq_of_toNat (by rw [h3]; rfl)
    subst e1; subst e2; subst e3
    rfl
  · rw [hv] at hmain
    simp at hmain


theorem widget_states_mem {d : Doc} {desc : FieldDescriptor} {p : ObjectId × Bytes}
    (h : p ∈ widget_states d desc) :
    p.1 ∈ desc.widget_ids ∧ widget_on_state d p.1 = some p.2 := by
  unfold widget_states at h
  obtain ⟨a, ha, hm⟩ := List.mem_filterMap.mp h
  rcases hw : widget_on_state d a with _ | st
  · rw [hw] at hm; cases hm
  · rw [hw] at hm
    simp only [Option.map_some', Option.some.injEq] at hm
    subst hm
    exact ⟨ha, hw⟩

theorem step_radio_none {d : Doc} {desc : FieldDescriptor} {v : Text}
    (hcond : desc.widget_ids.length > 1 ∧
      ¬ is_truthy (textAsciiLower (rustTrim v)) ∧
      ¬ is_falsey (textAsciiLower (rustTrim v)))
    (hfind : (widget_states d desc).find?
      (fun p => bytesEqIgnoreAsciiCase p.2
        (utf8Encode (textAsciiLower (rustTrim v)))) = none) :
    set_button_value_step d desc v = .error
      (core_error_with_context "BW_FILL_BUTTON_VALUE_INVALID"
        (buttonValueInvalidMsg v) (desc.full_name.or desc.partial_name)) := by
  unfold set_button_value_step
  rw [if_pos hcond]
  dsimp only
  rw [hfind]

theorem step_radio_some {d : Doc} {desc : FieldDescriptor} {v : Text}
    {sel : ObjectId × Bytes}
    (hcond : desc.widget_ids.length > 1 ∧
      ¬ is_truthy (textAsciiLower (rustTrim v)) ∧
      ¬ is_falsey (textAsciiLower (rustTrim v)))
    (hfind : (widget_states d desc).find?
      (fun p => bytesEqIgnoreAsciiCase p.2
        (utf8Encode (textAsciiLower (rustTrim v)))) = some sel) :
    set_button_value_step d desc v =
      (setButtonWidgetsRadio d desc.widget_ids sel.1 sel.2).map
        (fun d2 => (d2, sel.2)) := by
  unfold set_button_value_step
  rw [if_pos hcond]
  dsimp only
  rw [hfind]

theorem sbv_of_step_ok {d d1 : Doc} {desc : FieldDescriptor} {v : Text}
    {fv : Bytes} {e1 : Dict}
    (hstep : set_button_value_step d desc v = .ok (d1, fv))
    (hd1 : docLookup d1 desc.id = some (.dict e1)) :
    set_button_value d desc v =
      .ok (docSetObj d1 desc.id (.dict (dictSet e1 bV (.name fv)))) := by
  unfold set_button_value
  rw [hstep]
  exact docSetDictKey_ok hd1 bV (.name fv) _ _

theorem sbv_of_step_error {d : Doc} {desc : FieldDescriptor} {v : Text}
    {pay : CoreErrorPayload}
    (hstep : set_button_value_step d desc v = .error pay) :
    set_button_value d desc v = .error pay := by
  unfold set_button_value
  rw [hstep]
  rfl

theorem set_button_value_radio_ok {d : Doc} {desc : FieldDescriptor} {v : Text}
    {sel : ObjectId × Bytes}
    (hcond : desc.widget_ids.length > 1 ∧
      ¬ is_truthy (textAsciiLower (rustTrim v)) ∧
      ¬ is_falsey (textAsciiLower (rustTrim v)))
    (hfind : (widget_states d desc).find?
      (fun p => bytesEqIgnoreAsciiCase p.2
        (utf8Encode (textAsciiLower (rustTrim v)))) = some sel)
    (hdicts : ∀ wid ∈ desc.widget_ids, isDictAt d wid)
    (hid : isDictAt d desc.id)
    (hnodup : desc.widget_ids.Nodup) :
    ∃ d', set_button_value d desc v = .ok d' ∧
      dictValAt d' desc.id bV = some (.name sel.2) ∧
      ∀ wid ∈ desc.widget_ids,
        dictValAt d' wid bAS = some (.name (if wid = sel.1 then sel.2 else bOff)) := by
  obtain ⟨d1, hloop, hframe, hdict1, hkey1, hvals⟩ :=
    setButtonWidgetsRadio_ok desc.widget_ids d sel.1 sel.2 hdicts
  obtain ⟨e1, he1⟩ := hdict1 desc.id hid
  have hstep : set_button_value_step d desc v = .ok (d1, sel.2) := by
    rw [step_radio_some hcond hfind, hloop]
    rfl
  refine ⟨docSetObj d1 desc.id (.dict (dictSet e1 bV (.name sel.2))),
    sbv_of_step_ok hstep he1, dictValAt_write_self he1 bV (.name sel.2), ?_⟩
  intro wid hwid
  have hv := hvals hnodup wid hwid
  by_cases hw : wid = desc.id
  · subst hw
    rw [dictValAt_write_self_ne_key he1 bV (.name sel.2) (by decide)]
    exact hv
  · rw [dictValAt_write_ne_id hw]
    exact hv

/-- C3 (confirmed): on a multi-widget button with a value that normalizes to
neither truthy nor falsey, `set_button_value` fails with
`BW_FILL_BUTTON_VALUE_INVALID` and context the full (or else partial) name
exactly when no collected widget on-state matches the normalized value ASCII
case-insensitively; on the first match it succeeds, writes `V` as the matched
state, the matched widget's `AS` as that state, every other widget's `AS` as
`"Off"`, so exactly one widget of the descriptor ends with `AS ≠ "Off"` and
`V` equals that widget's on-state. -/
theorem C3_radio_selection :
    ∀ (d : Doc) (desc : FieldDescriptor) (v : Text),
      desc.widget_ids.length > 1 →
      is_truthy (textAsciiLower (rustTrim v)) = false →
      is_falsey (textAsciiLower (rustTrim v)) = false →
      desc.widget_ids.Nodup →
      (∀ wid ∈ desc.widget_ids, isDictAt d wid) →
      isDictAt d desc.id →
      ((set_button_value d desc v = .error
          (core_error_with_context "BW_FILL_BUTTON_VALUE_INVALID"
            (buttonValueInvalidMsg v) (desc.full_name.or desc.partial_name)) ↔
        ∀ p ∈ widget_states d desc,
          bytesEqIgnoreAsciiCase p.2
            (utf8Encode (textAsciiLower (rustTrim v))) = false) ∧
       (∀ sel, (widget_states d desc).find?
          (fun p => bytesEqIgnoreAsciiCase p.2
            (utf8Encode (textAsciiLower (rustTrim v)))) = some sel →
        ∃ d', set_button_value d desc v = .ok d' ∧
          widget_on_state d sel.1 = some sel.2 ∧
          dictValAt d' desc.id bV = some (.name sel.2) ∧
          (∀ wid ∈ desc.widget_ids, dictValAt d' wid bAS =
            some (.name (if wid = sel.1 then sel.2 else bOff))) ∧
          (∃! wid, wid ∈ desc.widget_ids ∧
            dictValAt d' wid bAS ≠ some (.name bOff)))) := by
  intro d desc v hlen ht hf hnodup hdicts hid
  have hcond : desc.widget_ids.length > 1 ∧
      ¬ is_truthy (textAsciiLower (rustTrim v)) ∧
      ¬ is_falsey (textAsciiLower (rustTrim v)) :=
    ⟨hlen, by simp [ht], by simp [hf]⟩
  have main2 : ∀ sel, (widget_states d desc).find?
      (fun p => bytesEqIgnoreAsciiCase p.2
        (utf8Encode (textAsciiLower (rustTrim v)))) = some sel →
      ∃ d', set_button_value d desc v = .ok d' ∧
        widget_on_state d sel.1 = some sel.2 ∧
        dictValAt d' desc.id bV = some (.name sel.2) ∧
        (∀ wid ∈ desc.widget_ids, dictValAt d' wid bAS =
          some (.name (if wid = sel.1 then sel.2 else bOff))) ∧
        (∃! wid, wid ∈ desc.widget_ids ∧
          dictValAt d' wid bAS ≠ some (.name bOff)) := by
    intro sel hfind
    obtain ⟨d', hok, hV, hAS⟩ :=
      set_button_value_radio_ok hcond hfind hdicts hid hnodup
    have hselmem := widget_states_mem (List.mem_of_find?_eq_some hfind)
    have hmatch := List.find?_some hfind
    simp only [decide_eq_true_eq] at hmatch
    have hselOff : sel.2 ≠ bOff := by
      intro hc
      rw [hc] at hmatch
      exact absurd (eqic_bOff_is_falsey hmatch) (by simp [hf])
    refine ⟨d', hok, hselmem.2, hV, hAS, sel.1, ⟨hselmem.1, ?_⟩, ?_⟩
    · rw [hAS sel.1 hselmem.1, if_pos rfl]
      intro hc
      injection hc with hc2
      injection hc2 with hc3
      exact hselOff hc3
    · rintro wid ⟨hwm, hwne⟩
      by_contra hne
      rw [hAS wid hwm, if_neg hne] at hwne
      exact hwne rfl
  refine ⟨⟨?_, ?_⟩, main2⟩
  · intro herr p hp
    by_contra hne
    have hmatch : ∃ q ∈ widget_states d desc,
        (fun q => bytesEqIgnoreAsciiCase q.2
          (utf8Encode (textAsciiLower (rustTrim v)))) q = true :=
      ⟨p, hp, by simpa using hne⟩
    rcases hfind : (widget_states d desc).find?
        (fun q => bytesEqIgnoreAsciiCase q.2
          (utf8Encode (textAsciiLower (rustTrim v)))) with _ | sel
    · obtain ⟨q, hq, hpq⟩ := hmatch
      exact absurd hpq (by simpa using List.find?_eq_none.mp hfind q hq)
    · obtain ⟨d', hok, _⟩ := main2 sel hfind
      rw [hok] at herr
      cases herr
  · intro hall
    have hfind : (widget_states d desc).find?
        (fun p => bytesEqIgnoreAsciiCase p.2
          (utf8Encode (textAsciiLower (rustTrim v)))) = none := by
      rw [List.find?_eq_none]
      intro p hp
      simp [hall p hp]
    exact sbv_of_step_error (step_radio_none hcond hfind)


/-- A two-option radio group: field `(1,0)` with widgets `(2,0)` (on-state
`"A"`) and `(3,0)` (on-state `"B"`). -/
def radioDoc : Doc :=
  ⟨[((1, 0), .dict []),
    ((2, 0), .dict [(bAP, .dict [(bN, .dict [(bOff, .null), ([65], .null)])])]),
    ((3, 0), .dict [(bAP, .dict [(bN, .dict [(bOff, .null), ([66], .null)])])])],
   [], 3⟩

/-- The descriptor of the radio group of `radioDoc`. -/
def radioDesc : FieldDescriptor :=
  ⟨(1, 0), some ['C'], some ['C'], some "Btn".data, [(2, 0), (3, 0)]⟩

/-- Witness for C3: selecting `"b"` on the concrete radio group matches the
second widget case-insensitively. -/
theorem C3_witness :
    (radioDesc.widget_ids.length > 1 ∧
      is_truthy (textAsciiLower (rustTrim ['b'])) = false ∧
      is_falsey (textAsciiLower (rustTrim ['b'])) = false ∧
      radioDesc.widget_ids.Nodup ∧
      (widget_states radioDoc radioDesc).find?
        (fun p => bytesEqIgnoreAsciiCase p.2
          (utf8Encode (textAsciiLower (rustTrim ['b'])))) = some ((3, 0), [66])) ∧
    ∃ d', set_button_value radioDoc radioDesc ['b'] = .ok d' ∧
      widget_on_state radioDoc ((3, 0) : ObjectId) = some [66] ∧
      dictValAt d' radioDesc.id bV = some (.name [66]) ∧
      (∀ wid ∈ radioDesc.widget_ids, dictValAt d' wid bAS =
        some (.name (if wid = ((3, 0) : ObjectId) then [66] else bOff))) ∧
      (∃! wid, wid ∈ radioDesc.widget_ids ∧
        dictValAt d' wid bAS ≠ some (.name bOff)) :=
  ⟨⟨by decide, by decide, by decide, by decide, by decide⟩,
   (C3_radio_selection radioDoc radioDesc ['b'] (by decide) (by decide) (by decide)
      (by decide)
      (by
        intro wid hw
        rcases List.mem_cons.mp hw with h | h
        · subst h; exact ⟨_, rfl⟩
        · rcases List.mem_cons.mp h with h2 | h2
          · subst h2; exact ⟨_, rfl⟩
          · cases h2)
      ⟨[], rfl⟩).2 ((3, 0), [66]) (by decide)⟩

theorem set_button_value_truthy_single {d : Doc} {desc : FieldDescriptor}
    {v : Text} {w : ObjectId}
    (hids : desc.widget_ids = [w])
    (ht : is_truthy (textAsciiLower (rustTrim v)) = true)
    (hw : isDictAt d w) (hid : isDictAt d desc.id) :
    ∃ d', set_button_value d desc v = .ok d' ∧
      dictValAt d' desc.id bV =
        some (.name ((widget_on_state d w).getD bYes)) ∧
      dictValAt d' w bAS =
        some (.name ((widget_on_state d w).getD
          ((widget_on_state d w).getD bYes))) := by
  obtain ⟨ew, hew⟩ := hw
  have hfv : ((widget_on_state d w).getD ((widget_on_state d w).getD bYes)) =
      (widget_on_state d w).getD bYes := by
    rcases widget_on_state d w with _ | st <;> rfl
  have hloop : setButtonWidgetsTruthySingle d [w] ((widget_on_state d w).getD bYes) =
      .ok (docSetObj d w (.dict (dictSet ew bAS
        (.name ((widget_on_state d w).getD bYes))))) := by
    unfold setButtonWidgetsTruthySingle
    rw [hfv]
    dsimp only
    rw [set_widget_as_ok hew]
    rfl
  have hstep : set_button_value_step d desc v =
      .ok (docSetObj d w (.dict (dictSet ew bAS
          (.name ((widget_on_state d w).getD bYes)))),
        (widget_on_state d w).getD bYes) := by
    unfold set_button_value_step
    rw [hids]
    rw [if_neg (by simp)]
    try dsimp only
    rw [if_pos ht, if_neg (by simp)]
    try dsimp only
    simp only [List.head?_cons, Option.some_bind]
    rw [hloop]
    rfl
  have hid2 : isDictAt (docSetObj d w (.dict (dictSet ew bAS
      (.name ((widget_on_state d w).getD bYes))))) desc.id :=
    isDictAt_docSetObj hid
  obtain ⟨e2, he2⟩ := hid2
  refine ⟨_, sbv_of_step_ok hstep he2,
    dictValAt_write_self he2 bV (.name ((widget_on_state d w).getD bYes)), ?_⟩
  rw [hfv]
  by_cases hwid : w = desc.id
  · subst hwid
    rw [dictValAt_write_self_ne_key he2 bV _ (by decide)]
    exact dictValAt_write_self hew bAS _
  · rw [dictValAt_write_ne_id hwid]
    exact dictValAt_write_self hew bAS _

theorem set_button_value_ok_V_is_name {d : Doc} {desc : FieldDescriptor}
    {v : Text} {d' : Doc} (h : set_button_value d desc v = .ok d') :
    ∃ bs, dictValAt d' desc.id bV = some (.name bs) := by
  unfold set_button_value at h
  rw [except_bind_ok] at h
  obtain ⟨r, _, h3⟩ := h
  obtain ⟨e, he, hd'⟩ := docSetDictKey_ok_inv h3
  refine ⟨r.2, ?_⟩
  rw [hd']
  exact dictValAt_write_self he bV (.name r.2)

/-- C4 (confirmed): on a single-widget button a truthy value sets `V` to the
widget's on-state (the literal `"Yes"` when it has none) and the widget's `AS`
to its own on-state (the field value when it has none); and whenever
`set_button_value` succeeds, the field's `V` holds a PDF Name object — never a
String. -/
theorem C4_truthy_single_and_V_name :
    (∀ (d : Doc) (desc : FieldDescriptor) (v : Text) (w : ObjectId),
      desc.widget_ids = [w] →
      is_truthy (textAsciiLower (rustTrim v)) = true →
      isDictAt d w → isDictAt d desc.id →
      ∃ d', set_button_value d desc v = .ok d' ∧
        dictValAt d' desc.id bV =
          some (.name ((widget_on_state d w).getD bYes)) ∧
        dictValAt d' w bAS =
          some (.name ((widget_on_state d w).getD
            ((widget_on_state d w).getD bYes)))) ∧
    (∀ (d : Doc) (desc : FieldDescriptor) (v : Text) (d' : Doc),
      set_button_value d desc v = .ok d' →
      ∃ bs, dictValAt d' desc.id bV = some (.name bs)) :=
  ⟨fun _ _ _ _ hids ht hw hid => set_button_value_truthy_single hids ht hw hid,
   fun _ _ _ _ h => set_button_value_ok_V_is_name h⟩

/-- A single checkbox widget that is its own field, with on-state `"Yes"`. -/
def checkboxDoc : Doc :=
  ⟨[((1, 0), .dict [(bAP, .dict [(bN, .dict [(bOff, .null), (bYes, .null)])])])],
   [], 1⟩

/-- The descriptor of the checkbox of `checkboxDoc`. -/
def checkboxDesc : FieldDescriptor :=
  ⟨(1, 0), some ['c'], some ['c'], some "Btn".data, [(1, 0)]⟩

/-- Witness for C4 on the concrete checkbox with the value `"true"`. -/
theorem C4_witness :
    (checkboxDesc.widget_ids = [((1, 0) : ObjectId)] ∧
      is_truthy (textAsciiLower (rustTrim "true".data)) = true) ∧
    (∃ d', set_button_value checkboxDoc checkboxDesc "true".data = .ok d' ∧
      dictValAt d' checkboxDesc.id bV =
        some (.name ((widget_on_state checkboxDoc ((1, 0) : ObjectId)).getD bYes)) ∧
      dictValAt d' ((1, 0) : ObjectId) bAS =
        some (.name ((widget_on_state checkboxDoc ((1, 0) : ObjectId)).getD
          ((widget_on_state checkboxDoc ((1, 0) : ObjectId)).getD bYes)))) :=
  ⟨⟨rfl, by decide⟩,
   C4_truthy_single_and_V_name.1 checkboxDoc checkboxDesc "true".data (1, 0) rfl
     (by decide) ⟨_, rfl⟩ ⟨_, rfl⟩⟩


theorem apply_field_value_btn {d : Doc} {desc : FieldDescriptor} {v : Text}
    (hft : desc.field_type = some "Btn".data) :
    apply_field_value d desc v = set_button_value d desc v := by
  unfold apply_field_value
  rw [hft]
  rw [if_neg (by decide), if_pos (by decide)]

theorem step_empty_truthy {d : Doc} {desc : FieldDescriptor} {v : Text}
    (hids : desc.widget_ids = [])
    (ht : is_truthy (textAsciiLower (rustTrim v)) = true) :
    set_button_value_step d desc v = .ok (d, bYes) := by
  unfold set_button_value_step
  rw [hids]
  rw [if_neg (by simp)]
  try dsimp only
  rw [if_pos ht, if_neg (by simp)]
  rfl

theorem step_empty_not_truthy {d : Doc} {desc : FieldDescriptor} {v : Text}
    (hids : desc.widget_ids = [])
    (ht : is_truthy (textAsciiLower (rustTrim v)) = false) :
    set_button_value_step d desc v = .ok (d, bOff) := by
  unfold set_button_value_step
  rw [hids]
  rw [if_neg (by simp)]
  try dsimp only
  rw [if_neg (by simp [ht])]
  rfl

/-- A value cannot be both truthy and falsey: the two keyword lists are
disjoint. -/
theorem is_falsey_not_truthy {s : Text} (hf : is_falsey s = true) :
    is_truthy s = false := by
  rcases hmem : is_truthy s with _ | _
  · rfl
  · exfalso
    have h1 := hmem
    have h2 := hf
    unfold is_truthy at h1
    unfold is_falsey at h2
    rw [List.contains_eq_any_beq] at h1 h2
    obtain ⟨x1, hx1, hb1⟩ := List.any_eq_true.mp h1
    obtain ⟨x2, hx2, hb2⟩ := List.any_eq_true.mp h2
    have e12 : x1 = x2 := (eq_of_beq hb1).symm.trans (eq_of_beq hb2)
    subst e12
    fin_cases hx1 <;> revert hx2 <;> decide

/-- C10 (confirmed): a `Btn` field whose descriptor lists no widgets accepts a
truthy value by setting `V` to the Name `"Yes"` and a falsey value by setting
`V` to the Name `"Off"`; in both cases no widget is mutated — no object other
than the field itself changes. -/
theorem C10_button_without_widgets :
    ∀ (d : Doc) (desc : FieldDescriptor) (v : Text) (e : Dict),
      desc.widget_ids = [] →
      desc.field_type = some "Btn".data →
      docLookup d desc.id = some (.dict e) →
      ((is_truthy (textAsciiLower (rustTrim v)) = true →
        ∃ d', apply_field_value d desc v = .ok d' ∧
          dictValAt d' desc.id bV = some (.name bYes) ∧
          ∀ i, i ≠ desc.id → docLookup d' i = docLookup d i) ∧
       (is_falsey (textAsciiLower (rustTrim v)) = true →
        ∃ d', apply_field_value d desc v = .ok d' ∧
          dictValAt d' desc.id bV = some (.name bOff) ∧
          ∀ i, i ≠ desc.id → docLookup d' i = docLookup d i)) := by
  intro d desc v e hids hft he
  constructor
  · intro ht
    refine ⟨docSetObj d desc.id (.dict (dictSet e bV (.name bYes))), ?_, ?_, ?_⟩
    · rw [apply_field_value_btn hft]
      exact sbv_of_step_ok (step_empty_truthy hids ht) he
    · exact dictValAt_write_self he bV (.name bYes)
    · intro i hi
      exact docLookup_docSetObj_ne d _ hi
  · intro hf
    refine ⟨docSetObj d desc.id (.dict (dictSet e bV (.name bOff))), ?_, ?_, ?_⟩
    · rw [apply_field_value_btn hft]
      exact sbv_of_step_ok (step_empty_not_truthy hids (is_falsey_not_truthy hf)) he
    · exact dictValAt_write_self he bV (.name bOff)
    · intro i hi
      exact docLookup_docSetObj_ne d _ hi

/-- A button field with no widgets at all. -/
def lonelyBtnDoc : Doc := ⟨[((1, 0), .dict [])], [], 1⟩

/-- The descriptor of the widgetless button of `lonelyBtnDoc`. -/
def lonelyBtnDesc : FieldDescriptor :=
  ⟨(1, 0), some ['k'], some ['k'], some "Btn".data, []⟩

/-- Witness for C10 with the truthy `"x"` and the falsey `"no"`. -/
theorem C10_witness :
    (lonelyBtnDesc.widget_ids = [] ∧
      lonelyBtnDesc.field_type = some "Btn".data ∧
      docLookup lonelyBtnDoc ((1, 0) : ObjectId) = some (.dict []) ∧
      is_truthy (textAsciiLower (rustTrim ['x'])) = true ∧
      is_falsey (textAsciiLower (rustTrim "no".data)) = true) ∧
    (∃ d', apply_field_value lonelyBtnDoc lonelyBtnDesc ['x'] = .ok d' ∧
      dictValAt d' lonelyBtnDesc.id bV = some (.name bYes) ∧
      ∀ i, i ≠ lonelyBtnDesc.id → docLookup d' i = docLookup lonelyBtnDoc i) ∧
    (∃ d', apply_field_value lonelyBtnDoc lonelyBtnDesc "no".data = .ok d' ∧
      dictValAt d' lonelyBtnDesc.id bV = some (.name bOff) ∧
      ∀ i, i ≠ lonelyBtnDesc.id → docLookup d' i = docLookup lonelyBtnDoc i) :=
  ⟨⟨rfl, rfl, rfl, by decide, by decide⟩,
   (C10_button_without_widgets lonelyBtnDoc lonelyBtnDesc ['x'] [] rfl rfl rfl).1
     (by decide),
   (C10_button_without_widgets lonelyBtnDoc lonelyBtnDesc "no".data [] rfl rfl rfl).2
     (by decide)⟩


/-- The fallback label `format!("field_{}_{}", page_number, annot_index + 1)`. -/
def fallbackLabel (page_number annot_index : Nat) : Text :=
  "field_".data ++ (Nat.repr page_number).data ++ "_".data ++
    (Nat.repr (annot_index + 1)).data

theorem detect_page_annots_mem (d : Doc) (p : Nat) :
    ∀ (annots : List PdfObj) (idx j : Nat) (hj : j < annots.length)
      (widget : Dict) (rect : Rat × Rat × Rat × Rat),
      resolve_object d (annots.get ⟨j, hj⟩) = some (.dict widget) →
      is_widget_dict widget = true →
      (dictGet widget bRect).bind rect_from_object = some rect →
      ({ label := widget_label d widget (fallbackLabel p (idx + j)),
         x := rect.1, y := rect.2.1, width := rect.2.2.1,
         height := rect.2.2.2 } : Block) ∈ detect_page_annots d p annots idx := by
  intro annots
  induction annots with
  | nil => intro idx j hj; simp at hj
  | cons a rest ih =>
    intro idx j hj widget rect hres hwid hrect
    cases j with
    | zero =>
      simp only [List.get] at hres
      unfold detect_page_annots
      rw [hres]
      dsimp only
      rw [if_pos hwid, hrect]
      dsimp only
      rw [Nat.add_zero]
      exact List.mem_cons_self _ _
    | succ j2 =>
      simp only [List.get] at hres
      have hj2 : j2 < rest.length := by simpa using hj
      have hmem := ih (idx + 1) j2 hj2 widget rect hres hwid hrect
      have harith : idx + 1 + j2 = idx + (j2 + 1) := by omega
      rw [harith] at hmem
      unfold detect_page_annots
      rcases hres2 : resolve_object d a with _ | obj
      · exact hmem
      · cases obj <;> try exact hmem
        next w2 =>
          dsimp only
          by_cases hw2 : is_widget_dict w2
          · rw [if_pos hw2]
            rcases hr2 : (dictGet w2 bRect).bind rect_from_object with _ | r2
            · exact hmem
            · exact List.mem_cons_of_mem _ hmem
          · rw [if_neg hw2]
            exact hmem

/-- A page whose `Annots` array holds a widget, a skipped `Null` entry, and a
second widget, neither widget carrying a label. -/
def gapAnnots : List PdfObj :=
  [.dict [(bSubtype, .name bWidget),
      (bRect, .array [.integer 0, .integer 0, .integer 10, .integer 10])],
   .null,
   .dict [(bSubtype, .name bWidget),
      (bRect, .array [.integer 0, .integer 20, .integer 10, .integer 30])]]

/-- C9 (confirmed): the one-based index of the fallback label
`"field_{page}_{index}"` is the annotation's position in the whole `Annots`
array — entries that are skipped (unresolvable, non-widget, or without a
decodable `Rect`) still advance the counter, so the emitted fallback labels on
a page need not be consecutive: with a skipped entry between two label-less
widgets, the page emits `field_1_1` and `field_1_3`. -/
theorem C9_detect_fallback_index_counts_all_entries :
    (∀ (d : Doc) (p : Nat) (annots : List PdfObj) (j : Nat)
      (hj : j < annots.length) (widget : Dict) (rect : Rat × Rat × Rat × Rat),
      resolve_object d (annots.get ⟨j, hj⟩) = some (.dict widget) →
      is_widget_dict widget = true →
      (dictGet widget bRect).bind rect_from_object = some rect →
      ({ label := widget_label d widget (fallbackLabel p j),
         x := rect.1, y := rect.2.1, width := rect.2.2.1,
         height := rect.2.2.2 } : Block) ∈ detect_page d p annots) ∧
    (detect_page ⟨[], [], 0⟩ 1 gapAnnots).map (fun b => b.label) =
      ["field_1_1".data, "field_1_3".data] := by
  constructor
  · intro d p annots j hj widget rect hres hwid hrect
    have := detect_page_annots_mem d p annots 0 j hj widget rect hres hwid hrect
    simpa [detect_page] using this
  · decide


/-- Witness for C9: the third entry of `gapAnnots` (position 2, after a
skipped `Null`) emits the fallback index 3. -/
theorem C9_witness :
    (resolve_object ⟨[], [], 0⟩ (gapAnnots.get ⟨2, by decide⟩) =
      some (.dict [(bSubtype, .name bWidget),
        (bRect, .array [.integer 0, .integer 20, .integer 10, .integer 30])])) ∧
    ({ label := widget_label ⟨[], [], 0⟩
        [(bSubtype, .name bWidget),
         (bRect, .array [.integer 0, .integer 20, .integer 10, .integer 30])]
        (fallbackLabel 1 2),
       x := (0 : Rat), y := (20 : Rat), width := (10 : Rat),
       height := (10 : Rat) } : Block) ∈ detect_page ⟨[], [], 0⟩ 1 gapAnnots :=
  ⟨rfl,
   C9_detect_fallback_index_counts_all_entries.1 ⟨[], [], 0⟩ 1 gapAnnots 2
     (by decide) _ ((0 : Rat), (20 : Rat), (10 : Rat), (10 : Rat)) rfl rfl
     (by
       simp [dictGet, rect_from_object, object_to_number, bSubtype, bRect,
         bytesOfAscii, List.find?]
       norm_num)⟩


theorem field_input_value_empty (desc : FieldDescriptor) :
    field_input_value desc [] = none := by
  unfold field_input_value mapGet
  rcases desc.full_name with _ | fn <;> rcases desc.partial_name with _ | pn <;> rfl

theorem fill_apply_descriptors_skip_all {d : Doc} {descs : List FieldDescriptor}
    {fields : FieldMap} {n : Nat}
    (h : ∀ desc ∈ descs, field_input_value desc fields = none) :
    fill_apply_descriptors d descs fields n = .ok (d, n) := by
  induction descs with
  | nil => rfl
  | cons desc rest ih =>
    unfold fill_apply_descriptors
    rw [h desc (List.mem_cons_self desc rest)]
    exact ih (fun q hq => h q (List.mem_cons_of_mem desc hq))

/-- C7 (corrected): the no-match guard of `fill_blocks_impl`, conditional on
the application pass having completed: the precedence of the full-name lookup
over the partial name, that unmatched descriptors are skipped, and that the
guard fires exactly on a non-empty map with zero updates. -/
theorem C7_input_matching_and_no_match_guard :
    (∀ (desc : FieldDescriptor) (fields : FieldMap) (fn : Text) (val : Text),
      desc.full_name = some fn → mapGet fields fn = some val →
      field_input_value desc fields = some val) ∧
    (∀ (desc : FieldDescriptor) (fields : FieldMap),
      (desc.full_name = none ∨
        ∃ fn, desc.full_name = some fn ∧ mapGet fields fn = none) →
      field_input_value desc fields = desc.partial_name.bind (mapGet fields)) ∧
    (∀ (d : Doc) (desc : FieldDescriptor) (rest : List FieldDescriptor)
      (fields : FieldMap) (n : Nat),
      field_input_value desc fields = none →
      fill_apply_descriptors d (desc :: rest) fields n =
        fill_apply_descriptors d rest fields n) ∧
    (∀ (d0 d3 : Doc) (fields : FieldMap) (cid : ObjectId)
      (p : Doc × ObjectId) (d2 : Doc) (acroform : Dict) (roots : PdfObj) (n : Nat),
      root_catalog_id d0 = .ok cid →
      ensure_acroform_object d0 cid = .ok p →
      docSetDictKey p.1 p.2 bNeedAppearances (.boolean true)
        "BW_FORM_ACROFORM_INVALID" "AcroForm dictionary".data = .ok d2 →
      getDict d2 p.2 "BW_FORM_ACROFORM_INVALID" "AcroForm dictionary".data =
        .ok acroform →
      dictGet acroform bFields = some roots →
      (collect_field_ids d2 roots [] ∅).val.1 ≠ [] →
      fill_apply_descriptors d2
        ((collect_field_ids d2 roots [] ∅).val.1.map (describe_field d2))
        fields 0 = .ok (d3, n) →
      (fill_blocks_doc d0 fields = .error
          (core_error "BW_FILL_NO_MATCHING_FIELDS"
            "none of the provided input keys matched PDF form field names".data) ↔
        (n = 0 ∧ fields ≠ []))) := by
  refine ⟨?_, ?_, ?_, ?_⟩
  · intro desc fields fn val hfn hget
    unfold field_input_value
    rw [hfn]
    dsimp only
    rw [hget]
  · intro desc fields hmiss
    unfold field_input_value
    rcases hmiss with hnone | ⟨fn, hfn, hget⟩
    · rw [hnone]
      rcases desc.partial_name with _ | pn <;> rfl
    · rw [hfn]
      dsimp only
      rw [hget]
      rcases desc.partial_name with _ | pn <;> rfl
  · intro d desc rest fields n h
    simp only [fill_apply_descriptors, h]
  · intro d0 d3 fields cid p d2 acroform roots n hroot hensure hNA hget hfields hne hpass
    unfold fill_blocks_doc
    rw [hroot, except_ok_bind]
    try dsimp only
    rw [hensure, except_ok_bind]
    try dsimp only
    rw [hNA, except_ok_bind]
    try dsimp only
    rw [hget, except_ok_bind]
    try dsimp only
    rw [hfields]
    try dsimp only
    rw [except_pure_bind]
    try dsimp only
    rw [if_neg hne]
    try dsimp only
    rw [hpass, except_ok_bind]
    try dsimp only
    by_cases hc : n = 0 ∧ fields ≠ []
    · rw [if_pos hc]
      exact iff_of_true rfl hc
    · rw [if_neg hc]
      exact iff_of_false (by intro hcon; cases hcon) hc


/-- A document whose single field is matched by the input map but carries the
unsupported type `Sig`. -/
def sigField : Dict :=
  [(bT, .str (bytesOfAscii "a") .literal), (bFT, .name (bytesOfAscii "Sig"))]

/-- Catalog at (10,0), AcroForm at (11,0), one `Sig` field at (1,0). -/
def sigDoc : Doc :=
  ⟨[(((10 : Nat), (0 : Nat)), .dict [(bAcroForm, .reference ((11 : Nat), (0 : Nat)))]),
    (((11 : Nat), (0 : Nat)), .dict [(bFields, .array [.reference ((1 : Nat), (0 : Nat))])]),
    (((1 : Nat), (0 : Nat)), .dict sigField)],
   [(bRoot, .reference ((10 : Nat), (0 : Nat)))], 11⟩

/-- `sigDoc` after the `NeedAppearances` write on the AcroForm dictionary. -/
def sigDoc2 : Doc :=
  ⟨[(((10 : Nat), (0 : Nat)), .dict [(bAcroForm, .reference ((11 : Nat), (0 : Nat)))]),
    (((11 : Nat), (0 : Nat)), .dict [(bFields, .array [.reference ((1 : Nat), (0 : Nat))]),
      (bNeedAppearances, .boolean true)]),
    (((1 : Nat), (0 : Nat)), .dict sigField)],
   [(bRoot, .reference ((10 : Nat), (0 : Nat)))], 11⟩

/-- The AcroForm dictionary of `sigDoc2`. -/
def sigAcro : Dict :=
  [(bFields, .array [.reference ((1 : Nat), (0 : Nat))]), (bNeedAppearances, .boolean true)]

theorem sig_collect :
    (collect_field_ids sigDoc2 (.array [.reference ((1 : Nat), (0 : Nat))]) [] ∅).val =
      ([((1 : Nat), (0 : Nat))], {((1 : Nat), (0 : Nat))}) := by
  have h1 : (collect_field_ids sigDoc2 (.reference ((1 : Nat), (0 : Nat))) [] ∅).val =
      ([((1 : Nat), (0 : Nat))], {((1 : Nat), (0 : Nat))}) :=
    @collect_ref_nokids sigDoc2 ((1 : Nat), (0 : Nat)) [] ∅ sigField
      (Finset.not_mem_empty _) rfl rfl
  rw [collect_array_eq, collect_list_cons, h1]
  exact collect_list_nil

/-- Counterexample to C7's "exactly when": the input map is non-empty and zero
descriptors end up updated, yet the run fails with
`BW_FILL_UNSUPPORTED_FIELD_TYPE` — the unsupported-type failure of the matched
`Sig` field preempts the no-match guard, so a non-empty map with zero updates
does not imply `BW_FILL_NO_MATCHING_FIELDS`. -/
theorem C7_counterexample_unsupported_type :
    fill_blocks_doc sigDoc [("a".data, "x".data)] =
      .error (core_error_with_context "BW_FILL_UNSUPPORTED_FIELD_TYPE"
        (unsupportedTypeMsg "Sig".data) (some "a".data)) ∧
    fill_blocks_doc sigDoc [("a".data, "x".data)] ≠
      .error (core_error "BW_FILL_NO_MATCHING_FIELDS"
        "none of the provided input keys matched PDF form field names".data) ∧
    ([("a".data, "x".data)] : FieldMap) ≠ [] := by
  have hdesc : describe_field sigDoc2 ((1 : Nat), (0 : Nat)) =
      ⟨((1 : Nat), (0 : Nat)), some "a".data, some "a".data, some "Sig".data, []⟩ := by
    simp [describe_field, field_partial_name, field_full_name, field_type,
      field_parent_id, sigDoc2, sigField, docLookup, asDict, dict_text, dictGet,
      resolve_object, object_to_text, object_to_text.object_to_text_raw,
      object_to_name, utf8DecodeLossy, trimNulEnds, rustTrim, trimBy,
      rustIsWhitespace, nulChar, bT, bFT, bParent, bKids, bSubtype,
      bytesOfAscii, object_as_reference, is_widget_object, is_widget_dict,
      List.dropWhile, List.rdropWhile, List.find?]
  have hrun : fill_blocks_doc sigDoc [("a".data, "x".data)] =
      .error (core_error_with_context "BW_FILL_UNSUPPORTED_FIELD_TYPE"
        (unsupportedTypeMsg "Sig".data) (some "a".data)) := by
    unfold fill_blocks_doc
    rw [show root_catalog_id sigDoc = Except.ok ((10 : Nat), (0 : Nat)) from rfl,
      except_ok_bind]
    try dsimp only
    rw [show ensure_acroform_object sigDoc ((10 : Nat), (0 : Nat)) =
        Except.ok (sigDoc, ((11 : Nat), (0 : Nat))) from rfl, except_ok_bind]
    try dsimp only
    rw [show docSetDictKey sigDoc ((11 : Nat), (0 : Nat)) bNeedAppearances
        (.boolean true) "BW_FORM_ACROFORM_INVALID" "AcroForm dictionary".data =
        Except.ok sigDoc2 from rfl, except_ok_bind]
    try dsimp only
    rw [show getDict sigDoc2 ((11 : Nat), (0 : Nat)) "BW_FORM_ACROFORM_INVALID"
        "AcroForm dictionary".data = Except.ok sigAcro from rfl, except_ok_bind]
    try dsimp only
    rw [show dictGet sigAcro bFields =
        some (.array [.reference ((1 : Nat), (0 : Nat))]) from rfl]
    try dsimp only
    rw [except_pure_bind]
    try dsimp only
    rw [sig_collect]
    try dsimp only
    rw [if_neg (by simp)]
    try dsimp only
    simp only [List.map_cons, List.map_nil]
    rw [hdesc]
    rw [show fill_apply_descriptors sigDoc2
        [⟨((1 : Nat), (0 : Nat)), some "a".data, some "a".data, some "Sig".data, []⟩]
        [("a".data, "x".data)] 0 =
        Except.error (core_error_with_context "BW_FILL_UNSUPPORTED_FIELD_TYPE"
          (unsupportedTypeMsg "Sig".data) (some "a".data)) from rfl]
    rfl
  refine ⟨hrun, ?_, by simp⟩
  rw [hrun]
  simp [core_error_with_context, core_error]


/-- Catalog at (10,0), AcroForm at (11,0), one empty field dictionary at
(1,0): every lookup misses, so the application pass succeeds with zero
updates. -/
def c7Doc : Doc :=
  ⟨[(((10 : Nat), (0 : Nat)), .dict [(bAcroForm, .reference ((11 : Nat), (0 : Nat)))]),
    (((11 : Nat), (0 : Nat)), .dict [(bFields, .array [.reference ((1 : Nat), (0 : Nat))])]),
    (((1 : Nat), (0 : Nat)), .dict [])],
   [(bRoot, .reference ((10 : Nat), (0 : Nat)))], 11⟩

/-- `c7Doc` after the `NeedAppearances` write on the AcroForm dictionary. -/
def c7Doc2 : Doc :=
  ⟨[(((10 : Nat), (0 : Nat)), .dict [(bAcroForm, .reference ((11 : Nat), (0 : Nat)))]),
    (((11 : Nat), (0 : Nat)), .dict [(bFields, .array [.reference ((1 : Nat), (0 : Nat))]),
      (bNeedAppearances, .boolean true)]),
    (((1 : Nat), (0 : Nat)), .dict [])],
   [(bRoot, .reference ((10 : Nat), (0 : Nat)))], 11⟩

/-- The AcroForm dictionary of `c7Doc2`. -/
def c7Acro : Dict :=
  [(bFields, .array [.reference ((1 : Nat), (0 : Nat))]), (bNeedAppearances, .boolean true)]

theorem c7_collect :
    (collect_field_ids c7Doc2 (.array [.reference ((1 : Nat), (0 : Nat))]) [] ∅).val =
      ([((1 : Nat), (0 : Nat))], {((1 : Nat), (0 : Nat))}) := by
  have h1 : (collect_field_ids c7Doc2 (.reference ((1 : Nat), (0 : Nat))) [] ∅).val =
      ([((1 : Nat), (0 : Nat))], {((1 : Nat), (0 : Nat))}) :=
    @collect_ref_nokids c7Doc2 ((1 : Nat), (0 : Nat)) [] ∅ []
      (Finset.not_mem_empty _) rfl rfl
  rw [collect_array_eq, collect_list_cons, h1]
  exact collect_list_nil

theorem c7_ne :
    ((collect_field_ids c7Doc2 (.array [.reference ((1 : Nat), (0 : Nat))]) [] ∅).val).1 ≠
      [] := by
  rw [c7_collect]
  simp

theorem c7_pass :
    fill_apply_descriptors c7Doc2
      (((collect_field_ids c7Doc2 (.array [.reference ((1 : Nat), (0 : Nat))]) [] ∅).val).1.map
        (describe_field c7Doc2)) [] 0 = .ok (c7Doc2, 0) := by
  rw [c7_collect]
  exact fill_apply_descriptors_skip_all (fun desc _ => field_input_value_empty desc)

/-- Witness for C7: a full-name hit, a full-name miss falling to the partial
name, a skipped no-match descriptor, and the instantiated no-match-guard iff
on `c7Doc` with the empty input map. -/
theorem C7_witness :
    field_input_value ⟨((1 : Nat), (0 : Nat)), some ['p'], some ['a'], some "Tx".data, []⟩
      [(['a'], ['x'])] = some ['x'] ∧
    field_input_value ⟨((2 : Nat), (0 : Nat)), some ['a'], some ['b'], none, []⟩
      [(['a'], ['x'])] = some ['x'] ∧
    fill_apply_descriptors ⟨[], [], 0⟩
      [⟨((3 : Nat), (0 : Nat)), some ['z'], some ['z'], none, []⟩] [(['a'], ['x'])] 0 =
      fill_apply_descriptors ⟨[], [], 0⟩ [] [(['a'], ['x'])] 0 ∧
    (fill_blocks_doc c7Doc [] = .error
        (core_error "BW_FILL_NO_MATCHING_FIELDS"
          "none of the provided input keys matched PDF form field names".data) ↔
      ((0 : Nat) = 0 ∧ ([] : FieldMap) ≠ [])) := by
  refine ⟨?_, ?_, ?_, ?_⟩
  · exact C7_input_matching_and_no_match_guard.1
      ⟨((1 : Nat), (0 : Nat)), some ['p'], some ['a'], some "Tx".data, []⟩
      [(['a'], ['x'])] ['a'] ['x'] rfl rfl
  · exact C7_input_matching_and_no_match_guard.2.1
      ⟨((2 : Nat), (0 : Nat)), some ['a'], some ['b'], none, []⟩
      [(['a'], ['x'])] (Or.inr ⟨['b'], rfl, rfl⟩)
  · exact C7_input_matching_and_no_match_guard.2.2.1 ⟨[], [], 0⟩
      ⟨((3 : Nat), (0 : Nat)), some ['z'], some ['z'], none, []⟩ [] [(['a'], ['x'])] 0 rfl
  · exact C7_input_matching_and_no_match_guard.2.2.2 c7Doc c7Doc2 [] ((10 : Nat), (0 : Nat))
      (c7Doc, ((11 : Nat), (0 : Nat))) c7Doc2 c7Acro
      (.array [.reference ((1 : Nat), (0 : Nat))]) 0
      rfl rfl rfl rfl rfl c7_ne c7_pass


/-- The dictionary keys the fill pipeline ever writes. -/
def fillWKey (k : Bytes) : Bool :=
  k == bV || k == bDV || k == bAS || k == bNeedAppearances

/-- The keys written inside the descriptor-application loop. -/
def fillLKey (k : Bytes) : Bool :=
  k == bV || k == bDV || k == bAS

theorem fillLKey_wkey {k : Bytes} (h : fillLKey k = true) : fillWKey k = true := by
  simp only [fillLKey, Bool.or_eq_true, beq_iff_eq] at h
  simp only [fillWKey, Bool.or_eq_true, beq_iff_eq]
  tauto

theorem fillWKey_ne_off {k : Bytes} (h : fillWKey k = true) : k ≠ bOff := by
  simp only [fillWKey, Bool.or_eq_true, beq_iff_eq] at h
  rcases h with ((h | h) | h) | h <;> subst h <;> decide

theorem fillLKey_ne_na {k : Bytes} (h : fillLKey k = true) : k ≠ bNeedAppearances := by
  simp only [fillLKey, Bool.or_eq_true, beq_iff_eq] at h
  rcases h with (h | h) | h <;> subst h <;> decide

/-- Two dictionaries that agree on everything the pipeline reads: every key
outside the written set, and the first non-`"Off"` key, which is the one
structural property `widget_on_state` consumes. -/
def DictR (e e2 : Dict) : Prop :=
  (∀ k, fillWKey k = false → dictGet e2 k = dictGet e k) ∧
  firstNonOffKey e2 = firstNonOffKey e

/-- Objects equal up to written dictionary keys. -/
def ObjR (o o2 : PdfObj) : Prop :=
  (∃ e e2, o = .dict e ∧ o2 = .dict e2 ∧ DictR e e2) ∨ o2 = o

/-- Optional objects equal up to written dictionary keys. -/
def OptR (x x2 : Option PdfObj) : Prop :=
  (∃ o o2, x = some o ∧ x2 = some o2 ∧ ObjR o o2) ∨ x2 = x

/-- Documents equal up to fill writes: the trailer agrees and every object
slot is related by `ObjR`. -/
def DocR (d d2 : Doc) : Prop :=
  d2.trailer = d.trailer ∧ ∀ id, OptR (docLookup d id) (docLookup d2 id)

theorem DictR_refl (e : Dict) : DictR e e := ⟨fun _ _ => rfl, rfl⟩

theorem DictR_trans {e1 e2 e3 : Dict} (h1 : DictR e1 e2) (h2 : DictR e2 e3) :
    DictR e1 e3 :=
  ⟨fun k hk => (h2.1 k hk).trans (h1.1 k hk), h2.2.trans h1.2⟩

theorem ObjR_refl (o : PdfObj) : ObjR o o := Or.inr rfl

theorem ObjR_dict_inv {e : Dict} {o2 : PdfObj} (h : ObjR (.dict e) o2) :
    ∃ e2, o2 = .dict e2 ∧ DictR e e2 := by
  rcases h with ⟨e1, e2, he1, he2, hd⟩ | heq
  · injection he1 with hx
    subst hx
    exact ⟨e2, he2, hd⟩
  · exact ⟨e, heq, DictR_refl e⟩

theorem ObjR_dict_inv_back {o : PdfObj} {e2 : Dict} (h : ObjR o (.dict e2)) :
    ∃ e, o = .dict e ∧ DictR e e2 := by
  rcases h with ⟨e1, e1b, he1, he2, hd⟩ | heq
  · injection he2 with hx
    subst hx
    exact ⟨e1, he1, hd⟩
  · exact ⟨e2, heq.symm, DictR_refl e2⟩

theorem ObjR_nondict {o o2 : PdfObj} (h : ObjR o o2) (hn : ∀ e, o ≠ .dict e) :
    o2 = o := by
  rcases h with ⟨e1, e2, he1, _, _⟩ | heq
  · exact absurd he1 (hn e1)
  · exact heq

theorem ObjR_trans {o1 o2 o3 : PdfObj} (h1 : ObjR o1 o2) (h2 : ObjR o2 o3) :
    ObjR o1 o3 := by
  rcases h1 with ⟨e1, e2, rfl, rfl, hd1⟩ | rfl
  · obtain ⟨e3, rfl, hd2⟩ := ObjR_dict_inv h2
    exact Or.inl ⟨e1, e3, rfl, rfl, DictR_trans hd1 hd2⟩
  · exact h2

theorem OptR_refl (x : Option PdfObj) : OptR x x := Or.inr rfl

theorem OptR_none {x2 : Option PdfObj} (h : OptR none x2) : x2 = none := by
  rcases h with ⟨o1, o2, he1, _, _⟩ | heq
  · cases he1
  · exact heq

theorem OptR_some_inv {o : PdfObj} {x2 : Option PdfObj} (h : OptR (some o) x2) :
    ∃ o2, x2 = some o2 ∧ ObjR o o2 := by
  rcases h with ⟨o1, o2, he1, he2, ho⟩ | heq
  · injection he1 with hx
    subst hx
    exact ⟨o2, he2, ho⟩
  · exact ⟨o, heq, ObjR_refl o⟩

theorem OptR_trans {x1 x2 x3 : Option PdfObj} (h1 : OptR x1 x2) (h2 : OptR x2 x3) :
    OptR x1 x3 := by
  rcases h1 with ⟨o1, o2, rfl, rfl, ho1⟩ | rfl
  · obtain ⟨o3, rfl, ho2⟩ := OptR_some_inv h2
    exact Or.inl ⟨o1, o3, rfl, rfl, ObjR_trans ho1 ho2⟩
  · exact h2

theorem DocR_refl (d : Doc) : DocR d d := ⟨rfl, fun id => OptR_refl _⟩

theorem DocR_trans {d1 d2 d3 : Doc} (h1 : DocR d1 d2) (h2 : DocR d2 d3) :
    DocR d1 d3 :=
  ⟨h2.1.trans h1.1, fun id => OptR_trans (h1.2 id) (h2.2 id)⟩

theorem firstNonOffKey_eq_none_iff (e : Dict) :
    firstNonOffKey e = none ↔ ∀ p ∈ e, p.1 = bOff := by
  induction e with
  | nil => simp [firstNonOffKey]
  | cons p rest ih =>
    unfold firstNonOffKey
    by_cases hp : p.1 ≠ bOff
    · rw [if_pos hp]
      constructor
      · intro h; cases h
      · intro h
        exact absurd (h p (List.mem_cons_self p rest)) hp
    · rw [if_neg hp]
      rw [not_not] at hp
      rw [ih]
      constructor
      · intro h q hq
        rcases List.mem_cons.mp hq with hq1 | hq2
        · rw [hq1]; exact hp
        · exact h q hq2
      · intro h q hq
        exact h q (List.mem_cons_of_mem p hq)

theorem firstNonOffKey_ne_none_of_get {e : Dict} {k0 : Bytes} {v : PdfObj}
    (h : dictGet e k0 = some v) (hk : k0 ≠ bOff) : firstNonOffKey e ≠ none := by
  intro hc
  rw [firstNonOffKey_eq_none_iff] at hc
  unfold dictGet at h
  rcases hf : e.find? (fun p => p.1 = k0) with _ | q
  · rw [hf] at h; cases h
  · have hmem := List.mem_of_find?_eq_some hf
    have hq := List.find?_some hf
    simp only [decide_eq_true_eq] at hq
    exact hk (by rw [← hq]; exact hc q hmem)

theorem firstNonOffKey_map_set (e : Dict) (k : Bytes) (v : PdfObj) (hk : k ≠ bOff) :
    firstNonOffKey (e.map (fun p => if p.1 = k then (k, v) else p)) =
      firstNonOffKey e := by
  induction e with
  | nil => rfl
  | cons p rest ih =>
    simp only [List.map_cons]
    unfold firstNonOffKey
    by_cases hp : p.1 = k
    · rw [if_pos hp]
      rw [if_pos hk, if_pos (show p.1 ≠ bOff by rw [hp]; exact hk)]
      rw [hp]
    · rw [if_neg hp]
      by_cases ho : p.1 ≠ bOff
      · rw [if_pos ho, if_pos ho]
      · rw [if_neg ho, if_neg ho]
        exact ih

theorem firstNonOffKey_append_single (e : Dict) (k : Bytes) (v : PdfObj)
    (hk : k ≠ bOff) :
    firstNonOffKey (e ++ [(k, v)]) = (firstNonOffKey e).or (some k) := by
  induction e with
  | nil =>
    simp only [List.nil_append]
    unfold firstNonOffKey
    rw [if_pos hk]
    rfl
  | cons p rest ih =>
    simp only [List.cons_append]
    unfold firstNonOffKey
    by_cases ho : p.1 ≠ bOff
    · rw [if_pos ho, if_pos ho]
      rfl
    · rw [if_neg ho, if_neg ho]
      exact ih

theorem firstNonOffKey_dictSet (e : Dict) (k : Bytes) (v : PdfObj) (hk : k ≠ bOff) :
    firstNonOffKey (dictSet e k v) = (firstNonOffKey e).or (some k) := by
  unfold dictSet
  by_cases hany : e.any (fun p => p.1 = k)
  · rw [if_pos hany, firstNonOffKey_map_set e k v hk]
    obtain ⟨q, hqmem, hqk⟩ := List.any_eq_true.mp hany
    simp only [decide_eq_true_eq] at hqk
    have hne : firstNonOffKey e ≠ none := by
      intro hc
      rw [firstNonOffKey_eq_none_iff] at hc
      exact hk (by rw [← hqk]; exact hc q hqmem)
    rcases hx : firstNonOffKey e with _ | k0
    · exact absurd hx hne
    · rfl
  · rw [if_neg hany]
    exact firstNonOffKey_append_single e k v hk

theorem DictR_dictSet {e : Dict} {k : Bytes} (v : PdfObj) (hW : fillWKey k = true)
    (hno : firstNonOffKey e ≠ none) : DictR e (dictSet e k v) := by
  constructor
  · intro k2 hk2
    have hne : k2 ≠ k := by
      intro hc
      rw [hc, hW] at hk2
      cases hk2
    exact dictGet_dictSet_ne e v hne
  · rw [firstNonOffKey_dictSet e k v (fillWKey_ne_off hW)]
    rcases hx : firstNonOffKey e with _ | k0
    · exact absurd hx hno
    · rfl

theorem DocR_write_dict {d : Doc} {id : ObjectId} {e e2 : Dict}
    (hl : docLookup d id = some (.dict e)) (hD : DictR e e2) :
    DocR d (docSetObj d id (.dict e2)) := by
  refine ⟨trailer_docSetObj d id _, ?_⟩
  intro id2
  by_cases hid : id2 = id
  · subst hid
    rw [docLookup_docSetObj_self, hl]
    simp only [Option.map_some']
    exact Or.inl ⟨.dict e, .dict e2, rfl, rfl, Or.inl ⟨e, e2, rfl, rfl, hD⟩⟩
  · rw [docLookup_docSetObj_ne d _ hid]
    exact OptR_refl _

theorem DocR_write {d : Doc} {id : ObjectId} {e : Dict} {k : Bytes} {v : PdfObj}
    (hl : docLookup d id = some (.dict e)) (hW : fillWKey k = true)
    (hno : firstNonOffKey e ≠ none) :
    DocR d (docSetObj d id (.dict (dictSet e k v))) :=
  DocR_write_dict hl (DictR_dictSet v hW hno)


theorem inv_lookup_none {d d2 : Doc} (hR : DocR d d2) {id : ObjectId}
    (hl : docLookup d id = none) : docLookup d2 id = none := by
  have h := hR.2 id
  rw [hl] at h
  exact OptR_none h

theorem inv_lookup_dict {d d2 : Doc} (hR : DocR d d2) {id : ObjectId} {e : Dict}
    (hl : docLookup d id = some (.dict e)) :
    ∃ e2, docLookup d2 id = some (.dict e2) ∧ DictR e e2 := by
  have h := hR.2 id
  rw [hl] at h
  obtain ⟨o2, ho2, ho⟩ := OptR_some_inv h
  obtain ⟨e2, rfl, hd⟩ := ObjR_dict_inv ho
  exact ⟨e2, ho2, hd⟩

theorem inv_lookup_dict_back {d d2 : Doc} (hR : DocR d d2) {id : ObjectId}
    {e2 : Dict} (hl : docLookup d2 id = some (.dict e2)) :
    ∃ e, docLookup d id = some (.dict e) ∧ DictR e e2 := by
  have h := hR.2 id
  rcases hx : docLookup d id with _ | o
  · rw [hx] at h
    rw [OptR_none h] at hl
    cases hl
  · rw [hx] at h
    obtain ⟨o2, ho2, ho⟩ := OptR_some_inv h
    rw [ho2] at hl
    injection hl with hl2
    subst hl2
    obtain ⟨e, rfl, hd⟩ := ObjR_dict_inv_back ho
    exact ⟨e, rfl, hd⟩

theorem inv_lookup_nondict {d d2 : Doc} (hR : DocR d d2) {id : ObjectId}
    {o : PdfObj} (hl : docLookup d id = some o) (hn : ∀ e, o ≠ .dict e) :
    docLookup d2 id = some o := by
  have h := hR.2 id
  rw [hl] at h
  obtain ⟨o2, ho2, ho⟩ := OptR_some_inv h
  rw [ObjR_nondict ho hn] at ho2
  exact ho2

theorem inv_resolve {d d2 : Doc} (hR : DocR d d2) (x : PdfObj) :
    OptR (resolve_object d x) (resolve_object d2 x) := by
  cases x <;> first | exact hR.2 _ | exact OptR_refl _

theorem object_to_text_objR {o o2 : PdfObj} (h : ObjR o o2) :
    object_to_text o2 = object_to_text o := by
  rcases h with ⟨e, e2, rfl, rfl, _⟩ | rfl <;> rfl

theorem object_to_name_objR {o o2 : PdfObj} (h : ObjR o o2) :
    object_to_name o2 = object_to_name o := by
  rcases h with ⟨e, e2, rfl, rfl, _⟩ | rfl <;> rfl

theorem bindAsDict_none {d d2 : Doc} (hR : DocR d d2) {id : ObjectId}
    (h : (docLookup d id).bind asDict = none) :
    (docLookup d2 id).bind asDict = none := by
  rcases hx : docLookup d id with _ | o
  · rw [inv_lookup_none hR hx]
    rfl
  · rw [hx] at h
    cases o with
    | dict e => cases h
    | null => rw [inv_lookup_nondict hR hx (by intro e hc; cases hc)]; rfl
    | boolean b => rw [inv_lookup_nondict hR hx (by intro e hc; cases hc)]; rfl
    | integer i => rw [inv_lookup_nondict hR hx (by intro e hc; cases hc)]; rfl
    | real r => rw [inv_lookup_nondict hR hx (by intro e hc; cases hc)]; rfl
    | name bs => rw [inv_lookup_nondict hR hx (by intro e hc; cases hc)]; rfl
    | str bs fmt => rw [inv_lookup_nondict hR hx (by intro e hc; cases hc)]; rfl
    | array items => rw [inv_lookup_nondict hR hx (by intro e hc; cases hc)]; rfl
    | stream => rw [inv_lookup_nondict hR hx (by intro e hc; cases hc)]; rfl
    | reference rid => rw [inv_lookup_nondict hR hx (by intro e hc; cases hc)]; rfl

theorem bindAsDict_some {d d2 : Doc} (hR : DocR d d2) {id : ObjectId} {e : Dict}
    (h : (docLookup d id).bind asDict = some e) :
    docLookup d id = some (.dict e) ∧
      ∃ e2, (docLookup d2 id).bind asDict = some e2 ∧
        docLookup d2 id = some (.dict e2) ∧ DictR e e2 := by
  rcases hx : docLookup d id with _ | o
  · rw [hx] at h
    cases h
  · rw [hx] at h
    cases o with
    | dict e0 =>
      simp only [Option.some_bind, asDict] at h
      injection h with h2
      subst h2
      obtain ⟨e2, hl2, hD⟩ := inv_lookup_dict hR hx
      refine ⟨rfl, e2, ?_, hl2, hD⟩
      rw [hl2]
      rfl
    | null => simp only [Option.some_bind, asDict] at h; cases h
    | boolean b => simp only [Option.some_bind, asDict] at h; cases h
    | integer i => simp only [Option.some_bind, asDict] at h; cases h
    | real r => simp only [Option.some_bind, asDict] at h; cases h
    | name bs => simp only [Option.some_bind, asDict] at h; cases h
    | str bs fmt => simp only [Option.some_bind, asDict] at h; cases h
    | array items => simp only [Option.some_bind, asDict] at h; cases h
    | stream => simp only [Option.some_bind, asDict] at h; cases h
    | reference rid => simp only [Option.some_bind, asDict] at h; cases h

theorem inv_dict_text {d d2 : Doc} (hR : DocR d d2) {e e2 : Dict} (hD : DictR e e2)
    {key : Bytes} (hk : fillWKey key = false) :
    dict_text d2 e2 key = dict_text d e key := by
  unfold dict_text
  rw [hD.1 key hk]
  rcases hx : dictGet e key with _ | obj
  · rfl
  · dsimp only
    have hres := inv_resolve hR obj
    rcases hy : resolve_object d obj with _ | r
    · rw [hy] at hres
      rw [OptR_none hres]
    · rw [hy] at hres
      obtain ⟨r2, hr2, hor⟩ := OptR_some_inv hres
      rw [hr2]
      dsimp only
      exact object_to_text_objR hor

theorem inv_field_parent_id {d d2 : Doc} (hR : DocR d d2) (id : ObjectId) :
    field_parent_id d2 id = field_parent_id d id := by
  unfold field_parent_id
  rcases hax : (docLookup d id).bind asDict with _ | e
  · rw [bindAsDict_none hR hax]
  · obtain ⟨_, e2, hb, _, hD⟩ := bindAsDict_some hR hax
    rw [hb]
    dsimp only
    rw [hD.1 bParent (by decide)]

theorem inv_field_partial_name {d d2 : Doc} (hR : DocR d d2) (id : ObjectId) :
    field_partial_name d2 id = field_partial_name d id := by
  unfold field_partial_name
  rcases hax : (docLookup d id).bind asDict with _ | e
  · rw [bindAsDict_none hR hax]
  · obtain ⟨_, e2, hb, _, hD⟩ := bindAsDict_some hR hax
    rw [hb]
    dsimp only
    exact inv_dict_text hR hD (by decide)

theorem inv_is_widget_dict {e e2 : Dict} (hD : DictR e e2) :
    is_widget_dict e2 = is_widget_dict e := by
  unfold is_widget_dict
  rw [hD.1 bSubtype (by decide)]

theorem inv_is_widget_object {d d2 : Doc} (hR : DocR d d2) (id : ObjectId) :
    is_widget_object d2 id = is_widget_object d id := by
  unfold is_widget_object
  rcases hx : docLookup d id with _ | o
  · rw [inv_lookup_none hR hx]
  · cases o with
    | dict e =>
      obtain ⟨e2, hl2, hD⟩ := inv_lookup_dict hR hx
      rw [hl2]
      dsimp only
      exact inv_is_widget_dict hD
    | null => rw [inv_lookup_nondict hR hx (by intro e hc; cases hc)]
    | boolean b => rw [inv_lookup_nondict hR hx (by intro e hc; cases hc)]
    | integer i => rw [inv_lookup_nondict hR hx (by intro e hc; cases hc)]
    | real r => rw [inv_lookup_nondict hR hx (by intro e hc; cases hc)]
    | name bs => rw [inv_lookup_nondict hR hx (by intro e hc; cases hc)]
    | str bs fmt => rw [inv_lookup_nondict hR hx (by intro e hc; cases hc)]
    | array items => rw [inv_lookup_nondict hR hx (by intro e hc; cases hc)]
    | stream => rw [inv_lookup_nondict hR hx (by intro e hc; cases hc)]
    | reference rid => rw [inv_lookup_nondict hR hx (by intro e hc; cases hc)]


theorem inv_field_full_name_fuel {d d2 : Doc} (hR : DocR d d2) :
    ∀ (n depth : Nat), 49 - depth ≤ n → ∀ id,
      field_full_name d2 id depth = field_full_name d id depth := by
  intro n
  induction n with
  | zero =>
    intro depth h id
    have hd : depth > 48 := by omega
    conv_lhs => rw [field_full_name]
    conv_rhs => rw [field_full_name]
    rw [dif_pos hd, dif_pos hd]
  | succ m ih =>
    intro depth h id
    by_cases hd : depth > 48
    · conv_lhs => rw [field_full_name]
      conv_rhs => rw [field_full_name]
      rw [dif_pos hd, dif_pos hd]
    · conv_lhs => rw [field_full_name]
      conv_rhs => rw [field_full_name]
      rw [dif_neg hd, dif_neg hd]
      rw [inv_field_parent_id hR id, inv_field_partial_name hR id]
      have hrec : 49 - (depth + 1) ≤ m := by omega
      cases hp : field_parent_id d id with
      | none => cases hn : field_partial_name d id <;> rfl
      | some pid =>
        cases hn : field_partial_name d id with
        | none =>
          dsimp only
          exact ih (depth + 1) hrec pid
        | some nm =>
          dsimp only
          rw [ih (depth + 1) hrec pid]

theorem inv_field_full_name {d d2 : Doc} (hR : DocR d d2) (id : ObjectId)
    (depth : Nat) : field_full_name d2 id depth = field_full_name d id depth :=
  inv_field_full_name_fuel hR (49 - depth) depth (Nat.le_refl _) id

theorem inv_field_type_fuel {d d2 : Doc} (hR : DocR d d2) :
    ∀ (n depth : Nat), 49 - depth ≤ n → ∀ id,
      field_type d2 id depth = field_type d id depth := by
  intro n
  induction n with
  | zero =>
    intro depth h id
    have hd : depth > 48 := by omega
    conv_lhs => rw [field_type]
    conv_rhs => rw [field_type]
    rw [dif_pos hd, dif_pos hd]
  | succ m ih =>
    intro depth h id
    by_cases hd : depth > 48
    · conv_lhs => rw [field_type]
      conv_rhs => rw [field_type]
      rw [dif_pos hd, dif_pos hd]
    · conv_lhs => rw [field_type]
      conv_rhs => rw [field_type]
      rw [dif_neg hd, dif_neg hd]
      have hrec : 49 - (depth + 1) ≤ m := by omega
      rcases hax : (docLookup d id).bind asDict with _ | e
      · rw [bindAsDict_none hR hax]
      · obtain ⟨_, e2, hb, _, hD⟩ := bindAsDict_some hR hax
        rw [hb]
        dsimp only
        rw [hD.1 bFT (by decide)]
        have hown :
            (match dictGet e bFT with
              | none => none
              | some ftObj =>
                match (match resolve_object d2 ftObj with
                       | some resolved => object_to_name resolved
                       | none => none) with
                | some nm => some nm
                | none => object_to_name ftObj) =
            (match dictGet e bFT with
              | none => none
              | some ftObj =>
                match (match resolve_object d ftObj with
                       | some resolved => object_to_name resolved
                       | none => none) with
                | some nm => some nm
                | none => object_to_name ftObj : Option Text) := by
          rcases hft : dictGet e bFT with _ | ftObj
          · rfl
          · dsimp only
            have hres := inv_resolve hR ftObj
            rcases hy : resolve_object d ftObj with _ | r
            · rw [hy] at hres
              rw [OptR_none hres]
            · rw [hy] at hres
              obtain ⟨r2, hr2, hor⟩ := OptR_some_inv hres
              rw [hr2]
              dsimp only
              rw [object_to_name_objR hor]
        rw [hown]
        simp only [inv_field_parent_id hR id, ih (depth + 1) hrec]

theorem inv_field_type {d d2 : Doc} (hR : DocR d d2) (id : ObjectId)
    (depth : Nat) : field_type d2 id depth = field_type d id depth :=
  inv_field_type_fuel hR (49 - depth) depth (Nat.le_refl _) id


theorem wcollect_ref_mem {d : Doc} {id : ObjectId} {out : List ObjectId}
    {seen : Finset ObjectId} (hmem : id ∈ seen) :
    (collect_widget_ids_for_field d (.reference id) out seen).val = (out, seen) := by
  rw [collect_widget_ids_for_field, dif_pos hmem]

theorem wcollect_ref_kids {d : Doc} {id : ObjectId} {out : List ObjectId}
    {seen : Finset ObjectId} {entries : Dict} {kids : PdfObj} (hmem : id ∉ seen)
    (hl : docLookup d id = some (.dict entries))
    (hk : dictGet entries bKids = some kids) :
    (collect_widget_ids_for_field d (.reference id) out seen).val =
      (collect_widget_ids_for_field d kids
        (if is_widget_object d id then out ++ [id] else out) (insert id seen)).val := by
  rw [collect_widget_ids_for_field, dif_neg hmem]
  dsimp only
  split
  next e2 heq =>
    rw [hl] at heq
    injection heq with h
    injection h with h2
    subst h2
    split
    next k2 heq2 =>
      rw [hk] at heq2
      injection heq2 with h3
      subst h3
      rfl
    next heq2 => rw [hk] at heq2; cases heq2
  next heq => exact absurd hl (heq entries)

theorem wcollect_ref_nokids {d : Doc} {id : ObjectId} {out : List ObjectId}
    {seen : Finset ObjectId} {entries : Dict} (hmem : id ∉ seen)
    (hl : docLookup d id = some (.dict entries))
    (hk : dictGet entries bKids = none) :
    (collect_widget_ids_for_field d (.reference id) out seen).val =
      (if is_widget_object d id then out ++ [id] else out, insert id seen) := by
  rw [collect_widget_ids_for_field, dif_neg hmem]
  dsimp only
  split
  next e2 heq =>
    rw [hl] at heq
    injection heq with h
    injection h with h2
    subst h2
    split
    next k2 heq2 => rw [hk] at heq2; cases heq2
    next heq2 => rfl
  next heq => exact absurd hl (heq entries)

theorem wcollect_ref_nodict {d : Doc} {id : ObjectId} {out : List ObjectId}
    {seen : Finset ObjectId} (hmem : id ∉ seen)
    (hnd : ∀ entries : Dict, docLookup d id ≠ some (.dict entries)) :
    (collect_widget_ids_for_field d (.reference id) out seen).val =
      (if is_widget_object d id then out ++ [id] else out, insert id seen) := by
  rw [collect_widget_ids_for_field, dif_neg hmem]
  dsimp only
  split
  next e2 heq => exact absurd heq (hnd e2)
  next heq => rfl

theorem wcollect_array_eq {d : Doc} {items : List PdfObj} {out : List ObjectId}
    {seen : Finset ObjectId} :
    collect_widget_ids_for_field d (.array items) out seen =
      collect_widget_ids_for_field_list d items out seen := by
  rw [collect_widget_ids_for_field]

theorem wcollect_dict_kids {d : Doc} {entries : Dict} {kids : PdfObj}
    {out : List ObjectId} {seen : Finset ObjectId}
    (hk : dictGet entries bKids = some kids) :
    (collect_widget_ids_for_field d (.dict entries) out seen).val =
      (collect_widget_ids_for_field d kids out seen).val := by
  rw [collect_widget_ids_for_field]
  split
  next k2 heq2 =>
    rw [hk] at heq2
    injection heq2 with h3
    subst h3
    rfl
  next heq2 => rw [hk] at heq2; cases heq2

theorem wcollect_dict_nokids {d : Doc} {entries : Dict}
    {out : List ObjectId} {seen : Finset ObjectId}
    (hk : dictGet entries bKids = none) :
    (collect_widget_ids_for_field d (.dict entries) out seen).val = (out, seen) := by
  rw [collect_widget_ids_for_field]
  split
  next k2 heq2 => rw [hk] at heq2; cases heq2
  next heq2 => rfl

theorem wcollect_list_nil {d : Doc} {out : List ObjectId} {seen : Finset ObjectId} :
    (collect_widget_ids_for_field_list d [] out seen).val = (out, seen) := by
  rw [collect_widget_ids_for_field_list]

theorem wcollect_list_cons {d : Doc} {x : PdfObj} {xs : List PdfObj}
    {out : List ObjectId} {seen : Finset ObjectId} :
    (collect_widget_ids_for_field_list d (x :: xs) out seen).val =
      (collect_widget_ids_for_field_list d xs
        (collect_widget_ids_for_field d x out seen).val.1
        (collect_widget_ids_for_field d x out seen).val.2).val := by
  rw [collect_widget_ids_for_field_list]


theorem collect_other {d : Doc} {src : PdfObj} (h1 : ∀ id, src ≠ .reference id)
    (h2 : ∀ items, src ≠ .array items) (h3 : ∀ entries, src ≠ .dict entries)
    {out : List ObjectId} {seen : Finset ObjectId} :
    (collect_field_ids d src out seen).val = (out, seen) := by
  cases src with
  | reference id => exact absurd rfl (h1 id)
  | array items => exact absurd rfl (h2 items)
  | dict entries => exact absurd rfl (h3 entries)
  | null => rw [collect_field_ids] <;> rintro _ ⟨⟩
  | boolean b => rw [collect_field_ids] <;> rintro _ ⟨⟩
  | integer i => rw [collect_field_ids] <;> rintro _ ⟨⟩
  | real r => rw [collect_field_ids] <;> rintro _ ⟨⟩
  | name bs => rw [collect_field_ids] <;> rintro _ ⟨⟩
  | str bs fmt => rw [collect_field_ids] <;> rintro _ ⟨⟩
  | stream => rw [collect_field_ids] <;> rintro _ ⟨⟩

theorem wcollect_other {d : Doc} {src : PdfObj} (h1 : ∀ id, src ≠ .reference id)
    (h2 : ∀ items, src ≠ .array items) (h3 : ∀ entries, src ≠ .dict entries)
    {out : List ObjectId} {seen : Finset ObjectId} :
    (collect_widget_ids_for_field d src out seen).val = (out, seen) := by
  cases src with
  | reference id => exact absurd rfl (h1 id)
  | array items => exact absurd rfl (h2 items)
  | dict entries => exact absurd rfl (h3 entries)
  | null => rw [collect_widget_ids_for_field] <;> rintro _ ⟨⟩
  | boolean b => rw [collect_widget_ids_for_field] <;> rintro _ ⟨⟩
  | integer i => rw [collect_widget_ids_for_field] <;> rintro _ ⟨⟩
  | real r => rw [collect_widget_ids_for_field] <;> rintro _ ⟨⟩
  | name bs => rw [collect_widget_ids_for_field] <;> rintro _ ⟨⟩
  | str bs fmt => rw [collect_widget_ids_for_field] <;> rintro _ ⟨⟩
  | stream => rw [collect_widget_ids_for_field] <;> rintro _ ⟨⟩

theorem inv_collect_field_ids {d d2 : Doc} (hR : DocR d d2) :
    ∀ (src : PdfObj) (out : List ObjectId) (seen : Finset ObjectId),
      (collect_field_ids d2 src out seen).val =
        (collect_field_ids d src out seen).val := by
  refine collect_field_ids.induct d
    (fun src out seen =>
      (collect_field_ids d2 src out seen).val =
        (collect_field_ids d src out seen).val)
    (fun items out seen =>
      (collect_field_ids_list d2 items out seen).val =
        (collect_field_ids_list d items out seen).val)
    ?_ ?_ ?_ ?_ ?_ ?_ ?_ ?_ ?_ ?_
  case _ =>
    intro id out seen hmem
    rw [collect_ref_mem hmem, collect_ref_mem hmem]
  case _ =>
    intro id out seen hmem entries hl kids hk ih
    obtain ⟨e2, hl2, hD⟩ := inv_lookup_dict hR hl
    have hk2 : dictGet e2 bKids = some kids := by
      rw [hD.1 bKids (by decide)]
      exact hk
    rw [collect_ref_kids hmem hl2 hk2, collect_ref_kids hmem hl hk]
    exact ih
  case _ =>
    intro id out seen hmem entries hl hk
    obtain ⟨e2, hl2, hD⟩ := inv_lookup_dict hR hl
    have hk2 : dictGet e2 bKids = none := by
      rw [hD.1 bKids (by decide)]
      exact hk
    rw [collect_ref_nokids hmem hl2 hk2, collect_ref_nokids hmem hl hk]
  case _ =>
    intro id out seen hmem hnd
    have hnd2 : ∀ entries : Dict, docLookup d2 id ≠ some (.dict entries) := by
      intro e2 hc
      obtain ⟨e, he, _⟩ := inv_lookup_dict_back hR hc
      exact hnd e he
    rw [collect_ref_nodict hmem hnd2, collect_ref_nodict hmem hnd]
  case _ =>
    intro items out seen ih
    rw [show collect_field_ids d2 (.array items) out seen =
        collect_field_ids_list d2 items out seen from collect_array_eq,
      show collect_field_ids d (.array items) out seen =
        collect_field_ids_list d items out seen from collect_array_eq]
    exact ih
  case _ =>
    intro entries out seen kids hk ih
    rw [collect_dict_kids hk, collect_dict_kids hk]
    exact ih
  case _ =>
    intro entries out seen hk
    rw [collect_dict_nokids hk, collect_dict_nokids hk]
  case _ =>
    intro src out seen h1 h2 h3
    rw [collect_other h1 h2 h3, collect_other h1 h2 h3]
  case _ =>
    intro out seen
    rw [collect_list_nil, collect_list_nil]
  case _ =>
    intro x xs out seen r ih1 ihr ih2
    rw [collect_list_cons, collect_list_cons, ih1]
    exact ih2

theorem inv_collect_widget_ids {d d2 : Doc} (hR : DocR d d2) :
    ∀ (src : PdfObj) (out : List ObjectId) (seen : Finset ObjectId),
      (collect_widget_ids_for_field d2 src out seen).val =
        (collect_widget_ids_for_field d src out seen).val := by
  refine collect_widget_ids_for_field.induct d
    (fun src out seen =>
      (collect_widget_ids_for_field d2 src out seen).val =
        (collect_widget_ids_for_field d src out seen).val)
    (fun items out seen =>
      (collect_widget_ids_for_field_list d2 items out seen).val =
        (collect_widget_ids_for_field_list d items out seen).val)
    ?_ ?_ ?_ ?_ ?_ ?_ ?_ ?_ ?_ ?_
  case _ =>
    intro id out seen hmem
    rw [wcollect_ref_mem hmem, wcollect_ref_mem hmem]
  case _ =>
    intro id out seen hmem o2 entries hl kids hk ih ih2
    try dsimp only at ih2 ⊢
    obtain ⟨e2, hl2, hD⟩ := inv_lookup_dict hR hl
    have hk2 : dictGet e2 bKids = some kids := by
      rw [hD.1 bKids (by decide)]
      exact hk
    rw [wcollect_ref_kids hmem hl2 hk2, wcollect_ref_kids hmem hl hk,
      inv_is_widget_object hR id]
    exact ih2
  case _ =>
    intro id out seen hmem entries hl hk
    obtain ⟨e2, hl2, hD⟩ := inv_lookup_dict hR hl
    have hk2 : dictGet e2 bKids = none := by
      rw [hD.1 bKids (by decide)]
      exact hk
    rw [wcollect_ref_nokids hmem hl2 hk2, wcollect_ref_nokids hmem hl hk,
      inv_is_widget_object hR id]
  case _ =>
    intro id out seen hmem hnd
    have hnd2 : ∀ entries : Dict, docLookup d2 id ≠ some (.dict entries) := by
      intro e2 hc
      obtain ⟨e, he, _⟩ := inv_lookup_dict_back hR hc
      exact hnd e he
    rw [wcollect_ref_nodict hmem hnd2, wcollect_ref_nodict hmem hnd,
      inv_is_widget_object hR id]
  case _ =>
    intro items out seen ih
    rw [show collect_widget_ids_for_field d2 (.array items) out seen =
        collect_widget_ids_for_field_list d2 items out seen from wcollect_array_eq,
      show collect_widget_ids_for_field d (.array items) out seen =
        collect_widget_ids_for_field_list d items out seen from wcollect_array_eq]
    exact ih
  case _ =>
    intro entries out seen kids hk ih
    rw [wcollect_dict_kids hk, wcollect_dict_kids hk]
    exact ih
  case _ =>
    intro entries out seen hk
    rw [wcollect_dict_nokids hk, wcollect_dict_nokids hk]
  case _ =>
    intro src out seen h1 h2 h3
    rw [wcollect_other h1 h2 h3, wcollect_other h1 h2 h3]
  case _ =>
    intro out seen
    rw [wcollect_list_nil, wcollect_list_nil]
  case _ =>
    intro x xs out seen r ih1 ihr ih2
    rw [wcollect_list_cons, wcollect_list_cons, ih1]
    exact ih2


theorem option_some_bind {α β : Type} (a : α) (f : α → Option β) :
    (some a >>= f : Option β) = f a := rfl

theorem asDict_some : ∀ {o : PdfObj} {e : Dict}, asDict o = some e → o = .dict e := by
  intro o e h
  cases o <;> first
    | (injection h with h2; rw [h2])
    | cases h

theorem inv_describe_field {d d2 : Doc} (hR : DocR d d2) (f : ObjectId) :
    describe_field d2 f = describe_field d f := by
  unfold describe_field
  simp only [inv_field_partial_name hR, inv_field_full_name hR,
    inv_field_type hR, inv_is_widget_object hR, inv_collect_widget_ids hR]
  rcases hx : docLookup d f with _ | o
  · rw [inv_lookup_none hR hx]
  · cases o with
    | dict e =>
      obtain ⟨e2, hl2, hD⟩ := inv_lookup_dict hR hx
      rw [hl2]
      dsimp only
      rw [hD.1 bKids (by decide)]
      rcases hk : dictGet e bKids with _ | kids
      · rfl
      · rw [inv_is_widget_object hR f]
    | null => rw [inv_lookup_nondict hR hx (by intro e hc; cases hc)]
    | boolean b => rw [inv_lookup_nondict hR hx (by intro e hc; cases hc)]
    | integer i => rw [inv_lookup_nondict hR hx (by intro e hc; cases hc)]
    | real r => rw [inv_lookup_nondict hR hx (by intro e hc; cases hc)]
    | name bs => rw [inv_lookup_nondict hR hx (by intro e hc; cases hc)]
    | str bs fmt => rw [inv_lookup_nondict hR hx (by intro e hc; cases hc)]
    | array items => rw [inv_lookup_nondict hR hx (by intro e hc; cases hc)]
    | stream => rw [inv_lookup_nondict hR hx (by intro e hc; cases hc)]
    | reference rid => rw [inv_lookup_nondict hR hx (by intro e hc; cases hc)]

theorem inv_widget_on_state {d d2 : Doc} (hR : DocR d d2) (w : ObjectId) :
    widget_on_state d2 w = widget_on_state d w := by
  unfold widget_on_state
  rcases hax : (docLookup d w).bind asDict with _ | widget
  · rw [bindAsDict_none hR hax]
    rfl
  · obtain ⟨_, e2, hb, _, hD⟩ := bindAsDict_some hR hax
    rw [hb]
    rw [option_some_bind, option_some_bind]
    try dsimp only
    rw [hD.1 bAP (by decide)]
    rcases hap : dictGet widget bAP with _ | ap
    · rfl
    · rw [option_some_bind, option_some_bind]
      try dsimp only
      have hres := inv_resolve hR ap
      rcases hy : resolve_object d ap with _ | r
      · rw [hy] at hres
        rw [OptR_none hres]
        try rfl
      · rw [hy] at hres
        obtain ⟨r2, hr2, hor⟩ := OptR_some_inv hres
        rw [hr2]
        rw [option_some_bind, option_some_bind]
        try dsimp only
        rcases hor2 : asDict r with _ | apd
        · have hr2r : r2 = r := ObjR_nondict hor (by
            intro e hc
            subst hc
            cases hor2)
          rw [hr2r, hor2]
          try rfl
        · obtain rfl := asDict_some hor2
          obtain ⟨e2b, hr2b, hDb⟩ := ObjR_dict_inv hor
          rw [hr2b]
          rw [show asDict (.dict e2b) = some e2b from rfl]
          rw [option_some_bind, option_some_bind]
          try dsimp only
          rw [hDb.1 bN (by decide)]
          rcases hnn : dictGet apd bN with _ | normal
          · rfl
          · rw [option_some_bind, option_some_bind]
            try dsimp only
            have hres2 := inv_resolve hR normal
            rcases hz : resolve_object d normal with _ | rn
            · rw [hz] at hres2
              rw [OptR_none hres2]
              try rfl
            · rw [hz] at hres2
              obtain ⟨rn2, hrn2, horn⟩ := OptR_some_inv hres2
              rw [hrn2]
              rw [option_some_bind, option_some_bind]
              try dsimp only
              rcases hnd : asDict rn with _ | nd
              · have hrnr : rn2 = rn := ObjR_nondict horn (by
                  intro e hc
                  subst hc
                  cases hnd)
                rw [hrnr, hnd]
                try rfl
              · obtain rfl := asDict_some hnd
                obtain ⟨nd2, hnd2, hDn⟩ := ObjR_dict_inv horn
                rw [hnd2]
                rw [show asDict (.dict nd2) = some nd2 from rfl]
                rw [option_some_bind, option_some_bind]
                try dsimp only
                exact hDn.2

theorem inv_widget_states {d d2 : Doc} (hR : DocR d d2) (desc : FieldDescriptor) :
    widget_states d2 desc = widget_states d desc := by
  unfold widget_states
  simp only [inv_widget_on_state hR]

/-- The object at `id`, when a dictionary, has a key other than `"Off"` — the
condition under which fill writes preserve `widget_on_state` everywhere. -/
def nonOffAt (d : Doc) (id : ObjectId) : Prop :=
  ∀ e, docLookup d id = some (.dict e) → firstNonOffKey e ≠ none

theorem inv_nonOffAt {d d2 : Doc} (hR : DocR d d2) {id : ObjectId}
    (h : nonOffAt d id) : nonOffAt d2 id := by
  intro e2 hl2
  obtain ⟨e, hl, hD⟩ := inv_lookup_dict_back hR hl2
  rw [hD.2]
  exact h e hl

theorem nonOffAt_of_isWidget {d : Doc} {id : ObjectId}
    (h : is_widget_object d id = true) : nonOffAt d id := by
  intro e hl
  unfold is_widget_object at h
  rw [hl] at h
  dsimp only at h
  unfold is_widget_dict at h
  rcases hs : dictGet e bSubtype with _ | o
  · rw [hs] at h
    cases h
  · exact firstNonOffKey_ne_none_of_get hs (by decide)

theorem nonOff_of_partial {d : Doc} {f : ObjectId}
    (h : field_partial_name d f ≠ none) : nonOffAt d f := by
  intro e hl
  unfold field_partial_name at h
  have hbind : (docLookup d f).bind asDict = some e := by rw [hl]; rfl
  rw [hbind] at h
  dsimp only at h
  unfold dict_text at h
  rcases ht : dictGet e bT with _ | obj
  · rw [ht] at h
    exact absurd rfl h
  · exact firstNonOffKey_ne_none_of_get ht (by decide)

theorem nonOff_of_parent {d : Doc} {f : ObjectId} {pid : ObjectId}
    (h : field_parent_id d f = some pid) : nonOffAt d f := by
  intro e hl
  unfold field_parent_id at h
  have hbind : (docLookup d f).bind asDict = some e := by rw [hl]; rfl
  rw [hbind] at h
  dsimp only at h
  rcases ht : dictGet e bParent with _ | po
  · rw [ht] at h
    cases h
  · exact firstNonOffKey_ne_none_of_get ht (by decide)

theorem nonOff_of_full {d : Doc} {f : ObjectId} (h : field_full_name d f 0 ≠ none) :
    nonOffAt d f := by
  rw [field_full_name] at h
  rw [dif_neg (by omega : ¬ (0 : Nat) > 48)] at h
  rcases hp : field_parent_id d f with _ | pid
  · rcases hn : field_partial_name d f with _ | nm
    · rw [hp, hn] at h
      exact absurd rfl h
    · exact nonOff_of_partial (by rw [hn]; simp)
  · exact nonOff_of_parent hp

theorem wcollect_mem {d : Doc} :
    ∀ (src : PdfObj) (out : List ObjectId) (seen : Finset ObjectId),
      ∀ w ∈ (collect_widget_ids_for_field d src out seen).val.1,
        w ∈ out ∨ is_widget_object d w = true := by
  refine collect_widget_ids_for_field.induct d
    (fun src out seen =>
      ∀ w ∈ (collect_widget_ids_for_field d src out seen).val.1,
        w ∈ out ∨ is_widget_object d w = true)
    (fun items out seen =>
      ∀ w ∈ (collect_widget_ids_for_field_list d items out seen).val.1,
        w ∈ out ∨ is_widget_object d w = true)
    ?_ ?_ ?_ ?_ ?_ ?_ ?_ ?_ ?_ ?_
  case _ =>
    intro id out seen hmem
    rw [wcollect_ref_mem hmem]
    exact fun w hw => Or.inl hw
  case _ =>
    intro id out seen hmem o2 entries hl kids hk ih ih2
    try dsimp only at ih2 ⊢
    rw [wcollect_ref_kids hmem hl hk]
    intro w hw
    rcases ih2 w hw with hin | hwid
    · by_cases hwi : is_widget_object d id = true
      · rw [dif_pos hwi] at hin
        rcases List.mem_append.mp hin with h1 | h1
        · exact Or.inl h1
        · simp only [List.mem_singleton] at h1
          subst h1
          exact Or.inr hwi
      · rw [dif_neg hwi] at hin
        exact Or.inl hin
    · exact Or.inr hwid
  case _ =>
    intro id out seen hmem entries hl hk
    rw [wcollect_ref_nokids hmem hl hk]
    intro w hw
    by_cases hwi : is_widget_object d id = true
    · rw [if_pos hwi] at hw
      rcases List.mem_append.mp hw with h1 | h1
      · exact Or.inl h1
      · simp only [List.mem_singleton] at h1
        subst h1
        exact Or.inr hwi
    · rw [if_neg hwi] at hw
      exact Or.inl hw
  case _ =>
    intro id out seen hmem hnd
    rw [wcollect_ref_nodict hmem hnd]
    intro w hw
    by_cases hwi : is_widget_object d id = true
    · rw [if_pos hwi] at hw
      rcases List.mem_append.mp hw with h1 | h1
      · exact Or.inl h1
      · simp only [List.mem_singleton] at h1
        subst h1
        exact Or.inr hwi
    · rw [if_neg hwi] at hw
      exact Or.inl hw
  case _ =>
    intro items out seen ih
    rw [show collect_widget_ids_for_field d (.array items) out seen =
      collect_widget_ids_for_field_list d items out seen from wcollect_array_eq]
    exact ih
  case _ =>
    intro entries out seen kids hk ih
    rw [wcollect_dict_kids hk]
    exact ih
  case _ =>
    intro entries out seen hk
    rw [wcollect_dict_nokids hk]
    exact fun w hw => Or.inl hw
  case _ =>
    intro src out seen h1 h2 h3
    rw [wcollect_other h1 h2 h3]
    exact fun w hw => Or.inl hw
  case _ =>
    intro out seen
    rw [wcollect_list_nil]
    exact fun w hw => Or.inl hw
  case _ =>
    intro x xs out seen r ih1 ihr ih2
    rw [wcollect_list_cons]
    intro w hw
    rcases ih2 w hw with hmid | hwid
    · exact ih1 w hmid
    · exact Or.inr hwid

theorem describe_widget_ok (d : Doc) (f : ObjectId) :
    ∀ w ∈ (describe_field d f).widget_ids, is_widget_object d w = true := by
  unfold describe_field
  intro w hw
  dsimp only at hw
  have hstart : ∀ w2 ∈ (if is_widget_object d f then ([f], ({f} : Finset ObjectId))
      else ([], ∅)).1, is_widget_object d w2 = true := by
    by_cases hwf : is_widget_object d f = true
    · rw [if_pos hwf]
      intro w2 hw2
      simp only [List.mem_singleton] at hw2
      subst hw2
      exact hwf
    · rw [if_neg hwf]
      intro w2 hw2
      cases hw2
  rcases hx : docLookup d f with _ | o
  · rw [hx] at hw
    exact hstart w hw
  · rw [hx] at hw
    cases o with
    | dict e =>
      dsimp only at hw
      rcases hk : dictGet e bKids with _ | kids
      · rw [hk] at hw
        exact hstart w hw
      · rw [hk] at hw
        rcases wcollect_mem kids _ _ w hw with hin | hwid
        · exact hstart w hin
        · exact hwid
    | null => exact hstart w hw
    | boolean b => exact hstart w hw
    | integer i => exact hstart w hw
    | real r => exact hstart w hw
    | name bs => exact hstart w hw
    | str bs fmt => exact hstart w hw
    | array items => exact hstart w hw
    | stream => exact hstart w hw
    | reference rid => exact hstart w hw


theorem dictValAt_eq_get {d : Doc} {id : ObjectId} {e : Dict}
    (hl : docLookup d id = some (.dict e)) (k : Bytes) :
    dictValAt d id k = dictGet e k := by
  unfold dictValAt
  rw [hl]

theorem dictValAt_docSetObj_dict {d : Doc} {id : ObjectId} {o0 : PdfObj}
    (hl : docLookup d id = some o0) (e2 : Dict) (k : Bytes) :
    dictValAt (docSetObj d id (.dict e2)) id k = dictGet e2 k := by
  unfold dictValAt
  rw [docLookup_docSetObj_self, hl]
  simp only [Option.map_some']

/-- The pointwise relation of the idempotence argument: at every loop-written
slot, either the two runs agree on the final value, or neither run has
touched the slot. -/
def PEq (da da2 db db2 : Doc) : Prop :=
  ∀ id k, fillLKey k = true →
    dictValAt db2 id k = dictValAt da2 id k ∨
    (dictValAt db2 id k = dictValAt db id k ∧ dictValAt da2 id k = dictValAt da id k)

theorem PEq_init (da db : Doc) : PEq da da db db :=
  fun _ _ _ => Or.inr ⟨rfl, rfl⟩

theorem PEq_comp {da da2 da3 db db2 db3 : Doc}
    (h1 : PEq da da2 db db2) (h2 : PEq da2 da3 db2 db3) : PEq da da3 db db3 := by
  intro id k hk
  rcases h2 id k hk with h | ⟨hb, ha⟩
  · exact Or.inl h
  · rcases h1 id k hk with h1e | ⟨hb1, ha1⟩
    · exact Or.inl (by rw [hb, ha, h1e])
    · exact Or.inr ⟨hb.trans hb1, ha.trans ha1⟩

theorem PEq_write {da db : Doc} {id : ObjectId} {ea eb : Dict} {k : Bytes}
    {v : PdfObj} (hla : docLookup da id = some (.dict ea))
    (hlb : docLookup db id = some (.dict eb)) :
    PEq da (docSetObj da id (.dict (dictSet ea k v)))
      db (docSetObj db id (.dict (dictSet eb k v))) := by
  intro id2 k2 _
  by_cases hid : id2 = id
  · subst hid
    rw [dictValAt_docSetObj_dict hla _ k2, dictValAt_docSetObj_dict hlb _ k2]
    by_cases hkk : k2 = k
    · subst hkk
      rw [dictGet_dictSet_self, dictGet_dictSet_self]
      exact Or.inl rfl
    · rw [dictGet_dictSet_ne ea v hkk, dictGet_dictSet_ne eb v hkk]
      exact Or.inr ⟨(dictValAt_eq_get hlb k2).symm, (dictValAt_eq_get hla k2).symm⟩
  · exact Or.inr ⟨dictValAt_write_ne_id hid _ _, dictValAt_write_ne_id hid _ _⟩

theorem PEq_write2 {da db : Doc} {id : ObjectId} {ea eb : Dict} {k1 k2 : Bytes}
    {v : PdfObj} (hne : k2 ≠ k1) (hla : docLookup da id = some (.dict ea))
    (hlb : docLookup db id = some (.dict eb)) :
    PEq da (docSetObj da id (.dict (dictSet (dictSet ea k1 v) k2 v)))
      db (docSetObj db id (.dict (dictSet (dictSet eb k1 v) k2 v))) := by
  intro id2 kq _
  by_cases hid : id2 = id
  · subst hid
    rw [dictValAt_docSetObj_dict hla _ kq, dictValAt_docSetObj_dict hlb _ kq]
    by_cases h2 : kq = k2
    · subst h2
      rw [dictGet_dictSet_self, dictGet_dictSet_self]
      exact Or.inl rfl
    · rw [dictGet_dictSet_ne _ v h2, dictGet_dictSet_ne _ v h2]
      by_cases h1 : kq = k1
      · subst h1
        rw [dictGet_dictSet_self, dictGet_dictSet_self]
        exact Or.inl rfl
      · rw [dictGet_dictSet_ne ea v h1, dictGet_dictSet_ne eb v h1]
        exact Or.inr ⟨(dictValAt_eq_get hlb kq).symm, (dictValAt_eq_get hla kq).symm⟩
  · exact Or.inr ⟨dictValAt_write_ne_id hid _ _, dictValAt_write_ne_id hid _ _⟩

theorem except_map_ok {ε α β : Type} {m : Except ε α} {f : α → β} {b : β} :
    m.map f = .ok b ↔ ∃ a, m = .ok a ∧ f a = b := by
  cases m with
  | error e =>
    constructor
    · intro h; cases h
    · rintro ⟨a, ha, _⟩; cases ha
  | ok a =>
    constructor
    · intro h
      injection h with h2
      exact ⟨a, rfl, h2⟩
    · rintro ⟨a2, ha, hf⟩
      injection ha with ha2
      subst ha2
      rw [show (Except.ok a : Except ε α).map f = .ok (f a) from rfl, hf]

theorem sim_set_widget_as {base da db da2 : Doc} {w : ObjectId} {v : Bytes}
    (hRa : DocR base da) (hRb : DocR base db) (hno : nonOffAt base w)
    (h : set_widget_as da w v = .ok da2) :
    ∃ db2, set_widget_as db w v = .ok db2 ∧ DocR base da2 ∧ DocR base db2 ∧
      PEq da da2 db db2 := by
  obtain ⟨ea, hla, rfl⟩ := docSetDictKey_ok_inv h
  obtain ⟨e0, hl0, hD0⟩ := inv_lookup_dict_back hRa hla
  obtain ⟨eb, hlb, hDb⟩ := inv_lookup_dict hRb hl0
  refine ⟨_, ?_, DocR_trans hRa (DocR_write hla (by decide)
      (inv_nonOffAt hRa hno ea hla)),
    DocR_trans hRb (DocR_write hlb (by decide) (inv_nonOffAt hRb hno eb hlb)),
    PEq_write hla hlb⟩
  exact docSetDictKey_ok hlb bAS (.name v) _ _

theorem set_field_text_ok_inv {d d' : Doc} {desc : FieldDescriptor} {value : Text}
    (h : set_field_text_value d desc value = .ok d') :
    ∃ e, docLookup d desc.id = some (.dict e) ∧
      d' = docSetObj d desc.id
        (.dict (dictSet (dictSet e bV (stringLiteral value)) bDV
          (stringLiteral value))) := by
  unfold set_field_text_value at h
  rcases hl : docLookup d desc.id with _ | o
  · rw [hl] at h
    cases h
  · rw [hl] at h
    cases o <;> simp only [asDict] at h <;> try cases h
    next e =>
      exact ⟨e, rfl, rfl⟩

theorem sim_set_text {base da db da2 : Doc} {desc : FieldDescriptor} {value : Text}
    (hRa : DocR base da) (hRb : DocR base db) (hno : nonOffAt base desc.id)
    (h : set_field_text_value da desc value = .ok da2) :
    ∃ db2, set_field_text_value db desc value = .ok db2 ∧
      DocR base da2 ∧ DocR base db2 ∧ PEq da da2 db db2 := by
  obtain ⟨ea, hla, rfl⟩ := set_field_text_ok_inv h
  obtain ⟨e0, hl0, hD0⟩ := inv_lookup_dict_back hRa hla
  obtain ⟨eb, hlb, hDb⟩ := inv_lookup_dict hRb hl0
  have hnoa : firstNonOffKey ea ≠ none := inv_nonOffAt hRa hno ea hla
  have hnob : firstNonOffKey eb ≠ none := inv_nonOffAt hRb hno eb hlb
  have hsa : DictR ea (dictSet ea bV (stringLiteral value)) :=
    DictR_dictSet _ (by decide) hnoa
  have hsb : DictR eb (dictSet eb bV (stringLiteral value)) :=
    DictR_dictSet _ (by decide) hnob
  have hDa2 : DictR ea (dictSet (dictSet ea bV (stringLiteral value)) bDV
      (stringLiteral value)) := by
    refine DictR_trans hsa (DictR_dictSet _ (by decide) ?_)
    rw [hsa.2]
    exact hnoa
  have hDb2 : DictR eb (dictSet (dictSet eb bV (stringLiteral value)) bDV
      (stringLiteral value)) := by
    refine DictR_trans hsb (DictR_dictSet _ (by decide) ?_)
    rw [hsb.2]
    exact hnob
  refine ⟨_, ?_, DocR_trans hRa (DocR_write_dict hla hDa2),
    DocR_trans hRb (DocR_write_dict hlb hDb2),
    PEq_write2 (by decide) hla hlb⟩
  unfold set_field_text_value
  rw [hlb]
  rfl

theorem sim_radio {base : Doc} {sel : ObjectId} {st : Bytes} :
    ∀ (ids : List ObjectId) (da db da2 : Doc),
      DocR base da → DocR base db → (∀ w ∈ ids, nonOffAt base w) →
      setButtonWidgetsRadio da ids sel st = .ok da2 →
      ∃ db2, setButtonWidgetsRadio db ids sel st = .ok db2 ∧
        DocR base da2 ∧ DocR base db2 ∧ PEq da da2 db db2 := by
  intro ids
  induction ids with
  | nil =>
    intro da db da2 hRa hRb _ h
    injection h with h2
    subst h2
    exact ⟨db, rfl, hRa, hRb, PEq_init da db⟩
  | cons wid rest ih =>
    intro da db da2 hRa hRb hno h
    simp only [setButtonWidgetsRadio] at h
    obtain ⟨dmid, hw, hrest⟩ := except_bind_ok.mp h
    obtain ⟨dbmid, hwb, hRa2, hRb2, hP1⟩ :=
      sim_set_widget_as hRa hRb (hno wid (List.mem_cons_self wid rest)) hw
    obtain ⟨db2, hb2, hRa3, hRb3, hP2⟩ := ih dmid dbmid da2 hRa2 hRb2
      (fun w hwm => hno w (List.mem_cons_of_mem _ hwm)) hrest
    refine ⟨db2, ?_, hRa3, hRb3, PEq_comp hP1 hP2⟩
    simp only [setButtonWidgetsRadio]
    rw [except_bind_ok]
    exact ⟨dbmid, hwb, hb2⟩

theorem sim_off {base : Doc} :
    ∀ (ids : List ObjectId) (da db da2 : Doc),
      DocR base da → DocR base db → (∀ w ∈ ids, nonOffAt base w) →
      setButtonWidgetsOff da ids = .ok da2 →
      ∃ db2, setButtonWidgetsOff db ids = .ok db2 ∧
        DocR base da2 ∧ DocR base db2 ∧ PEq da da2 db db2 := by
  intro ids
  induction ids with
  | nil =>
    intro da db da2 hRa hRb _ h
    injection h with h2
    subst h2
    exact ⟨db, rfl, hRa, hRb, PEq_init da db⟩
  | cons wid rest ih =>
    intro da db da2 hRa hRb hno h
    simp only [setButtonWidgetsOff] at h
    obtain ⟨dmid, hw, hrest⟩ := except_bind_ok.mp h
    obtain ⟨dbmid, hwb, hRa2, hRb2, hP1⟩ :=
      sim_set_widget_as hRa hRb (hno wid (List.mem_cons_self wid rest)) hw
    obtain ⟨db2, hb2, hRa3, hRb3, hP2⟩ := ih dmid dbmid da2 hRa2 hRb2
      (fun w hwm => hno w (List.mem_cons_of_mem _ hwm)) hrest
    refine ⟨db2, ?_, hRa3, hRb3, PEq_comp hP1 hP2⟩
    simp only [setButtonWidgetsOff]
    rw [except_bind_ok]
    exact ⟨dbmid, hwb, hb2⟩

theorem sim_truthy_single {base : Doc} {fv : Bytes} :
    ∀ (ids : List ObjectId) (da db da2 : Doc),
      DocR base da → DocR base db → (∀ w ∈ ids, nonOffAt base w) →
      setButtonWidgetsTruthySingle da ids fv = .ok da2 →
      ∃ db2, setButtonWidgetsTruthySingle db ids fv = .ok db2 ∧
        DocR base da2 ∧ DocR base db2 ∧ PEq da da2 db db2 := by
  intro ids
  induction ids with
  | nil =>
    intro da db da2 hRa hRb _ h
    injection h with h2
    subst h2
    exact ⟨db, rfl, hRa, hRb, PEq_init da db⟩
  | cons wid rest ih =>
    intro da db da2 hRa hRb hno h
    simp only [setButtonWidgetsTruthySingle] at h
    obtain ⟨dmid, hw, hrest⟩ := except_bind_ok.mp h
    obtain ⟨dbmid, hwb, hRa2, hRb2, hP1⟩ :=
      sim_set_widget_as hRa hRb (hno wid (List.mem_cons_self wid rest)) hw
    obtain ⟨db2, hb2, hRa3, hRb3, hP2⟩ := ih dmid dbmid da2 hRa2 hRb2
      (fun w hwm => hno w (List.mem_cons_of_mem _ hwm)) hrest
    refine ⟨db2, ?_, hRa3, hRb3, PEq_comp hP1 hP2⟩
    simp only [setButtonWidgetsTruthySingle]
    rw [except_bind_ok]
    have hwq : widget_on_state db wid = widget_on_state da wid :=
      (inv_widget_on_state hRb wid).trans (inv_widget_on_state hRa wid).symm
    rw [hwq]
    exact ⟨dbmid, hwb, hb2⟩

theorem sim_truthy_multi {base : Doc} {chosen : ObjectId} :
    ∀ (ids : List ObjectId) (fv : Bytes) (da db da2 : Doc) (fv2 : Bytes),
      DocR base da → DocR base db → (∀ w ∈ ids, nonOffAt base w) →
      setButtonWidgetsTruthyMulti da ids chosen fv = .ok (da2, fv2) →
      ∃ db2, setButtonWidgetsTruthyMulti db ids chosen fv = .ok (db2, fv2) ∧
        DocR base da2 ∧ DocR base db2 ∧ PEq da da2 db db2 := by
  intro ids
  induction ids with
  | nil =>
    intro fv da db da2 fv2 hRa hRb _ h
    injection h with h2
    injection h2 with h3 h4
    subst h3
    subst h4
    exact ⟨db, rfl, hRa, hRb, PEq_init da db⟩
  | cons wid rest ih =>
    intro fv da db da2 fv2 hRa hRb hno h
    simp only [setButtonWidgetsTruthyMulti] at h
    by_cases hch : wid = chosen
    · rw [if_pos hch] at h
      obtain ⟨dmid, hw, hrest⟩ := except_bind_ok.mp h
      obtain ⟨dbmid, hwb, hRa2, hRb2, hP1⟩ :=
        sim_set_widget_as hRa hRb (hno wid (List.mem_cons_self wid rest)) hw
      obtain ⟨db2, hb2, hRa3, hRb3, hP2⟩ := ih _ dmid dbmid da2 fv2 hRa2 hRb2
        (fun w hwm => hno w (List.mem_cons_of_mem _ hwm)) hrest
      refine ⟨db2, ?_, hRa3, hRb3, PEq_comp hP1 hP2⟩
      simp only [setButtonWidgetsTruthyMulti]
      rw [if_pos hch]
      have hwq : widget_on_state db wid = widget_on_state da wid :=
        (inv_widget_on_state hRb wid).trans (inv_widget_on_state hRa wid).symm
      rw [hwq, except_bind_ok]
      exact ⟨dbmid, hwb, hb2⟩
    · rw [if_neg hch] at h
      obtain ⟨dmid, hw, hrest⟩ := except_bind_ok.mp h
      obtain ⟨dbmid, hwb, hRa2, hRb2, hP1⟩ :=
        sim_set_widget_as hRa hRb (hno wid (List.mem_cons_self wid rest)) hw
      obtain ⟨db2, hb2, hRa3, hRb3, hP2⟩ := ih fv dmid dbmid da2 fv2 hRa2 hRb2
        (fun w hwm => hno w (List.mem_cons_of_mem _ hwm)) hrest
      refine ⟨db2, ?_, hRa3, hRb3, PEq_comp hP1 hP2⟩
      simp only [setButtonWidgetsTruthyMulti]
      rw [if_neg hch, except_bind_ok]
      exact ⟨dbmid, hwb, hb2⟩


theorem sim_button_step {base da db da2 : Doc} {desc : FieldDescriptor}
    {raw : Text} {fv2 : Bytes}
    (hRa : DocR base da) (hRb : DocR base db)
    (hws : ∀ w ∈ desc.widget_ids, nonOffAt base w)
    (h : set_button_value_step da desc raw = .ok (da2, fv2)) :
    ∃ db2, set_button_value_step db desc raw = .ok (db2, fv2) ∧
      DocR base da2 ∧ DocR base db2 ∧ PEq da da2 db db2 := by
  have hwq : widget_on_state db = widget_on_state da :=
    funext (fun w => (inv_widget_on_state hRb w).trans
      (inv_widget_on_state hRa w).symm)
  unfold set_button_value_step at h ⊢
  try dsimp only at h ⊢
  rw [inv_widget_states hRa desc] at h
  rw [inv_widget_states hRb desc]
  split at h
  next hc1 =>
    rw [if_pos hc1]
    rcases hfind : (widget_states base desc).find?
        (fun p => bytesEqIgnoreAsciiCase p.2
          (utf8Encode (textAsciiLower (rustTrim raw)))) with _ | sel
    · rw [hfind] at h
      cases h
    · rw [hfind] at h
      dsimp only at h ⊢
      obtain ⟨da2x, hradio, hpair⟩ := except_map_ok.mp h
      injection hpair with hp1 hp2
      subst hp1
      subst hp2
      obtain ⟨db2, hradiob, hRa2, hRb2, hP⟩ :=
        sim_radio desc.widget_ids da db _ hRa hRb hws hradio
      refine ⟨db2, ?_, hRa2, hRb2, hP⟩
      rw [hfind]
      dsimp only
      rw [except_map_ok]
      exact ⟨db2, hradiob, rfl⟩
  next hc1 =>
    rw [if_neg hc1]
    split at h
    next hc2 =>
      rw [if_pos hc2]
      split at h
      next hc3 =>
        rw [if_pos hc3]
        rcases hids : desc.widget_ids with _ | ⟨chosen, restw⟩
        · rw [hids] at h
          injection h with h2
          injection h2 with h3 h4
          subst h3
          subst h4
          exact ⟨db, rfl, hRa, hRb, PEq_init da db⟩
        · rw [hids] at h hws
          obtain ⟨db2, hmb, hRa2, hRb2, hP⟩ :=
            sim_truthy_multi (chosen :: restw) bOff da db da2 fv2 hRa hRb hws h
          exact ⟨db2, hmb, hRa2, hRb2, hP⟩
      next hc3 =>
        rw [if_neg hc3]
        rw [hwq]
        obtain ⟨da2x, hsingle, hpair⟩ := except_map_ok.mp h
        injection hpair with hp1 hp2
        subst hp1
        subst hp2
        obtain ⟨db2, hsb, hRa2, hRb2, hP⟩ :=
          sim_truthy_single desc.widget_ids da db _ hRa hRb hws hsingle
        refine ⟨db2, ?_, hRa2, hRb2, hP⟩
        rw [except_map_ok]
        exact ⟨db2, hsb, rfl⟩
    next hc2 =>
      rw [if_neg hc2]
      obtain ⟨da2x, hoff, hpair⟩ := except_map_ok.mp h
      injection hpair with hp1 hp2
      subst hp1
      subst hp2
      obtain ⟨db2, hob, hRa2, hRb2, hP⟩ :=
        sim_off desc.widget_ids da db _ hRa hRb hws hoff
      refine ⟨db2, ?_, hRa2, hRb2, hP⟩
      rw [except_map_ok]
      exact ⟨db2, hob, rfl⟩

theorem sim_set_button_value {base da db da2 : Doc} {desc : FieldDescriptor}
    {raw : Text}
    (hRa : DocR base da) (hRb : DocR base db)
    (hws : ∀ w ∈ desc.widget_ids, nonOffAt base w) (hnoid : nonOffAt base desc.id)
    (h : set_button_value da desc raw = .ok da2) :
    ∃ db2, set_button_value db desc raw = .ok db2 ∧
      DocR base da2 ∧ DocR base db2 ∧ PEq da da2 db db2 := by
  unfold set_button_value at h ⊢
  obtain ⟨r, hstep, hwrite⟩ := except_bind_ok.mp h
  rcases r with ⟨dmid, fv⟩
  obtain ⟨dbmid, hstepb, hRa2, hRb2, hP1⟩ := sim_button_step hRa hRb hws hstep
  obtain ⟨ea, hla, rfl⟩ := docSetDictKey_ok_inv hwrite
  obtain ⟨e0, hl0, hD0⟩ := inv_lookup_dict_back hRa2 hla
  obtain ⟨eb, hlb, hDb⟩ := inv_lookup_dict hRb2 hl0
  refine ⟨_, ?_, DocR_trans hRa2 (DocR_write hla (by decide)
      (inv_nonOffAt hRa2 hnoid ea hla)),
    DocR_trans hRb2 (DocR_write hlb (by decide) (inv_nonOffAt hRb2 hnoid eb hlb)),
    PEq_comp hP1 (PEq_write hla hlb)⟩
  rw [except_bind_ok]
  exact ⟨(dbmid, fv), hstepb, docSetDictKey_ok hlb bV (.name fv) _ _⟩

theorem sim_apply {base da db da2 : Doc} {desc : FieldDescriptor} {value : Text}
    (hRa : DocR base da) (hRb : DocR base db)
    (hws : ∀ w ∈ desc.widget_ids, nonOffAt base w) (hnoid : nonOffAt base desc.id)
    (h : apply_field_value da desc value = .ok da2) :
    ∃ db2, apply_field_value db desc value = .ok db2 ∧
      DocR base da2 ∧ DocR base db2 ∧ PEq da da2 db db2 := by
  unfold apply_field_value at h ⊢
  try dsimp only at h ⊢
  split at h
  next h1 =>
    rw [if_pos h1]
    exact sim_set_text hRa hRb hnoid h
  next h1 =>
    rw [if_neg h1]
    split at h
    next h2 =>
      rw [if_pos h2]
      exact sim_set_button_value hRa hRb hws hnoid h
    next h2 =>
      rw [if_neg h2]
      cases h

theorem sim_loop {base : Doc} {m : FieldMap} :
    ∀ (descs : List FieldDescriptor) (da db da2 : Doc) (n n2 : Nat),
      DocR base da → DocR base db →
      (∀ desc ∈ descs, (∀ w ∈ desc.widget_ids, nonOffAt base w) ∧
        (field_input_value desc m = none ∨ nonOffAt base desc.id)) →
      fill_apply_descriptors da descs m n = .ok (da2, n2) →
      ∃ db2, fill_apply_descriptors db descs m n = .ok (db2, n2) ∧
        DocR base da2 ∧ DocR base db2 ∧ PEq da da2 db db2 := by
  intro descs
  induction descs with
  | nil =>
    intro da db da2 n n2 hRa hRb _ h
    injection h with h2
    injection h2 with h3 h4
    subst h3
    subst h4
    exact ⟨db, rfl, hRa, hRb, PEq_init da db⟩
  | cons desc rest ih =>
    intro da db da2 n n2 hRa hRb hok h
    simp only [fill_apply_descriptors] at h
    rcases hfi : field_input_value desc m with _ | value
    · rw [hfi] at h
      obtain ⟨db2, hb, hRa2, hRb2, hP⟩ := ih da db da2 n n2 hRa hRb
        (fun q hq => hok q (List.mem_cons_of_mem _ hq)) h
      refine ⟨db2, ?_, hRa2, hRb2, hP⟩
      simp only [fill_apply_descriptors]
      rw [hfi]
      exact hb
    · rw [hfi] at h
      obtain ⟨dmid, happly, hrest⟩ := except_bind_ok.mp h
      have hdOK := hok desc (List.mem_cons_self desc rest)
      have hnoid : nonOffAt base desc.id := by
        rcases hdOK.2 with hnone | hOK
        · rw [hfi] at hnone
          cases hnone
        · exact hOK
      obtain ⟨dbmid, happlyb, hRa2, hRb2, hP1⟩ :=
        sim_apply hRa hRb hdOK.1 hnoid happly
      obtain ⟨db2, hb, hRa3, hRb3, hP2⟩ := ih dmid dbmid da2 (n + 1) n2 hRa2 hRb2
        (fun q hq => hok q (List.mem_cons_of_mem _ hq)) hrest
      refine ⟨db2, ?_, hRa3, hRb3, PEq_comp hP1 hP2⟩
      simp only [fill_apply_descriptors]
      rw [hfi, except_bind_ok]
      exact ⟨dbmid, happlyb, hb⟩


theorem except_error_bind {ε α β : Type} (e : ε) (f : α → Except ε β) :
    (Except.error e >>= f : Except ε β) = .error e := rfl

theorem getDict_ok_inv {d : Doc} {id : ObjectId} {c : String} {ctx : Text}
    {e : Dict} (h : getDict d id c ctx = .ok e) :
    docLookup d id = some (.dict e) := by
  unfold getDict at h
  rcases hl : docLookup d id with _ | o
  · rw [hl] at h
    cases h
  · rw [hl] at h
    cases o <;> simp only [asDict] at h <;> try cases h
    rfl

theorem describe_field_id (d : Doc) (f : ObjectId) :
    (describe_field d f).id = f := rfl

theorem describe_field_full (d : Doc) (f : ObjectId) :
    (describe_field d f).full_name = field_full_name d f 0 := rfl

theorem describe_field_pname (d : Doc) (f : ObjectId) :
    (describe_field d f).partial_name = field_partial_name d f := rfl

theorem field_input_some_name {desc : FieldDescriptor} {m : FieldMap} {v : Text}
    (h : field_input_value desc m = some v) :
    desc.full_name ≠ none ∨ desc.partial_name ≠ none := by
  rcases hf : desc.full_name with _ | fn
  · rcases hp : desc.partial_name with _ | pn
    · unfold field_input_value at h
      rw [hf, hp] at h
      cases h
    · right
      simp
  · left
    simp

theorem nonOff_of_descOK {d : Doc} {f : ObjectId} {m : FieldMap} {v : Text}
    (h : field_input_value (describe_field d f) m = some v) : nonOffAt d f := by
  rcases field_input_some_name h with hfull | hpart
  · rw [describe_field_full] at hfull
    exact nonOff_of_full hfull
  · rw [describe_field_pname] at hpart
    exact nonOff_of_partial hpart

theorem ensure_ok_inv {d : Doc} {cid : ObjectId} {p : Doc × ObjectId}
    (h : ensure_acroform_object d cid = .ok p) :
    p.1.trailer = d.trailer ∧
    ∃ cat, docLookup p.1 cid = some (.dict cat) ∧
      dictGet cat bAcroForm = some (.reference p.2) := by
  unfold ensure_acroform_object at h
  obtain ⟨catalog, hcat, h2⟩ := except_bind_ok.mp h
  have hl : docLookup d cid = some (.dict catalog) := getDict_ok_inv hcat
  rcases hac : dictGet catalog bAcroForm with _ | obj
  · rw [hac] at h2
    cases h2
  · rw [hac] at h2
    cases obj with
    | reference rid =>
      injection h2 with h3
      subst h3
      exact ⟨rfl, catalog, hl, hac⟩
    | dict e =>
      dsimp only at h2
      obtain ⟨d2x, hset, h3⟩ := except_bind_ok.mp h2
      injection h3 with h4
      subst h4
      obtain ⟨cat0, hl0, rfl⟩ := docSetDictKey_ok_inv hset
      refine ⟨rfl, dictSet cat0 bAcroForm
        (.reference (addObject d (.dict e)).2), ?_, ?_⟩
      · rw [docLookup_docSetObj_self, hl0]
        rfl
      · exact dictGet_dictSet_self _ _ _
    | null => cases h2
    | boolean b => cases h2
    | integer i => cases h2
    | real r => cases h2
    | name bs => cases h2
    | str bs fmt => cases h2
    | array items => cases h2
    | stream => cases h2


/-- C8 (confirmed): no-change idempotence of fill.  The byte-level save and
re-parse between the two runs is spec-modelled (§4.8, see `fill_blocks_doc`):
whenever the document-level fill succeeds, running it again on its output with
the same input map succeeds as well, and the second output agrees with the
first pointwise — at every object — on the `V`, `DV` and `AS` values. -/
theorem C8_fill_idempotent :
    ∀ (d0 : Doc) (m : FieldMap) (d1 : Doc),
      fill_blocks_doc d0 m = .ok d1 →
      ∃ d4, fill_blocks_doc d1 m = .ok d4 ∧
        ∀ id k, k = bV ∨ k = bDV ∨ k = bAS →
          dictValAt d4 id k = dictValAt d1 id k := by
  intro d0 m d1 h
  unfold fill_blocks_doc at h
  obtain ⟨cid, hroot, h⟩ := except_bind_ok.mp h
  obtain ⟨p, hensure, h⟩ := except_bind_ok.mp h
  obtain ⟨d2, hNA, h⟩ := except_bind_ok.mp h
  obtain ⟨acro, hget, h⟩ := except_bind_ok.mp h
  try dsimp only at h
  rcases hfq : dictGet acro bFields with _ | roots
  · rw [hfq] at h
    try dsimp only at h
    rw [except_error_bind] at h
    cases h
  · rw [hfq] at h
    try dsimp only at h
    rw [except_pure_bind] at h
    try dsimp only at h
    by_cases hids : (collect_field_ids d2 roots [] ∅).val.1 = []
    · rw [if_pos hids] at h
      cases h
    · rw [if_neg hids] at h
      try dsimp only at h
      obtain ⟨r, hloop, h⟩ := except_bind_ok.mp h
      by_cases hguard : r.2 = 0 ∧ m ≠ []
      · rw [if_pos hguard] at h
        cases h
      · rw [if_neg hguard] at h
        injection h with h2
        subst h2
        obtain ⟨htrA, cat, hcatA, hacA⟩ := ensure_ok_inv hensure
        obtain ⟨aA, hlaA, hd2⟩ := docSetDictKey_ok_inv hNA
        subst hd2
        have hl2 : docLookup (docSetObj p.1 p.2
            (.dict (dictSet aA bNeedAppearances (.boolean true)))) p.2 =
            some (.dict acro) := getDict_ok_inv hget
        have hl2b : docLookup (docSetObj p.1 p.2
            (.dict (dictSet aA bNeedAppearances (.boolean true)))) p.2 =
            some (.dict (dictSet aA bNeedAppearances (.boolean true))) := by
          rw [docLookup_docSetObj_self, hlaA]
          rfl
        rw [hl2] at hl2b
        injection hl2b with hq
        injection hq with hq2
        subst hq2
        have hfqA : dictGet aA bFields = some roots := by
          rw [← dictGet_dictSet_ne aA (k := bNeedAppearances)
            (.boolean true) (by decide)]
          exact hfq
        have hnoaA : firstNonOffKey aA ≠ none :=
          firstNonOffKey_ne_none_of_get hfqA (by decide)
        have hE : DocR p.1 (docSetObj p.1 p.2
            (.dict (dictSet aA bNeedAppearances (.boolean true)))) :=
          DocR_write hlaA (by decide) hnoaA
        have hdok : ∀ desc ∈ (collect_field_ids (docSetObj p.1 p.2
              (.dict (dictSet aA bNeedAppearances (.boolean true)))) roots []
              ∅).val.1.map (describe_field (docSetObj p.1 p.2
              (.dict (dictSet aA bNeedAppearances (.boolean true))))),
            (∀ w ∈ desc.widget_ids, nonOffAt (docSetObj p.1 p.2
              (.dict (dictSet aA bNeedAppearances (.boolean true)))) w) ∧
            (field_input_value desc m = none ∨ nonOffAt (docSetObj p.1 p.2
              (.dict (dictSet aA bNeedAppearances (.boolean true)))) desc.id) := by
          intro desc hdm
          rw [List.mem_map] at hdm
          obtain ⟨f, hfmem, rfl⟩ := hdm
          constructor
          · intro w hw
            exact nonOffAt_of_isWidget (describe_widget_ok _ f w hw)
          · rcases hfi : field_input_value (describe_field _ f) m with _ | v
            · exact Or.inl rfl
            · right
              rw [describe_field_id]
              exact nonOff_of_descOK hfi
        obtain ⟨_, _, hRd21, _⟩ := sim_loop _ _ _ r.1 0 r.2 (DocR_refl _)
          (DocR_refl _) hdok hloop
        have htr : r.1.trailer = d0.trailer := by
          rw [hRd21.1]
          rw [trailer_docSetObj]
          exact htrA
        have hroot2 : root_catalog_id r.1 = .ok cid := by
          unfold root_catalog_id at hroot ⊢
          rw [htr]
          exact hroot
        have hRA1 : DocR p.1 r.1 := DocR_trans hE hRd21
        obtain ⟨cat1, hcat1, hDcat⟩ := inv_lookup_dict hRA1 hcatA
        have hac1 : dictGet cat1 bAcroForm = some (.reference p.2) := by
          rw [hDcat.1 bAcroForm (by decide)]
          exact hacA
        have hens2 : ensure_acroform_object r.1 cid = .ok (r.1, p.2) := by
          unfold ensure_acroform_object
          refine except_bind_ok.mpr ⟨cat1, ?_, ?_⟩
          · unfold getDict
            rw [hcat1]
            rfl
          · rw [hac1]
        obtain ⟨e1, hl1, hD1⟩ := inv_lookup_dict hRd21 hl2
        have hnoe1 : firstNonOffKey e1 ≠ none := by
          rw [hD1.2]
          exact firstNonOffKey_ne_none_of_get hfq (by decide)
        have hNA2 : docSetDictKey r.1 p.2 bNeedAppearances (.boolean true)
            "BW_FORM_ACROFORM_INVALID" "AcroForm dictionary".data =
            .ok (docSetObj r.1 p.2 (.dict (dictSet e1 bNeedAppearances
              (.boolean true)))) :=
          docSetDictKey_ok hl1 bNeedAppearances (.boolean true) _ _
        have hR2d1 : DocR (docSetObj p.1 p.2
            (.dict (dictSet aA bNeedAppearances (.boolean true))))
            (docSetObj r.1 p.2 (.dict (dictSet e1 bNeedAppearances
              (.boolean true)))) :=
          DocR_trans hRd21 (DocR_write hl1 (by decide) hnoe1)
        have hget2 : getDict (docSetObj r.1 p.2 (.dict (dictSet e1
            bNeedAppearances (.boolean true)))) p.2 "BW_FORM_ACROFORM_INVALID"
            "AcroForm dictionary".data =
            .ok (dictSet e1 bNeedAppearances (.boolean true)) := by
          unfold getDict
          rw [docLookup_docSetObj_self, hl1]
          rfl
        have hfq2 : dictGet (dictSet e1 bNeedAppearances (.boolean true))
            bFields = some roots := by
          rw [dictGet_dictSet_ne _ _ (by decide), hD1.1 bFields (by decide)]
          exact hfq
        have hids2 : (collect_field_ids (docSetObj r.1 p.2 (.dict (dictSet e1
            bNeedAppearances (.boolean true)))) roots [] ∅).val =
            (collect_field_ids (docSetObj p.1 p.2 (.dict (dictSet aA
              bNeedAppearances (.boolean true)))) roots [] ∅).val :=
          inv_collect_field_ids hR2d1 roots [] ∅
        have hdesc2 : describe_field (docSetObj r.1 p.2 (.dict (dictSet e1
            bNeedAppearances (.boolean true)))) =
            describe_field (docSetObj p.1 p.2 (.dict (dictSet aA
              bNeedAppearances (.boolean true)))) :=
          funext (inv_describe_field hR2d1)
        obtain ⟨d4, hloop2, _, hR2d4, hP⟩ := sim_loop _ _ _ r.1 0 r.2
          (DocR_refl _) hR2d1 hdok hloop
        refine ⟨d4, ?_, ?_⟩
        · unfold fill_blocks_doc
          rw [hroot2, except_ok_bind]
          try dsimp only
          rw [hens2, except_ok_bind]
          try dsimp only
          rw [hNA2, except_ok_bind]
          try dsimp only
          rw [hget2, except_ok_bind]
          try dsimp only
          rw [hfq2]
          try dsimp only
          rw [except_pure_bind]
          try dsimp only
          rw [hids2]
          rw [if_neg hids]
          try dsimp only
          rw [hdesc2]
          rw [hloop2, except_ok_bind]
          try dsimp only
          rw [if_neg hguard]
        · intro id k hk
          have hlk : fillLKey k = true := by
            rcases hk with h1 | h1 | h1 <;> subst h1 <;> decide
          rcases hP id k hlk with hEq | ⟨hbEq, _⟩
          · exact hEq
          · rw [hbEq]
            by_cases hidp : id = p.2
            · subst hidp
              rw [dictValAt_docSetObj_dict hl1 _ k,
                dictGet_dictSet_ne _ _ (fillLKey_ne_na hlk),
                dictValAt_eq_get hl1 k]
            · exact dictValAt_write_ne_id hidp _ _


theorem c7_run : fill_blocks_doc c7Doc [] = .ok c7Doc2 := by
  unfold fill_blocks_doc
  rw [show root_catalog_id c7Doc = Except.ok ((10 : Nat), (0 : Nat)) from rfl,
    except_ok_bind]
  try dsimp only
  rw [show ensure_acroform_object c7Doc ((10 : Nat), (0 : Nat)) =
      Except.ok (c7Doc, ((11 : Nat), (0 : Nat))) from rfl, except_ok_bind]
  try dsimp only
  rw [show docSetDictKey c7Doc ((11 : Nat), (0 : Nat)) bNeedAppearances
      (.boolean true) "BW_FORM_ACROFORM_INVALID" "AcroForm dictionary".data =
      Except.ok c7Doc2 from rfl, except_ok_bind]
  try dsimp only
  rw [show getDict c7Doc2 ((11 : Nat), (0 : Nat)) "BW_FORM_ACROFORM_INVALID"
      "AcroForm dictionary".data = Except.ok c7Acro from rfl, except_ok_bind]
  try dsimp only
  rw [show dictGet c7Acro bFields =
      some (.array [.reference ((1 : Nat), (0 : Nat))]) from rfl]
  try dsimp only
  rw [except_pure_bind]
  try dsimp only
  rw [c7_collect]
  try dsimp only
  rw [if_neg (by simp)]
  try dsimp only
  rw [fill_apply_descriptors_skip_all (fun q _ => field_input_value_empty q),
    except_ok_bind]
  try dsimp only
  rw [if_neg (by simp)]

/-- Witness for C8: a concrete successful fill (the empty input map on a
one-field form) whose re-run the theorem resolves. -/
theorem C8_witness :
    fill_blocks_doc c7Doc [] = .ok c7Doc2 ∧
    ∃ d4, fill_blocks_doc c7Doc2 [] = .ok d4 ∧
      ∀ id k, k = bV ∨ k = bDV ∨ k = bAS →
        dictValAt d4 id k = dictValAt c7Doc2 id k :=
  ⟨c7_run, C8_fill_idempotent c7Doc [] c7Doc2 c7_run⟩

end BlockyWriter
